import Mathlib

/-!
Verification development for the fbi-to-rss scraper/feed generator
(`fbi_to_rss.py`).

The Python source is shallowly embedded here:

* Page text is modelled as `Str := List Char`.  The specific regular
  expressions used by the source (`re.search` / `re.findall` over raw page
  text) are implemented as executable scanners over `Str`, reproducing the
  leftmost-match and case-insensitivity behaviour of the concrete patterns.
* Parsed JSON values (the output of `json.loads`) are modelled by the
  inductive `Json`.
* Third-party library calls whose internals are not part of this repository
  (the `requests` network stack, BeautifulSoup's HTML parsing, the
  `json.loads`-based blob isolation of `extract_json_data`) are modelled as
  oracle fields of an environment record `Env`: the repository code is
  embedded faithfully *around* those oracles.
* Python `datetime` values are modelled by `PyDatetime` (wall-clock seconds
  since the Unix epoch of the naive reading, microseconds, and an optional
  fixed utcoffset in seconds; `tz = none` models a naive datetime).  The
  host's local timezone (used by `time.mktime` in the final feed reordering)
  is modelled as a fixed offset `Env.localOffset` (no DST modelling).
* Python exceptions that the source does not catch are modelled with
  `Except Unit`; caught exceptions are modelled by `Option`/fallthrough,
  exactly where the source catches them.
* `feedgen`'s `FeedGenerator.add_entry` inserts new entries at the *head* of
  its entry list (its `order` parameter defaults to `'prepend'`), so the
  intermediate XML produced by `rss_str` lists entries in reverse order of
  addition; the embedding models this.  `FeedEntry.pubDate` raises on a
  naive datetime and acts as a getter when passed `None` (so episodes with
  `date = None` get no `pubDate` element).
-/

namespace FbiToRss

abbrev Str := List Char

/-- Python `pat in s` (substring containment): does `pat` start at the head? -/
def startsWithL : Str → Str → Bool
  | [], _ => true
  | _ :: _, [] => false
  | p :: ps, c :: cs => p = c && startsWithL ps cs

/-- Python `pat in s` (substring containment). -/
def occursIn (pat : Str) : Str → Bool
  | [] => pat.isEmpty
  | c :: cs => startsWithL pat (c :: cs) || occursIn pat cs

/-- Case-insensitive variant of `startsWithL` (models `re.I` literals). -/
def startsWithCI : Str → Str → Bool
  | [], _ => true
  | _ :: _, [] => false
  | p :: ps, c :: cs => p.toLower = c.toLower && startsWithCI ps cs

/-- Lower-case a string (models Python `str.lower`). -/
def lowerStr (s : Str) : Str := s.map Char.toLower

/-- Python `str.endswith`. -/
def endsWithL (pat s : Str) : Bool := startsWithL pat.reverse s.reverse

/-- Python `str.startswith` on real strings. -/
def pyStartsWith (s pat : String) : Bool := startsWithL pat.toList s.toList

/-- `list(dict.fromkeys(l))`: deduplicate, keeping first occurrences in order. -/
def dedupKeepFirst : List Str → List Str :=
  let rec go (seen : List Str) : List Str → List Str
    | [] => []
    | x :: xs => if x ∈ seen then go seen xs else x :: go (seen ++ [x]) xs
  go []

theorem dedupKeepFirst_go_nodup (seen : List Str) (l : List Str) :
    (dedupKeepFirst.go seen l).Nodup ∧ ∀ x ∈ dedupKeepFirst.go seen l, x ∉ seen := by
  induction l generalizing seen with
  | nil => simp [dedupKeepFirst.go]
  | cons x xs ih =>
    by_cases hx : x ∈ seen
    · simpa [dedupKeepFirst.go, hx] using ih seen
    · have h2 := ih (seen ++ [x])
      refine ⟨?_, ?_⟩
      · simp only [dedupKeepFirst.go, hx, if_false, List.nodup_cons]
        refine ⟨fun hmem => ?_, h2.1⟩
        exact (h2.2 x hmem) (by simp)
      · intro y hy
        simp only [dedupKeepFirst.go, hx, if_false, List.mem_cons] at hy
        rcases hy with rfl | hy
        · exact hx
        · intro hseen
          exact (h2.2 y hy) (by simp [hseen])

/-- The deduplicated list has no duplicates. -/
theorem dedupKeepFirst_nodup (l : List Str) : (dedupKeepFirst l).Nodup :=
  (dedupKeepFirst_go_nodup [] l).1

/-- The deduplicated list is a sublist (so first occurrences keep document order). -/
theorem dedupKeepFirst_sublist (l : List Str) : List.Sublist (dedupKeepFirst l) l := by
  suffices h : ∀ seen, List.Sublist (dedupKeepFirst.go seen l) l from h []
  induction l with
  | nil => intro seen; simp [dedupKeepFirst.go]
  | cons x xs ih =>
    intro seen
    by_cases hx : x ∈ seen
    · simp only [dedupKeepFirst.go, hx, if_true]
      exact (ih seen).cons x
    · simp only [dedupKeepFirst.go, hx, if_false]
      exact (ih (seen ++ [x])).cons₂ x

/-! ## Stable descending sort

`sorted(l, key=k, reverse=True)` in Python is a *stable* sort putting larger
keys first; ties keep their original relative order.  `insD`/`sortD` is the
insertion-sort realisation of exactly that specification. -/

variable {α : Type} {K : Type}

/-- Stable descending insert: `a` goes in front of the first element whose key
is `≤ key a` (elements that were earlier keep priority on ties). -/
def insD [LinearOrder K] (key : α → K) (a : α) : List α → List α
  | [] => [a]
  | b :: l => if key a < key b then b :: insD key a l else a :: b :: l

/-- Stable descending insertion sort (Python `sorted(..., reverse=True)`). -/
def sortD [LinearOrder K] (key : α → K) : List α → List α
  | [] => []
  | a :: l => insD key a (sortD key l)

theorem insD_perm [LinearOrder K] (key : α → K) (a : α) (l : List α) :
    List.Perm (insD key a l) (a :: l) := by
  induction l with
  | nil => simp [insD]
  | cons b t ih =>
    by_cases h : key a < key b
    · simp only [insD, h, if_true]
      exact List.Perm.trans (ih.cons b) (List.Perm.swap a b t)
    · simp [insD, h]

theorem sortD_perm [LinearOrder K] (key : α → K) (l : List α) :
    List.Perm (sortD key l) l := by
  induction l with
  | nil => simp [sortD]
  | cons a t ih =>
    exact List.Perm.trans (insD_perm key a (sortD key t)) (ih.cons a)

theorem insD_sorted [LinearOrder K] (key : α → K) (a : α) (l : List α)
    (h : l.Pairwise (fun x y => key y ≤ key x)) :
    (insD key a l).Pairwise (fun x y => key y ≤ key x) := by
  induction l with
  | nil => simp [insD]
  | cons b t ih =>
    rcases List.pairwise_cons.mp h with ⟨hb, ht⟩
    by_cases hab : key a < key b
    · simp only [insD, hab, if_true]
      refine List.pairwise_cons.mpr ⟨?_, ih ht⟩
      intro y hy
      have := (insD_perm key a t).mem_iff.mp hy
      rcases List.mem_cons.mp this with rfl | hyt
      · exact le_of_lt hab
      · exact hb y hyt
    · simp only [insD, hab, if_false]
      refine List.pairwise_cons.mpr ⟨?_, h⟩
      intro y hy
      rcases List.mem_cons.mp hy with rfl | hyt
      · exact le_of_not_lt hab
      · exact le_trans (hb y hyt) (le_of_not_lt hab)

/-- The sort output is weakly descending in the key. -/
theorem sortD_sorted [LinearOrder K] (key : α → K) (l : List α) :
    (sortD key l).Pairwise (fun x y => key y ≤ key x) := by
  induction l with
  | nil => simp [sortD]
  | cons a t ih => exact insD_sorted key a _ ih

theorem insD_filter_eq_key [LinearOrder K] [DecidableEq K] (key : α → K) (c : K)
    (a : α) (l : List α) :
    (insD key a l).filter (fun x => key x = c) =
      if key a = c then a :: l.filter (fun x => key x = c)
      else l.filter (fun x => key x = c) := by
  induction l with
  | nil => by_cases h : key a = c <;> simp [insD, h]
  | cons b t ih =>
    by_cases hab : key a < key b
    · have hbc : key a = c → ¬ (key b = c) := by
        intro hac hbc; rw [hac, hbc] at hab; exact lt_irrefl c hab
      simp only [insD, hab, if_true, List.filter_cons]
      by_cases hb : key b = c
      · have hac : ¬ key a = c := fun h => hbc h hb
        simp [hb, hac, ih]
      · simp [hb, ih]
    · simp only [insD, hab, if_false, List.filter_cons]
      by_cases ha : key a = c <;> simp [ha]

/-- Stability: elements whose key equals a fixed value `c` appear in the sorted
output in exactly their original order. -/
theorem sortD_filter_eq_key [LinearOrder K] [DecidableEq K] (key : α → K) (c : K)
    (l : List α) :
    (sortD key l).filter (fun x => key x = c) = l.filter (fun x => key x = c) := by
  induction l with
  | nil => simp [sortD]
  | cons a t ih =>
    show (insD key a (sortD key t)).filter _ = _
    rw [insD_filter_eq_key, ih, List.filter_cons]
    by_cases h : key a = c <;> simp [h]

theorem insD_of_forall_le [LinearOrder K] (key : α → K) (a : α) (l : List α)
    (h : ∀ b ∈ l, key b ≤ key a) : insD key a l = a :: l := by
  cases l with
  | nil => rfl
  | cons b t =>
    have : ¬ key a < key b := not_lt_of_ge (h b (List.mem_cons_self b t))
    simp [insD, this]

/-- Sorting an already (weakly) descending list does nothing. -/
theorem sortD_eq_of_sorted [LinearOrder K] (key : α → K) (l : List α)
    (h : l.Pairwise (fun x y => key y ≤ key x)) : sortD key l = l := by
  induction l with
  | nil => rfl
  | cons a t ih =>
    rcases List.pairwise_cons.mp h with ⟨ha, ht⟩
    show insD key a (sortD key t) = a :: t
    rw [ih ht]
    exact insD_of_forall_le key a t ha

theorem insD_of_forall_lt [LinearOrder K] (key : α → K) (a : α) (l : List α)
    (h : ∀ b ∈ l, key a < key b) : insD key a l = l ++ [a] := by
  induction l with
  | nil => rfl
  | cons b t ih =>
    have hb : key a < key b := h b (List.mem_cons_self b t)
    simp only [insD, hb, if_true, List.cons_append, List.cons.injEq, true_and]
    exact ih (fun x hx => h x (List.mem_cons_of_mem b hx))

/-- Sorting a strictly ascending list reverses it. -/
theorem sortD_eq_reverse_of_strict_asc [LinearOrder K] (key : α → K) (l : List α)
    (h : l.Pairwise (fun x y => key x < key y)) : sortD key l = l.reverse := by
  induction l with
  | nil => rfl
  | cons a t ih =>
    rcases List.pairwise_cons.mp h with ⟨ha, ht⟩
    show insD key a (sortD key t) = (a :: t).reverse
    rw [ih ht, List.reverse_cons]
    exact insD_of_forall_lt key a _ (fun b hb => ha b (List.mem_reverse.mp hb))

/-- In a weakly descending list every positive-key element precedes every
non-positive-key element: the list splits as a concatenation of its
positive-key part and its non-positive-key part. -/
theorem sorted_split_pos (key : α → Int) (l : List α)
    (h : l.Pairwise (fun x y => key y ≤ key x)) :
    l = l.filter (fun x => 0 < key x) ++ l.filter (fun x => ¬ 0 < key x) := by
  induction l with
  | nil => rfl
  | cons a t ih =>
    rcases List.pairwise_cons.mp h with ⟨ha, ht⟩
    by_cases hpos : 0 < key a
    · have h1 : (a :: t).filter (fun x => 0 < key x) =
          a :: t.filter (fun x => 0 < key x) := by
        simp [List.filter_cons, hpos]
      have h2 : (a :: t).filter (fun x => ¬ 0 < key x) =
          t.filter (fun x => ¬ 0 < key x) := by
        simp [List.filter_cons, hpos]
      rw [h1, h2, List.cons_append]
      exact congrArg (a :: ·) (ih ht)
    · have hall : ∀ b ∈ t, ¬ 0 < key b := by
        intro b hb hbpos
        exact hpos (lt_of_lt_of_le hbpos (ha b hb))
      have h1 : (a :: t).filter (fun x => 0 < key x) = [] := by
        rw [List.filter_eq_nil_iff]
        intro b hb
        rcases List.mem_cons.mp hb with rfl | hbt
        · simpa using hpos
        · simpa using hall b hbt
      have h2 : (a :: t).filter (fun x => ¬ 0 < key x) = a :: t := by
        rw [List.filter_eq_self]
        intro b hb
        rcases List.mem_cons.mp hb with rfl | hbt
        · simpa using hpos
        · simpa using hall b hbt
      rw [h1, h2, List.nil_append]

/-! ## Python datetime model -/

/-- Gregorian leap year (`calendar.isleap`). -/
def isLeapYear (y : Nat) : Bool := y % 4 = 0 && (y % 100 ≠ 0 || y % 400 = 0)

/-- Days in a month of the proleptic Gregorian calendar. -/
def daysInMonth (y m : Nat) : Nat :=
  if m = 2 then (if isLeapYear y then 29 else 28)
  else if m = 4 || m = 6 || m = 9 || m = 11 then 30
  else 31

/-- Days in the years `1 .. y-1`. -/
def daysBeforeYear (y : Nat) : Nat :=
  let p := y - 1
  p * 365 + p / 4 - p / 100 + p / 400

/-- Days in the months `1 .. m-1` of year `y`. -/
def daysBeforeMonth (y m : Nat) : Nat :=
  (List.range m).foldl (fun acc k => if 1 ≤ k then acc + daysInMonth y k else acc) 0

/-- Proleptic-Gregorian ordinal (`datetime.toordinal`, 0001-01-01 ↦ 1). -/
def toOrdinalDay (y m d : Nat) : Nat := daysBeforeYear y + daysBeforeMonth y m + d

/-- Ordinal of 1970-01-01 (the Unix epoch). -/
def epochOrdinal : Nat := 719163

/-- Days since the Unix epoch of a civil date. -/
def civilToEpochDays (y m d : Nat) : Int := (toOrdinalDay y m d : Int) - (epochOrdinal : Int)

/-- Is `y-m-d h:mi:s` a valid datetime for Python's constructor? -/
def validCivil (y m d h mi s : Nat) : Bool :=
  1 ≤ y && y ≤ 9999 && 1 ≤ m && m ≤ 12 && 1 ≤ d && d ≤ daysInMonth y m &&
    h < 24 && mi < 60 && s < 60

/--
Model of a Python `datetime`:

* `wallSec` — the wall-clock reading converted to seconds since the Unix
  epoch *as if it were UTC* (i.e. with no offset applied);
* `micro` — the microsecond field (`0 ≤ micro < 10^6`, as `datetime` enforces);
* `tz` — `none` for a naive datetime, `some o` for an aware one with a fixed
  `utcoffset()` of `o` seconds.
-/
structure PyDatetime where
  wallSec : Int
  micro : Fin 1000000
  tz : Option Int
deriving DecidableEq

/-- `datetime(y, m, d, h, mi, s, tzinfo=timezone.utc)`-style constructor
(already validated). -/
def mkDT (y m d h mi s : Nat) (tz : Option Int) : PyDatetime :=
  { wallSec := civilToEpochDays y m d * 86400 + (h * 3600 + mi * 60 + s : Nat)
    micro := 0
    tz := tz }

/-- `datetime.timestamp()` in integer microseconds.  A naive datetime is
interpreted in the host's local timezone (offset `localOff` seconds). -/
def tsMicro (localOff : Int) (d : PyDatetime) : Int :=
  match d.tz with
  | some o => (d.wallSec - o) * 1000000 + ((d.micro : Nat) : Int)
  | none => (d.wallSec - localOff) * 1000000 + ((d.micro : Nat) : Int)

/-- The instant of an aware datetime truncated to whole seconds (what survives
into an RFC-822 `pubDate` string). -/
def tsSecOf (w o : Int) : Int := w - o

end FbiToRss

namespace FbiToRss

/-! ## JSON values (output of `json.loads`) -/

inductive Json where
  | null : Json
  | bool : Bool → Json
  | num : Int → Json
  | str : Str → Json
  | arr : List Json → Json
  | obj : List (Str × Json) → Json

mutual

def jsonBeq : Json → Json → Bool
  | .null, .null => true
  | .bool a, .bool b => a == b
  | .num a, .num b => a == b
  | .str a, .str b => a == b
  | .arr xs, .arr ys => jsonBeqA xs ys
  | .obj xs, .obj ys => jsonBeqO xs ys
  | _, _ => false

def jsonBeqA : List Json → List Json → Bool
  | [], [] => true
  | x :: xs, y :: ys => jsonBeq x y && jsonBeqA xs ys
  | _, _ => false

def jsonBeqO : List (Str × Json) → List (Str × Json) → Bool
  | [], [] => true
  | (k, v) :: xs, (k2, v2) :: ys => k == k2 && jsonBeq v v2 && jsonBeqO xs ys
  | _, _ => false

end

mutual

theorem jsonBeq_iff : ∀ (a b : Json), jsonBeq a b = true ↔ a = b
  | .null, b => by cases b <;> simp [jsonBeq]
  | .bool x, b => by cases b <;> simp [jsonBeq]
  | .num x, b => by cases b <;> simp [jsonBeq]
  | .str x, b => by cases b <;> simp [jsonBeq]
  | .arr xs, b => by
    cases b <;> simp only [jsonBeq, Bool.false_eq_true, false_iff] <;>
      try exact fun h => Json.noConfusion h
    rw [jsonBeqA_iff]
    exact ⟨fun h => by rw [h], fun h => Json.arr.inj h⟩
  | .obj xs, b => by
    cases b <;> simp only [jsonBeq, Bool.false_eq_true, false_iff] <;>
      try exact fun h => Json.noConfusion h
    rw [jsonBeqO_iff]
    exact ⟨fun h => by rw [h], fun h => Json.obj.inj h⟩

theorem jsonBeqA_iff : ∀ (xs ys : List Json), jsonBeqA xs ys = true ↔ xs = ys
  | [], ys => by cases ys <;> simp [jsonBeqA]
  | x :: xs, [] => by simp [jsonBeqA]
  | x :: xs, y :: ys => by
    simp only [jsonBeqA, Bool.and_eq_true, jsonBeq_iff, jsonBeqA_iff, List.cons.injEq]

theorem jsonBeqO_iff : ∀ (xs ys : List (Str × Json)), jsonBeqO xs ys = true ↔ xs = ys
  | [], ys => by cases ys <;> simp [jsonBeqO]
  | x :: xs, [] => by simp [jsonBeqO]
  | (k, v) :: xs, (k2, v2) :: ys => by
    simp only [jsonBeqO, Bool.and_eq_true, jsonBeq_iff, jsonBeqO_iff, List.cons.injEq,
      beq_iff_eq, Prod.mk.injEq, and_assoc]

end

instance : DecidableEq Json := fun a b => decidable_of_iff _ (jsonBeq_iff a b)

/-- `d.get(k)` on a Python dict (association list, first binding wins). -/
def lookupKey (k : Str) : List (Str × Json) → Option Json
  | [] => none
  | (k', v) :: t => if k' = k then some v else lookupKey k t

/-- `d.get(k, default)`. -/
def getKeyD (k : Str) (d : Json) (kvs : List (Str × Json)) : Json :=
  (lookupKey k kvs).getD d

/-- `k in d`. -/
def hasKey (k : Str) (kvs : List (Str × Json)) : Bool :=
  (lookupKey k kvs).isSome

/-- Python truthiness of a JSON value. -/
def truthy : Json → Bool
  | .null => false
  | .bool b => b
  | .num n => decide (n ≠ 0)
  | .str s => !s.isEmpty
  | .arr xs => !xs.isEmpty
  | .obj kvs => !kvs.isEmpty

def isDictOrList : Json → Bool
  | .obj _ => true
  | .arr _ => true
  | _ => false

mutual

/-- Python `repr` of a JSON value (string quoting simplified to plain single
quotes without escape rendering; no theorem below depends on the rendering of
container or numeric values). -/
def pyRepr : Json → Str
  | .null => "None".toList
  | .bool true => "True".toList
  | .bool false => "False".toList
  | .num n => (toString n).toList
  | .str s => '\'' :: (s ++ ['\''])
  | .arr xs => '[' :: (pyReprListA xs ++ [']'])
  | .obj kvs => '\x7b' :: (pyReprListO kvs ++ ['\x7d'])

def pyReprListA : List Json → Str
  | [] => []
  | [x] => pyRepr x
  | x :: y :: xs => pyRepr x ++ (", ".toList ++ pyReprListA (y :: xs))

def pyReprListO : List (Str × Json) → Str
  | [] => []
  | [(k, v)] => pyRepr (.str k) ++ (": ".toList ++ pyRepr v)
  | (k, v) :: p :: xs =>
    pyRepr (.str k) ++ (": ".toList ++ pyRepr v ++ (", ".toList ++ pyReprListO (p :: xs)))

end

/-- Python `str()` of a JSON value. -/
def pyStr : Json → Str
  | .str s => s
  | j => pyRepr j

end FbiToRss

namespace FbiToRss

/-! ## Episode extraction from structured data
(`FBIRadioScraper.extract_episodes_from_json`) -/

/-- Site constants from the scraper class. -/
def baseUrl : Str := "https://www.fbi.radio".toList

def programUrl (slugP : Str) : Str := baseUrl ++ ("/programs/".toList ++ slugP)

/-- The episode dict assembled by `find_episodes` (plus the URL built from it). -/
structure RawEpisode where
  idField : Json
  title : Json
  slug : Json
  airedAt : Json
  description : Json
  omnyStudioClip : Json
  url : Str
deriving DecidableEq

/-- `data.get('description', {}).get('root', {}).get('children', [])`:
the chained `.get` calls raise `AttributeError` (modelled as `.error ()`) when
`description` (or its `root` field) is present but not a dict. -/
def descChildren (kvs : List (Str × Json)) : Except Unit Json :=
  match lookupKey "description".toList kvs with
  | none => .ok (.arr [])
  | some (.obj k2) =>
    match lookupKey "root".toList k2 with
    | none => .ok (.arr [])
    | some (.obj k3) => .ok (getKeyD "children".toList (.arr []) k3)
    | some _ => .error ()
  | some _ => .error ()

/-- Does the chained description access succeed? -/
def descOk (kvs : List (Str × Json)) : Bool :=
  match descChildren kvs with
  | .ok _ => true
  | .error _ => false

/-- Total variant of `descChildren` (agrees with it whenever `descOk`). -/
def descChildrenT (kvs : List (Str × Json)) : Json :=
  match descChildren kvs with
  | .ok v => v
  | .error _ => .arr []

/-- The episode record built from a matching object (crashing variant). -/
def mkEpisode (slugP : Str) (kvs : List (Str × Json)) : Except Unit RawEpisode := do
  let desc ← descChildren kvs
  let slugV := getKeyD "slug".toList (.str []) kvs
  .ok { idField := getKeyD "id".toList (.str []) kvs
        title := getKeyD "title".toList (.str "Untitled".toList) kvs
        slug := slugV
        airedAt := getKeyD "airedAt".toList (.str []) kvs
        description := desc
        omnyStudioClip := getKeyD "omnyStudioClip".toList (.str []) kvs
        url := if truthy slugV then
            baseUrl ++ ("/programs/".toList ++ slugP ++ ("/episodes/".toList ++ pyStr slugV))
          else programUrl slugP }

/-- Total variant of `mkEpisode`. -/
def mkEpisodeT (slugP : Str) (kvs : List (Str × Json)) : RawEpisode :=
  let slugV := getKeyD "slug".toList (.str []) kvs
  { idField := getKeyD "id".toList (.str []) kvs
    title := getKeyD "title".toList (.str "Untitled".toList) kvs
    slug := slugV
    airedAt := getKeyD "airedAt".toList (.str []) kvs
    description := descChildrenT kvs
    omnyStudioClip := getKeyD "omnyStudioClip".toList (.str []) kvs
    url := if truthy slugV then
        baseUrl ++ ("/programs/".toList ++ slugP ++ ("/episodes/".toList ++ pyStr slugV))
      else programUrl slugP }

/-- `'airedAt' in data and 'slug' in data and 'title' in data`. -/
def isEpisodeShaped (kvs : List (Str × Json)) : Bool :=
  hasKey "airedAt".toList kvs && hasKey "slug".toList kvs && hasKey "title".toList kvs

mutual

/-- `find_episodes` from `extract_episodes_from_json`: pre-order walk; an
episode-shaped dict yields one record and is *not* walked into further. -/
def findEpisodes (slugP : Str) : Json → Except Unit (List RawEpisode)
  | .obj kvs =>
    if isEpisodeShaped kvs then do
      let e ← mkEpisode slugP kvs
      .ok [e]
    else findEpisodesKVs slugP kvs
  | .arr xs => findEpisodesList slugP xs
  | _ => .ok []

/-- Per the source, a value is recursed into when the key is one of
`Episodes`/`episodes`/`docs` or the value is a dict/list; recursing into a
scalar value yields nothing. -/
def findEpisodesKVs (slugP : Str) : List (Str × Json) → Except Unit (List RawEpisode)
  | [] => .ok []
  | (k, v) :: t => do
    let es ← if k = "Episodes".toList || k = "episodes".toList || k = "docs".toList
        || isDictOrList v then findEpisodes slugP v else .ok []
    let rest ← findEpisodesKVs slugP t
    .ok (es ++ rest)

def findEpisodesList (slugP : Str) : List Json → Except Unit (List RawEpisode)
  | [] => .ok []
  | x :: t => do
    let es ← findEpisodes slugP x
    let rest ← findEpisodesList slugP t
    .ok (es ++ rest)

end

/-- `FBIRadioScraper.extract_episodes_from_json`. -/
def extract_episodes_from_json (slugP : Str) (j : Json) : Except Unit (List RawEpisode) :=
  findEpisodes slugP j

mutual

/-- The outermost episode-shaped objects of a tree, in pre-order (the objects
`find_episodes` actually converts: shaped objects nested inside another shaped
object are skipped). -/
def outerShaped : Json → List (List (Str × Json))
  | .obj kvs => if isEpisodeShaped kvs then [kvs] else outerShapedKVs kvs
  | .arr xs => outerShapedList xs
  | _ => []

def outerShapedKVs : List (Str × Json) → List (List (Str × Json))
  | [] => []
  | (_, v) :: t => outerShaped v ++ outerShapedKVs t

def outerShapedList : List Json → List (List (Str × Json))
  | [] => []
  | x :: t => outerShaped x ++ outerShapedList t

end

mutual

/-- Count of *all* episode-shaped objects in a tree, nested ones included. -/
def countShaped : Json → Nat
  | .obj kvs => (if isEpisodeShaped kvs then 1 else 0) + countShapedKVs kvs
  | .arr xs => countShapedList xs
  | _ => 0

def countShapedKVs : List (Str × Json) → Nat
  | [] => 0
  | (_, v) :: t => countShaped v + countShapedKVs t

def countShapedList : List Json → Nat
  | [] => 0
  | x :: t => countShaped x + countShapedList t

end

end FbiToRss

namespace FbiToRss

mutual

/-- Every episode-shaped object that `find_episodes` actually converts has a
well-shaped `description` field (so no `AttributeError` is raised). -/
def allOuterDescOk : Json → Bool
  | .obj kvs => if isEpisodeShaped kvs then descOk kvs else allOuterDescOkKVs kvs
  | .arr xs => allOuterDescOkList xs
  | _ => true

def allOuterDescOkKVs : List (Str × Json) → Bool
  | [] => true
  | (_, v) :: t => allOuterDescOk v && allOuterDescOkKVs t

def allOuterDescOkList : List Json → Bool
  | [] => true
  | x :: t => allOuterDescOk x && allOuterDescOkList t

end

theorem mkEpisode_eq (slugP : Str) (kvs : List (Str × Json)) (hd : descOk kvs = true) :
    mkEpisode slugP kvs = .ok (mkEpisodeT slugP kvs) := by
  unfold descOk at hd
  cases hdc : descChildren kvs with
  | ok v =>
    unfold mkEpisode mkEpisodeT descChildrenT
    rw [hdc]
    rfl
  | error e => rw [hdc] at hd; simp at hd

theorem outerShaped_scalar (v : Json) (h : isDictOrList v = false) : outerShaped v = [] := by
  cases v <;> simp [isDictOrList] at h ⊢ <;> rfl

mutual

theorem findEpisodes_eq (slugP : Str) :
    ∀ (j : Json), allOuterDescOk j = true →
      findEpisodes slugP j = .ok ((outerShaped j).map (mkEpisodeT slugP))
  | .null, _ => rfl
  | .bool _, _ => rfl
  | .num _, _ => rfl
  | .str _, _ => rfl
  | .arr xs, h => by
    have := findEpisodesList_eq slugP xs (by simpa [allOuterDescOk] using h)
    simpa [findEpisodes, outerShaped] using this
  | .obj kvs, h => by
    by_cases hs : isEpisodeShaped kvs
    · have hd : descOk kvs = true := by simpa [allOuterDescOk, hs] using h
      simp [findEpisodes, outerShaped, hs, mkEpisode_eq slugP kvs hd]
      rfl
    · have := findEpisodesKVs_eq slugP kvs (by simpa [allOuterDescOk, hs] using h)
      simpa [findEpisodes, outerShaped, hs] using this

theorem findEpisodesKVs_eq (slugP : Str) :
    ∀ (kvs : List (Str × Json)), allOuterDescOkKVs kvs = true →
      findEpisodesKVs slugP kvs = .ok ((outerShapedKVs kvs).map (mkEpisodeT slugP))
  | [], _ => rfl
  | (k, v) :: t, h => by
    have hv : allOuterDescOk v = true := by
      have := h; unfold allOuterDescOkKVs at this; exact (Bool.and_eq_true_iff.mp this).1
    have ht : allOuterDescOkKVs t = true := by
      have := h; unfold allOuterDescOkKVs at this; exact (Bool.and_eq_true_iff.mp this).2
    have ihv := findEpisodes_eq slugP v hv
    have iht := findEpisodesKVs_eq slugP t ht
    cases hc : (k = "Episodes".toList || k = "episodes".toList || k = "docs".toList
        || isDictOrList v) with
    | true =>
      show (do
        let es ← if k = "Episodes".toList || k = "episodes".toList || k = "docs".toList
            || isDictOrList v then findEpisodes slugP v else .ok []
        let rest ← findEpisodesKVs slugP t
        Except.ok (es ++ rest)) = _
      rw [hc, if_pos rfl, ihv, iht]
      simp only [outerShapedKVs, List.map_append]
      rfl
    | false =>
      have hscalar : isDictOrList v = false := by
        have h2 := hc
        simp only [Bool.or_eq_false_iff] at h2
        exact h2.2
      show (do
        let es ← if k = "Episodes".toList || k = "episodes".toList || k = "docs".toList
            || isDictOrList v then findEpisodes slugP v else .ok []
        let rest ← findEpisodesKVs slugP t
        Except.ok (es ++ rest)) = _
      rw [hc, if_neg (by simp), iht]
      simp only [outerShapedKVs, outerShaped_scalar v hscalar, List.map_append,
        List.map_nil, List.nil_append]
      rfl

theorem findEpisodesList_eq (slugP : Str) :
    ∀ (xs : List Json), allOuterDescOkList xs = true →
      findEpisodesList slugP xs = .ok ((outerShapedList xs).map (mkEpisodeT slugP))
  | [], _ => rfl
  | x :: t, h => by
    have hx : allOuterDescOk x = true := by
      have := h; unfold allOuterDescOkList at this; exact (Bool.and_eq_true_iff.mp this).1
    have ht : allOuterDescOkList t = true := by
      have := h; unfold allOuterDescOkList at this; exact (Bool.and_eq_true_iff.mp this).2
    have ihx := findEpisodes_eq slugP x hx
    have iht := findEpisodesList_eq slugP t ht
    simp [findEpisodesList, outerShapedList, ihx, iht]
    rfl

end

end FbiToRss

namespace FbiToRss

/-! ## Regex scanners used by the audio locator -/

/-- `[a-f0-9\-]` under `re.I`. -/
def isHexDashChar (c : Char) : Bool :=
  ('a' ≤ c.toLower && c.toLower ≤ 'f') || ('0' ≤ c && c ≤ '9') || c = '-'

/-- `[0-9a-f]` under `re.I`. -/
def isHexChar (c : Char) : Bool :=
  ('0' ≤ c && c ≤ '9') || ('a' ≤ c.toLower && c.toLower ≤ 'f')

/-- Python `\s` (ASCII part). -/
def pySpaceChar (c : Char) : Bool :=
  c = ' ' || c = '\t' || c = '\n' || c = '\r' || c = '\x0b' || c = '\x0c'

/-- Greedy run of characters satisfying `cls`: `(run, rest)`. -/
def takeClassRun (cls : Char → Bool) : Str → (Str × Str)
  | [] => ([], [])
  | c :: cs =>
    if cls c then
      let pr := takeClassRun cls cs
      (c :: pr.1, pr.2)
    else ([], c :: cs)

theorem takeClassRun_append (cls : Char → Bool) (s : Str) :
    (takeClassRun cls s).1 ++ (takeClassRun cls s).2 = s := by
  induction s with
  | nil => rfl
  | cons c cs ih =>
    by_cases h : cls c = true
    · simp [takeClassRun, h, ih]
    · simp [takeClassRun, h]

/-- Case-insensitive literal match returning `(matched original slice, rest)`. -/
def matchLitCI : Str → Str → Option (Str × Str)
  | [], s => some ([], s)
  | _ :: _, [] => none
  | p :: ps, c :: cs =>
    if p.toLower = c.toLower then
      (matchLitCI ps cs).map (fun pr => (c :: pr.1, pr.2))
    else none

theorem matchLitCI_append (pat : Str) :
    ∀ (s sl r : Str), matchLitCI pat s = some (sl, r) → sl ++ r = s := by
  induction pat with
  | nil => intro s sl r h; simp [matchLitCI] at h; simp [h.1, h.2]
  | cons p ps ih =>
    intro s sl r h
    cases s with
    | nil => simp [matchLitCI] at h
    | cons c cs =>
      simp only [matchLitCI] at h
      by_cases hp : p.toLower = c.toLower
      · rw [if_pos hp] at h
        cases hm : matchLitCI ps cs with
        | none => rw [hm] at h; simp at h
        | some pr =>
          rw [hm] at h
          simp only [Option.map_some'] at h
          injection h with hpair
          obtain ⟨rfl, rfl⟩ : sl = c :: pr.1 ∧ r = pr.2 :=
            ⟨(Prod.mk.inj hpair).1.symm, (Prod.mk.inj hpair).2.symm⟩
          simp [List.cons_append, ih cs pr.1 pr.2 (by rw [hm])]
      · rw [if_neg hp] at h; simp at h

/-- One hex-dash segment (`[a-f0-9\-]+`): nonempty greedy run. -/
def matchSeg (s : Str) : Option (Str × Str) :=
  let pr := takeClassRun isHexDashChar s
  if pr.1.isEmpty then none else some pr

/-- Match pattern
`https://traffic\.omny\.fm/d/clips/[a-f0-9\-]+/[a-f0-9\-]+/[a-f0-9\-]+/audio\.mp3`
anchored at the head of `s`; returns the matched slice. -/
def matchCdnP1At (pre : Str) (s : Str) : Option Str := do
  let (l0, r0) ← matchLitCI pre s
  let (s1, r1) ← matchSeg r0
  let (d1, r2) ← matchLitCI "/".toList r1
  let (s2, r3) ← matchSeg r2
  let (d2, r4) ← matchLitCI "/".toList r3
  let (s3, r5) ← matchSeg r4
  let (tl, _) ← matchLitCI "/audio.mp3".toList r5
  some (l0 ++ (s1 ++ (d1 ++ (s2 ++ (d2 ++ (s3 ++ tl))))))

def cdnLitFull : Str := "https://traffic.omny.fm/d/clips/".toList
def cdnLitBare : Str := "traffic.omny.fm/d/clips/".toList

/-- `re.search` of the three-segment CDN pattern: leftmost match. -/
def searchCdnSeg (pre : Str) : Str → Option Str
  | [] => none
  | c :: cs =>
    match matchCdnP1At pre (c :: cs) with
    | some m => some m
    | none => searchCdnSeg pre cs

/-- `[^"\'\s\)]` (the loose URL-character class of patterns 2 and 4). -/
def looseUrlChar (c : Char) : Bool :=
  !(c = '"' || c = '\'' || pySpaceChar c || c = ')')

/-- Positions (in order) where `pat` matches case-insensitively. -/
def ciHitPositions (pat : Str) : Str → List Nat
  | [] => if pat.isEmpty then [0] else []
  | c :: cs =>
    (if startsWithCI pat (c :: cs) then [0] else []) ++
      (ciHitPositions pat cs).map (· + 1)

/-- Match pattern `PRE[^"\'\s\)]+/audio\.mp3` anchored at the head of `s`
(greedy class run, backtracking to the last `/audio.mp3` inside it). -/
def matchCdnLooseAt (pre : Str) (s : Str) : Option Str := do
  let (l0, r0) ← matchLitCI pre s
  let run := (takeClassRun looseUrlChar r0).1
  let hits := (ciHitPositions "/audio.mp3".toList run).filter (fun i => 1 ≤ i)
  let i ← hits.getLast?
  some (l0 ++ run.take (i + 10))

def searchCdnLoose (pre : Str) : Str → Option Str
  | [] => none
  | c :: cs =>
    match matchCdnLooseAt pre (c :: cs) with
    | some m => some m
    | none => searchCdnLoose pre cs

/-- The four `audio_url_patterns` tried in order by
`extract_audio_url_from_episode_page`, with the `https://` prefixing of
scheme-less matches (`if not url.startswith('http'): url = 'https://' + url`;
note `startswith` is case-sensitive while the regexes are case-insensitive). -/
def cdnDirectSearch (html : Str) : Option Str :=
  let raw :=
    match searchCdnSeg cdnLitFull html with
    | some m => some m
    | none =>
      match searchCdnLoose cdnLitFull html with
      | some m => some m
      | none =>
        match searchCdnSeg cdnLitBare html with
        | some m => some m
        | none => searchCdnLoose cdnLitBare html
  raw.map (fun u => if startsWithL "http".toList u then u else "https://".toList ++ u)

/-- Exactly `n` hex characters. -/
def takeHexN : Nat → Str → Option (Str × Str)
  | 0, s => some ([], s)
  | _ + 1, [] => none
  | n + 1, c :: cs =>
    if isHexChar c then (takeHexN n cs).map (fun pr => (c :: pr.1, pr.2)) else none

/-- The 8-4-4-4-12 UUID pattern anchored at the head. -/
def matchUuidAt (s : Str) : Option (Str × Str) := do
  let (a, r1) ← takeHexN 8 s
  let (d1, r2) ← matchLitCI "-".toList r1
  let (b, r3) ← takeHexN 4 r2
  let (d2, r4) ← matchLitCI "-".toList r3
  let (c, r5) ← takeHexN 4 r4
  let (d3, r6) ← matchLitCI "-".toList r5
  let (d, r7) ← takeHexN 4 r6
  let (d4, r8) ← matchLitCI "-".toList r7
  let (e, r9) ← takeHexN 12 r8
  some (a ++ (d1 ++ (b ++ (d2 ++ (c ++ (d3 ++ (d ++ (d4 ++ e))))))), r9)

/-- `re.findall` of the UUID pattern (non-overlapping, leftmost first). -/
def uuidFindallAux : Nat → Str → List Str
  | 0, _ => []
  | _ + 1, [] => []
  | fuel + 1, c :: cs =>
    match matchUuidAt (c :: cs) with
    | some (u, rest) => u :: uuidFindallAux fuel rest
    | none => uuidFindallAux fuel cs

def uuidFindall (s : Str) : List Str := uuidFindallAux s.length s

/-- Tail of the key pattern `KEY["\']?\s*:\s*["\']([^"\']+)` after the key:
optional quote, whitespace, colon, whitespace, quote, then the group. -/
def matchKeyTail (s : Str) : Option Str :=
  let s1 := match s with
    | c :: cs => if c = '"' || c = '\'' then cs else c :: cs
    | [] => []
  let s2 := (takeClassRun pySpaceChar s1).2
  match s2 with
  | ':' :: s3 =>
    let s4 := (takeClassRun pySpaceChar s3).2
    match s4 with
    | c :: cs =>
      if c = '"' || c = '\'' then
        let pr := takeClassRun (fun ch => !(ch = '"' || ch = '\'')) cs
        if pr.1.isEmpty then none else some pr.1
      else none
    | [] => none
  | _ => none

/-- `re.search(KEY["\']?\s*:\s*["\']([^"\']+), html, re.I)` returning group 1. -/
def keySearch (key : Str) : Str → Option Str
  | [] => none
  | c :: cs =>
    if startsWithCI key (c :: cs) then
      match matchKeyTail ((c :: cs).drop key.length) with
      | some v => some v
      | none => keySearch key cs
    else keySearch key cs

/-- `re.search(r'omnyStudio[^}]*KEY["\']?\s*:\s*["\']([^"\']+)', html, re.I)`:
the greedy `[^}]*` tries the latest `KEY` occurrence inside the brace-free gap
first; the overall search is leftmost in the `omnyStudio` anchor. -/
def omnyKeyAt (key : Str) (sA : Str) : Option Str :=
  let run := (takeClassRun (fun c => !(c = '}')) sA).1
  let hits := ciHitPositions key run
  hits.reverse.findSome? (fun i => matchKeyTail (sA.drop (i + key.length)))

def omnyKeySearch (key : Str) : Str → Option Str
  | [] => none
  | c :: cs =>
    if startsWithCI "omnystudio".toList (c :: cs) then
      match omnyKeyAt key ((c :: cs).drop 10) with
      | some v => some v
      | none => omnyKeySearch key cs
    else omnyKeySearch key cs

/-- `re.search(r'"showId"\s*:\s*"([^"]+)"', text, re.I)` returning group 1. -/
def showIdDqAt (s : Str) : Option Str :=
  match matchLitCI "\"showid\"".toList s with
  | none => none
  | some (_, r0) =>
    let s2 := (takeClassRun pySpaceChar r0).2
    match s2 with
    | ':' :: s3 =>
      let s4 := (takeClassRun pySpaceChar s3).2
      match s4 with
      | '"' :: cs =>
        let pr := takeClassRun (fun ch => !(ch = '"')) cs
        if pr.1.isEmpty then none
        else match pr.2 with
          | '"' :: _ => some pr.1
          | _ => none
      | _ => none
    | _ => none

def showIdDqSearch : Str → Option Str
  | [] => none
  | c :: cs =>
    match showIdDqAt (c :: cs) with
    | some v => some v
    | none => showIdDqSearch cs

end FbiToRss

namespace FbiToRss

/-! ## Date parsing (`parse_date`, `parse_date_from_url`) -/

/-- Greedy run of up to `maxN` digits, returned as digit values. -/
def takeDigits : Nat → Str → (List Nat × Str)
  | _, [] => ([], [])
  | 0, s => ([], s)
  | n + 1, c :: cs =>
    if c.isDigit then
      let pr := takeDigits n cs
      ((c.toNat - 48) :: pr.1, pr.2)
    else ([], c :: cs)

def digitsVal (ds : List Nat) : Nat := ds.foldl (fun a d => a * 10 + d) 0

/-- Exactly `n` digits. -/
def takeExactDigits (n : Nat) (s : Str) : Option (Nat × Str) :=
  let pr := takeDigits n s
  if pr.1.length = n then some (digitsVal pr.1, pr.2) else none

/-- `strptime`-style numeric field: one to `maxN` digits, greedy. -/
def strpNum (maxN : Nat) (s : Str) : Option (Nat × Nat × Str) :=
  let pr := takeDigits maxN s
  if pr.1.isEmpty then none else some (digitsVal pr.1, pr.1.length, pr.2)

def mkMicro (n : Nat) : Fin 1000000 := ⟨n % 1000000, Nat.mod_lt n (by norm_num)⟩

/-- `str.replace('Z', '+00:00')`. -/
def replaceZ : Str → Str
  | [] => []
  | c :: t =>
    if c = 'Z' then '+' :: ('0' :: ('0' :: (':' :: ('0' :: ('0' :: replaceZ t)))))
    else c :: replaceZ t

def findCharIdx (ch : Char) : Str → Option Nat
  | [] => none
  | c :: cs => if c = ch then some 0 else (findCharIdx ch cs).map (· + 1)

/-- `_parse_hh_mm_ss_ff` of pre-3.11 `datetime.fromisoformat`: strict
`HH[:MM[:SS[.fff|.ffffff]]]`, entire string consumed, no range validation. -/
def parseHMSF (s : Str) : Option (Nat × Nat × Nat × Nat) := do
  let (h, r) ← takeExactDigits 2 s
  match r with
  | [] => some (h, 0, 0, 0)
  | ':' :: r2 => do
    let (mi, r3) ← takeExactDigits 2 r2
    match r3 with
    | [] => some (h, mi, 0, 0)
    | ':' :: r4 => do
      let (sec, r5) ← takeExactDigits 2 r4
      match r5 with
      | [] => some (h, mi, sec, 0)
      | '.' :: r6 =>
        let pr := takeDigits 6 r6
        if pr.2.isEmpty && (pr.1.length = 3 || pr.1.length = 6) then
          some (h, mi, sec, digitsVal pr.1 * (if pr.1.length = 3 then 1000 else 1))
        else none
      | _ => none
    | _ => none
  | _ => none

/-- `_parse_isoformat_time`: split off a timezone part at the first `-`
(else first `+`), parse both sides; a sub-second timezone offset is not
representable in this model and is rejected (the offset must also be under
24 hours, as `timezone()` enforces). -/
def isoTimeFull (tstr : Str) : Option (Nat × Nat × Nat × Nat × Option Int) :=
  let tzIdx := match findCharIdx '-' tstr with
    | some i => some i
    | none => findCharIdx '+' tstr
  match tzIdx with
  | none => (parseHMSF tstr).map (fun q => (q.1, q.2.1, q.2.2.1, q.2.2.2, none))
  | some i => do
    let (h, mi, s, f) ← parseHMSF (tstr.take i)
    let sign : Int := if tstr.get? i = some '-' then -1 else 1
    let tzS := tstr.drop (i + 1)
    if tzS.length = 5 || tzS.length = 8 || tzS.length = 15 then do
      let (th, tmi, ts, tf) ← parseHMSF tzS
      if tf = 0 then
        let off : Nat := th * 3600 + tmi * 60 + ts
        if off < 86400 then some (h, mi, s, f, some (sign * (off : Int)))
        else none
      else none
    else none

/-- Pre-3.11 `datetime.fromisoformat`: `YYYY-MM-DD`, then optionally one
arbitrary separator character and a time (with optional offset). -/
def isoParse (s : Str) : Option PyDatetime := do
  let (y, r1) ← takeExactDigits 4 s
  match r1 with
  | '-' :: r2 => do
    let (mo, r3) ← takeExactDigits 2 r2
    match r3 with
    | '-' :: r4 => do
      let (d, r5) ← takeExactDigits 2 r4
      match r5 with
      | [] =>
        if validCivil y mo d 0 0 0 then some (mkDT y mo d 0 0 0 none) else none
      | _sep :: rest =>
        if rest.isEmpty then none
        else do
          let (h, mi, sec, mic, tz) ← isoTimeFull rest
          if validCivil y mo d h mi sec then
            some { wallSec := civilToEpochDays y mo d * 86400 +
                     ((h * 3600 + mi * 60 + sec : Nat) : Int)
                   micro := mkMicro mic
                   tz := tz }
          else none
    | _ => none
  | _ => none

/-- `datetime.strptime(s, '%Y-%m-%dT%H:%M:%S.%fZ')` (returns a naive value;
the caller attaches UTC). -/
def strpDT1 (s : Str) : Option PyDatetime := do
  let (y, _, r1) ← strpNum 4 s
  match r1 with
  | '-' :: r2 => do
    let (mo, _, r3) ← strpNum 2 r2
    match r3 with
    | '-' :: r4 => do
      let (d, _, r5) ← strpNum 2 r4
      match r5 with
      | 'T' :: r6 => do
        let (h, _, r7) ← strpNum 2 r6
        match r7 with
        | ':' :: r8 => do
          let (mi, _, r9) ← strpNum 2 r8
          match r9 with
          | ':' :: r10 => do
            let (sec, _, r11) ← strpNum 2 r10
            match r11 with
            | '.' :: r12 => do
              let (f, nd, r13) ← strpNum 6 r12
              match r13 with
              | ['Z'] =>
                if validCivil y mo d h mi sec then
                  some { wallSec := civilToEpochDays y mo d * 86400 +
                           ((h * 3600 + mi * 60 + sec : Nat) : Int)
                         micro := mkMicro (f * 10 ^ (6 - nd))
                         tz := none }
                else none
              | _ => none
            | _ => none
          | _ => none
        | _ => none
      | _ => none
    | _ => none
  | _ => none

/-- `datetime.strptime(s, '%Y-%m-%dT%H:%M:%SZ')`. -/
def strpDT2 (s : Str) : Option PyDatetime := do
  let (y, _, r1) ← strpNum 4 s
  match r1 with
  | '-' :: r2 => do
    let (mo, _, r3) ← strpNum 2 r2
    match r3 with
    | '-' :: r4 => do
      let (d, _, r5) ← strpNum 2 r4
      match r5 with
      | 'T' :: r6 => do
        let (h, _, r7) ← strpNum 2 r6
        match r7 with
        | ':' :: r8 => do
          let (mi, _, r9) ← strpNum 2 r8
          match r9 with
          | ':' :: r10 => do
            let (sec, _, r11) ← strpNum 2 r10
            match r11 with
            | ['Z'] =>
              if validCivil y mo d h mi sec then
                some { wallSec := civilToEpochDays y mo d * 86400 +
                         ((h * 3600 + mi * 60 + sec : Nat) : Int)
                       micro := 0
                       tz := none }
              else none
            | _ => none
          | _ => none
        | _ => none
      | _ => none
    | _ => none
  | _ => none

/-- `datetime.strptime(s, '%Y-%m-%d')`. -/
def strpDT3 (s : Str) : Option PyDatetime := do
  let (y, _, r1) ← strpNum 4 s
  match r1 with
  | '-' :: r2 => do
    let (mo, _, r3) ← strpNum 2 r2
    match r3 with
    | '-' :: r4 => do
      let (d, _, r5) ← strpNum 2 r4
      match r5 with
      | [] =>
        if validCivil y mo d 0 0 0 then some (mkDT y mo d 0 0 0 none) else none
      | _ => none
    | _ => none
  | _ => none

/-- `FBIRadioScraper.parse_date` on an actual string: ISO attempt on the
`Z`-replaced text (attaching UTC when naive), then the three `strptime`
patterns on the original text (each result gets UTC attached). -/
def parse_date_str (s : Str) : Option PyDatetime :=
  match isoParse (replaceZ s) with
  | some dt => some { dt with tz := some (dt.tz.getD 0) }
  | none =>
    match strpDT1 s with
    | some dt => some { dt with tz := some 0 }
    | none =>
      match strpDT2 s with
      | some dt => some { dt with tz := some 0 }
      | none =>
        match strpDT3 s with
        | some dt => some { dt with tz := some 0 }
        | none => none

/-- `FBIRadioScraper.parse_date`.  A falsy value returns `None`; a truthy
non-string raises `TypeError` inside the uncaught `strptime` loop (the
`AttributeError` from the ISO attempt *is* caught). -/
def parse_date (j : Json) : Except Unit (Option PyDatetime) :=
  if truthy j = false then .ok none
  else match j with
    | .str s => .ok (parse_date_str s)
    | _ => .error ()

/-- Month-name table of `parse_date_from_url` (keys already lower-cased). -/
def monthNum (m : Str) : Option Nat :=
  if m = "january".toList || m = "jan".toList then some 1
  else if m = "february".toList || m = "feb".toList then some 2
  else if m = "march".toList || m = "mar".toList then some 3
  else if m = "april".toList || m = "apr".toList then some 4
  else if m = "may".toList then some 5
  else if m = "june".toList || m = "jun".toList then some 6
  else if m = "july".toList || m = "jul".toList then some 7
  else if m = "august".toList || m = "aug".toList then some 8
  else if m = "september".toList || m = "sep".toList || m = "sept".toList then some 9
  else if m = "october".toList || m = "oct".toList then some 10
  else if m = "november".toList || m = "nov".toList then some 11
  else if m = "december".toList || m = "dec".toList then some 12
  else none

/-- `(?:st|nd|rd|th)` under `re.I`. -/
def ordSuffixAt (s : Str) : Option Str :=
  match s with
  | a :: b :: r =>
    let p := [a.toLower, b.toLower]
    if p = ['s', 't'] || p = ['n', 'd'] || p = ['r', 'd'] || p = ['t', 'h'] then some r
    else none
  | _ => none

/-- `\w` (ASCII). -/
def wordChar (c : Char) : Bool := c.isAlpha || c.isDigit || c = '_'

/-- `(\d{1,2})(?:st|nd|rd|th)-(\w+)-(\d{4})` anchored at the head:
`(day, month text, year)`. -/
def dayOrdMatchAt (s : Str) : Option (Nat × Str × Nat) := do
  let (day, r2) ←
    (match s with
      | a :: b :: r =>
        if a.isDigit && b.isDigit then
          (ordSuffixAt r).map (fun r2 => ((a.toNat - 48) * 10 + (b.toNat - 48), r2))
        else none
      | _ => none) <|>
    (match s with
      | a :: r =>
        if a.isDigit then (ordSuffixAt r).map (fun r2 => (a.toNat - 48, r2)) else none
      | _ => none)
  match r2 with
  | '-' :: r3 =>
    let run := takeClassRun wordChar r3
    if run.1.isEmpty then none
    else match run.2 with
      | '-' :: r4 => do
        let (y, _) ← takeExactDigits 4 r4
        some (day, run.1, y)
      | _ => none
  | _ => none

def urlDateScan : Str → Option (Nat × Str × Nat)
  | [] => none
  | c :: cs =>
    match dayOrdMatchAt (c :: cs) with
    | some t => some t
    | none => urlDateScan cs

/-- `FBIRadioScraper.parse_date_from_url`: first regex match decides; a month
name not in the table, or an invalid civil date, yields `None` with no further
scanning. -/
def parse_date_from_url (url : Str) : Option PyDatetime :=
  if url.isEmpty then none
  else match urlDateScan url with
    | none => none
    | some (d, ms, y) =>
      match monthNum (lowerStr ms) with
      | none => none
      | some mo =>
        if validCivil y mo d 0 0 0 then some (mkDT y mo d 0 0 0 (some 0)) else none

end FbiToRss

namespace FbiToRss

/-! ## Environment: network and HTML/JSON library oracles

`requests`, BeautifulSoup and the `json.loads`-based blob isolation of
`extract_json_data` are third-party machinery; they enter the embedding as
oracle fields.  (`get_omny_audio_url`, `find_uuid_in_data` and
`extract_omny_config` are dead code in the source — never called from the
pipeline — and are not embedded.) -/

/-- Outcome of `requests.Session.get` (redirects already followed):
a final response, or a raised `RequestException`. -/
inductive NetResult where
  | resp (status : Nat) (body : Str)
  | timeout
  | connError
deriving DecidableEq

structure Env where
  /-- `self.program_slug`. -/
  program_slug : Str
  /-- the network: URL ↦ response/exception. -/
  net : Str → NetResult
  /-- `extract_json_data` (regex + `json.loads` + BeautifulSoup): page ↦ parsed blob. -/
  json_of : Str → Option Json
  /-- `soup.find('h1')` text, stripped. -/
  h1Text : Str → Option Str
  /-- `soup.find('title')` text, stripped. -/
  titleText : Str → Option Str
  /-- `href` attributes of `soup.find_all('a', href=True)` in document order. -/
  anchors : Str → List Str
  /-- `.string` of `soup.find_all('script')` in document order (scripts with a
  string body only). -/
  scripts : Str → List Str
  /-- host local timezone offset in seconds (`time.mktime`, naive timestamps);
  no DST is modelled. -/
  localOffset : Int
  /-- wall clock of `datetime.now(timezone.utc)`. -/
  nowSec : Int
  nowMicro : Fin 1000000

/-- `datetime.now(timezone.utc)`: always timezone-aware UTC. -/
def envNow (env : Env) : PyDatetime :=
  { wallSec := env.nowSec, micro := env.nowMicro, tz := some 0 }

/-- `FBIRadioScraper.fetch_page`: `raise_for_status` raises for status ≥ 400,
and every `requests.RequestException` is caught and turned into `None`. -/
def fetch_page (env : Env) (url : Str) : Option Str :=
  match env.net url with
  | .resp status body => if 400 ≤ status && status < 600 then none else some body
  | .timeout => none
  | .connError => none

def lookupStr (k : Str) : List (Str × Str) → Option Str
  | [] => none
  | (k', v) :: t => if k' = k then some v else lookupStr k t

/-- `FBIRadioScraper.KNOWN_SHOW_IDS`. -/
def KNOWN_SHOW_IDS : List (Str × Str) :=
  [("jack-off".toList, "85ea9d91-cb57-46c4-a9c6-abe601048b69".toList),
   ("loose-joints".toList, "e8d27dbf-88c7-4901-9560-b37b0064b8ec".toList),
   ("wildcard-with-stuart-coupe".toList, "cec7fc63-681b-4126-a98c-b37d00232daa".toList),
   ("sunset-with-tangela".toList, "018aa123-6990-463e-8983-b37f0095b36a".toList),
   ("utility-fog".toList, "1e142c09-9e63-4d2e-8ce7-a00df26cf834".toList)]

/-- `FBIRadioScraper.KNOWN_PROGRAMME_IMAGES`. -/
def KNOWN_PROGRAMME_IMAGES : List (Str × Str) :=
  [("sunset-with-tangela".toList,
    "https://media.fbi.radio/images/sunset%20with%20tangela-800x450.jpg".toList),
   ("utility-fog".toList,
    "https://media.fbi.radio/images/utility%20fog%20with%20peter%20hollo-800x450.jpg".toList)]

/-- Default org ID (`02b00798-…` "Default from FBi Radio"). -/
def defaultOrgId : Str := "02b00798-16d7-4067-89ac-aba000ffd8cb".toList

def truthyStrOpt : Option Str → Bool
  | some s => !s.isEmpty
  | none => false

/-- `https://traffic.omny.fm/d/clips/{org}/{show}/{clip}/audio.mp3`. -/
def mkCdnUrl (org shw clip : Str) : Str :=
  "https://traffic.omny.fm/d/clips/".toList ++
    (org ++ ('/' :: (shw ++ ('/' :: (clip ++ "/audio.mp3".toList)))))

mutual

/-- `_find_omny_clip_reference`: first `omnyStudioClip` value (pre-order);
note the recursion skips falsy results (`if result:`), but a falsy value found
*directly* by key is returned as-is. -/
def findOmnyClipRef : Json → Option Json
  | .obj kvs =>
    match lookupKey "omnyStudioClip".toList kvs with
    | some v => some v
    | none => findOmnyClipRefKVs kvs
  | .arr xs => findOmnyClipRefList xs
  | _ => none

def findOmnyClipRefKVs : List (Str × Json) → Option Json
  | [] => none
  | (_, v) :: t =>
    match findOmnyClipRef v with
    | some r => if truthy r then some r else findOmnyClipRefKVs t
    | none => findOmnyClipRefKVs t

def findOmnyClipRefList : List Json → Option Json
  | [] => none
  | x :: t =>
    match findOmnyClipRef x with
    | some r => if truthy r then some r else findOmnyClipRefList t
    | none => findOmnyClipRefList t

end

/-- `uuid and '-' in uuid and len(uuid) == 36` with Python's exception
behaviour: `'-' in n` on a truthy number/bool raises `TypeError`; a list or
dict passing the containment and length tests later raises on hashing. -/
def uuidCheck36 (v : Json) : Except Unit Bool :=
  if truthy v = false then .ok false
  else match v with
    | .str s => .ok (s.contains '-' && s.length = 36)
    | .num _ => .error ()
    | .bool _ => .error ()
    | .arr xs =>
      if xs.contains (Json.str "-".toList) && xs.length = 36 then .error () else .ok false
    | .obj kvs =>
      if kvs.any (fun kv => kv.1 = "-".toList) && kvs.length = 36 then .error ()
      else .ok false
    | .null => .ok false

/-- `uuid_value and '-' in uuid_value and len(uuid_value) > 30`
(`find_title_uuid` variant; a passing list/dict is *returned*, not hashed). -/
def uuidCheck30 (v : Json) : Except Unit Bool :=
  if truthy v = false then .ok false
  else match v with
    | .str s => .ok (s.contains '-' && s.length > 30)
    | .num _ => .error ()
    | .bool _ => .error ()
    | .arr xs => .ok (xs.contains (Json.str "-".toList) && xs.length > 30)
    | .obj kvs => .ok ((kvs.any (fun kv => kv.1 = "-".toList)) && kvs.length > 30)
    | .null => .ok false

structure UuidInfo where
  typename : Str
  path : Str
  titleV : Json
  order : Nat
  utype : Str
deriving DecidableEq

def pathKey (path k : Str) : Str := if path.isEmpty then k else path ++ ('.' :: k)

def pathIdx (path : Str) (i : Nat) : Str :=
  path ++ ('[' :: ((toString i).toList ++ [']']))

mutual

/-- `collect_uuids_with_context`: walks the blob accumulating
`uuid ↦ info` in discovery order, skipping lists longer than 2000 as dict
values and list items beyond index 1000. -/
def collectUuidsJ : Json → Str → List (Str × UuidInfo) →
    Except Unit (List (Str × UuidInfo))
  | .obj kvs, path, acc => do
    let typename := pyStr (getKeyD "__typename".toList (.str []) kvs)
    let acc ←
      match lookupKey "uuid".toList kvs with
      | none => .ok acc
      | some uv => do
        let ok ← uuidCheck36 uv
        match uv, ok with
        | .str u, true =>
          if acc.any (fun kv => kv.1 = u) then pure acc
          else
            let tval := lookupKey "title".toList kvs
            let tTruthy := match tval with
              | some t => truthy t
              | none => false
            let tLen := (pyStr (tval.getD (.str []))).length
            let utype :=
              if occursIn "Clip".toList typename
                  || occursIn "clip".toList (lowerStr typename) then "clip".toList
              else if occursIn "Show".toList typename
                  || occursIn "Program".toList typename then "show".toList
              else if occursIn "title".toList (lowerStr path)
                  || (tTruthy && tLen > 0) then "clip".toList
              else "unknown".toList
            pure (acc ++
              [(u, UuidInfo.mk typename path (tval.getD (.str [])) acc.length utype)])
        | _, _ => pure acc
    collectUuidsKVs kvs path acc
  | .arr xs, path, acc => collectUuidsArr xs 0 path acc
  | _, _, acc => .ok acc

def collectUuidsKVs : List (Str × Json) → Str → List (Str × UuidInfo) →
    Except Unit (List (Str × UuidInfo))
  | [], _, acc => .ok acc
  | (k, v) :: t, path, acc => do
    let acc ←
      match v with
      | .arr xs =>
        if xs.length > 2000 then pure acc
        else collectUuidsJ (.arr xs) (pathKey path k) acc
      | .obj kvs2 => collectUuidsJ (.obj kvs2) (pathKey path k) acc
      | _ => pure acc
    collectUuidsKVs t path acc

def collectUuidsArr : List Json → Nat → Str → List (Str × UuidInfo) →
    Except Unit (List (Str × UuidInfo))
  | [], _, _, acc => .ok acc
  | x :: t, i, path, acc =>
    if i > 1000 then .ok acc
    else do
      let acc ←
        match x with
        | .obj kvs => collectUuidsJ (.obj kvs) (pathIdx path i) acc
        | .arr xs => collectUuidsJ (.arr xs) (pathIdx path i) acc
        | _ => pure acc
      collectUuidsArr t (i + 1) path acc

end

mutual

/-- `find_title_uuid`: first object carrying both `title` and `uuid` whose
uuid value passes the `> 30` check; its (possibly non-string) uuid value is
returned. -/
def findTitleUuid : Json → Except Unit (Option Json)
  | .obj kvs => do
    let r ←
      if hasKey "title".toList kvs && hasKey "uuid".toList kvs then do
        let uv := getKeyD "uuid".toList (.str []) kvs
        let ok ← uuidCheck30 uv
        if ok then pure (some uv) else pure none
      else pure none
    match r with
    | some v => .ok (some v)
    | none => findTitleUuidKVs kvs
  | .arr xs => findTitleUuidList xs
  | _ => .ok none

def findTitleUuidKVs : List (Str × Json) → Except Unit (Option Json)
  | [] => .ok none
  | (_, v) :: t =>
    match v with
    | .obj _ | .arr _ => do
      let r ← findTitleUuid v
      match r with
      | some x => if truthy x then .ok (some x) else findTitleUuidKVs t
      | none => findTitleUuidKVs t
    | _ => findTitleUuidKVs t

def findTitleUuidList : List Json → Except Unit (Option Json)
  | [] => .ok none
  | x :: t =>
    match x with
    | .obj _ | .arr _ => do
      let r ← findTitleUuid x
      match r with
      | some y => if truthy y then .ok (some y) else findTitleUuidList t
      | none => findTitleUuidList t
    | _ => findTitleUuidList t

end

def jTruthyOpt : Option Json → Bool
  | none => false
  | some j => truthy j

/-- The JSON-blob fallback tier of `extract_audio_url_from_episode_page`
(lines after the raw-HTML UUID attempt). -/
def audioJsonTier (env : Env) (org_id : Str) (cache : Option Str) (html : Str) :
    Except Unit (Option Str × Option Str) := do
  match env.json_of html with
  | none => .ok (none, cache)
  | some j => do
    let infos ← collectUuidsJ j [] []
    let clip0 ← findTitleUuid j
    let st := infos.foldl
      (fun (st : Option Json × Option Json) kv =>
        if kv.2.utype = "clip".toList && !(jTruthyOpt st.1) then (some (.str kv.1), st.2)
        else if kv.2.utype = "show".toList && !(jTruthyOpt st.2) then (st.1, some (.str kv.1))
        else st)
      (clip0, none)
    let allUuids := infos.map (fun kv => kv.1)
    -- `if clip_uuid and not show_uuid:` pick the first different uuid as show
    let st :=
      if jTruthyOpt st.1 && !(jTruthyOpt st.2) then
        match allUuids.find? (fun u => !(some (Json.str u) = st.1)) with
        | some u => (st.1, some (Json.str u))
        | none => st
      else st
    -- positional fallbacks when no clip was identified
    let st :=
      if !(jTruthyOpt st.1) && allUuids.length ≥ 2 then
        if allUuids.length ≥ 3 then
          ((allUuids.getLast?).map Json.str, (allUuids.get? 1).map Json.str)
        else
          ((allUuids.getLast?).map Json.str, (allUuids.head?).map Json.str)
      else st
    if !(jTruthyOpt st.1) && allUuids.length = 1 then
      match allUuids.head? with
      | some u => .ok (some (mkCdnUrl org_id u u), cache)
      | none => .ok (none, cache)
    else if !(jTruthyOpt st.1) then .ok (none, cache)
    else
      match st.1 with
      | some clip =>
        match st.2 with
        | some shw =>
          if truthy shw && !(shw = clip) then
            .ok (some (mkCdnUrl org_id (pyStr shw) (pyStr clip)), cache)
          else .ok (some (mkCdnUrl org_id (pyStr clip) (pyStr clip)), cache)
        | none => .ok (some (mkCdnUrl org_id (pyStr clip) (pyStr clip)), cache)
      | none => .ok (none, cache)

/-- The org ID used by the audio locator: the `omnyStudio … orgId` config
value if present, else the fixed FBi Radio default. -/
def pageOrgId (html : Str) : Str :=
  (omnyKeySearch "orgid".toList html).getD defaultOrgId

/-- The deduplicated raw-HTML UUID list with the org ID and any `buildId`
filtered out (case-insensitively). -/
def filteredUuids (html : Str) : List Str :=
  let org_id := pageOrgId html
  let uuids0 := dedupKeepFirst (uuidFindall html)
  let uuids1 := uuids0.filter (fun u => !(lowerStr u = lowerStr org_id))
  match keySearch "buildid".toList html with
  | some b => uuids1.filter (fun u => !(lowerStr u = lowerStr b))
  | none => uuids1

/-- The show-ID resolution block of `extract_audio_url_from_episode_page`:
the per-run cache, then the `KNOWN_SHOW_IDS` override table, then a `showId`
inside the page's `omnyStudioClip` JSON reference, then a secondary fetch of
the program page (its `omnyStudio … showId` config, else a UUID of the program
page absent from the episode page).  Returns the resolved show ID (if any) and
the updated cache. -/
def resolveShowId (env : Env) (cache : Option Str) (html : Str) (org_id : Str)
    (uuids : List Str) : Option Str × Option Str :=
  if truthyStrOpt cache then (cache, cache)
  else match lookupStr env.program_slug KNOWN_SHOW_IDS with
    | some sid => (some sid, some sid)
    | none =>
      let fromJson :=
        match env.json_of html with
        | some j =>
          match findOmnyClipRef j with
          | some ref =>
            if truthy ref && occursIn "showId".toList (pyStr ref) then
              showIdDqSearch (pyStr ref)
            else none
          | none => none
        | none => none
      match fromJson with
      | some sid => (some sid, some sid)
      | none =>
        match fetch_page env (programUrl env.program_slug) with
        | some phtml =>
          match omnyKeySearch "showid".toList phtml with
          | some sid => (some sid, some sid)
          | none =>
            let puuids := (dedupKeepFirst (uuidFindall phtml)).filter
              (fun u => !(lowerStr u = lowerStr org_id))
            match puuids.find? (fun u => !(uuids.contains u) && !(u = org_id)) with
            | some sid => (some sid, some sid)
            | none => (none, cache)
        | none => (none, cache)

/-- `FBIRadioScraper.extract_audio_url_from_episode_page`.  Returns the
optional audio URL and the value of the `self.show_id` cache after the call.
`cache` is `self.show_id` on entry. -/
def extract_audio_url_from_episode_page (env : Env) (cache : Option Str) (html : Str) :
    Except Unit (Option Str × Option Str) := do
  let org_id := pageOrgId html
  -- tier 1: the four direct URL patterns (most reliable; returns immediately)
  match cdnDirectSearch html with
  | some url => .ok (some url, cache)
  | none =>
    -- raw-HTML UUID harvest
    let uuids := filteredUuids html
    -- show-ID resolution: cache, override table, omnyStudioClip JSON, program page
    let pr := resolveShowId env cache html org_id uuids
    let showD := pr.1
    let cache' := pr.2
    if uuids.isEmpty = false then
      -- clip := first uuid different from the show id (all differ from `None`)
      let clip :=
        match showD with
        | some sid =>
          match uuids.find? (fun u => !(u = sid)) with
          | some u => u
          | none => uuids.getLastD []
        | none => uuids.headD []
      match showD with
      | some sid => .ok (some (mkCdnUrl org_id sid clip), cache')
      | none =>
        if uuids.length ≥ 2 then
          .ok (some (mkCdnUrl org_id (uuids.headD []) clip), cache')
        else
          -- a single unattributed uuid falls through to the JSON tier
          audioJsonTier env org_id cache' html
    else
      audioJsonTier env org_id cache' html

end FbiToRss

namespace FbiToRss

/-! ## Cover-image recovery -/

def genericPats : List Str :=
  ["fbi-volunteers".toList, "supportfbi".toList, "syd_images_web".toList]

/-- Leftmost match of `/([^/]+)\.jpg` (group 1): at each `/`, the longest
slash-free prefix followed by `.jpg`. -/
def jpgStemAt (t : Str) : Option Str :=
  let r := (takeClassRun (fun c => !(c = '/')) t).1
  (List.range (r.length + 1)).reverse.findSome? (fun i =>
    if 1 ≤ i && startsWithL (r.take i ++ ".jpg".toList) t then some (r.take i) else none)

def jpgStemSearch : Str → Option Str
  | [] => none
  | c :: cs =>
    if c = '/' then
      match jpgStemAt cs with
      | some p => some p
      | none => jpgStemSearch cs
    else jpgStemSearch cs

/-- `FBIRadioScraper._is_generic_image`. -/
def is_generic_image (u : Str) : Bool :=
  if u.isEmpty then true
  else
    let ul := lowerStr u
    let fnameHit :=
      match jpgStemSearch ul with
      | some fname => genericPats.any (fun p => startsWithL p fname)
      | none => false
    fnameHit || genericPats.any (fun p => occursIn ('/' :: p) ul)

def sizeKeys : List Str :=
  ["wide_2000".toList, "opengraph".toList, "wide_800".toList, "auto_2000".toList,
   "landscape_2000".toList, "auto_800".toList, "landscape_800".toList]

def isHigh3 (k : Str) : Bool :=
  k = "wide_2000".toList || k = "opengraph".toList || k = "wide_800".toList

/-- One `for size_key in [...]` loop of `find_image_recursive` over a dict:
appends found URLs, returns early on the three high-priority keys.  A truthy
non-string `url` value raises (`.startswith` on a non-str). -/
def scanSizes (kvs : List (Str × Json)) : List Str → List (Str × Str) →
    Except Unit (Option Str × List (Str × Str))
  | [], acc => .ok (none, acc)
  | k :: ks, acc =>
    match lookupKey k kvs with
    | some (.obj o) =>
      (match lookupKey "url".toList o with
      | some uv => do
        if truthy uv then
          match uv with
          | .str u =>
            if startsWithL "http".toList u then
              let acc := acc ++ [(u, k)]
              if isHigh3 k then .ok (some u, acc) else scanSizes kvs ks acc
            else scanSizes kvs ks acc
          | _ => .error ()
        else scanSizes kvs ks acc
      | none => scanSizes kvs ks acc)
    | _ => scanSizes kvs ks acc

mutual

/-- `find_image_recursive` of `extract_image_from_json`: result plus the
accumulated `found_urls` list. -/
def findImageJ : Json → List (Str × Str) → Except Unit (Option Str × List (Str × Str))
  | .obj kvs, acc => do
    let (r1, acc) ←
      match lookupKey "sizes".toList kvs with
      | some (.obj sz) => scanSizes sz sizeKeys acc
      | _ => pure ((none : Option Str), acc)
    match r1 with
    | some u => .ok (some u, acc)
    | none => do
      let (r2, acc) ← scanSizes kvs sizeKeys acc
      match r2 with
      | some u => .ok (some u, acc)
      | none => findImageKVs kvs acc
  | .arr xs, acc => findImageList xs acc
  | _, acc => .ok (none, acc)

def findImageKVs : List (Str × Json) → List (Str × Str) →
    Except Unit (Option Str × List (Str × Str))
  | [], acc => .ok (none, acc)
  | (_, v) :: t, acc =>
    match v with
    | .obj _ | .arr _ => do
      let (r, acc) ← findImageJ v acc
      match r with
      | some u => if u.isEmpty then findImageKVs t acc else .ok (some u, acc)
      | none => findImageKVs t acc
    | _ => findImageKVs t acc

def findImageList : List Json → List (Str × Str) →
    Except Unit (Option Str × List (Str × Str))
  | [], acc => .ok (none, acc)
  | x :: t, acc =>
    match x with
    | .obj _ | .arr _ => do
      let (r, acc) ← findImageJ x acc
      match r with
      | some u => if u.isEmpty then findImageList t acc else .ok (some u, acc)
      | none => findImageList t acc
    | _ => findImageList t acc

end

/-- `FBIRadioScraper.extract_image_from_json`. -/
def extract_image_from_json (j : Json) : Except Unit (Option Str) := do
  if truthy j = false then .ok none
  else do
    let (r, found) ← findImageJ j []
    match r with
    | some u => .ok (some u)
    | none =>
      if found.isEmpty then .ok none
      else
        match sizeKeys.findSome? (fun pref =>
            (found.find? (fun p => p.2 = pref)).map (fun p => p.1)) with
        | some u => .ok (some u)
        | none => .ok ((found.head?).map (fun p => p.1))

mutual

/-- `find_by_ref_recursive` of `_find_image_by_ref`; the redundant
`'Image' in typename` test raises on a truthy non-container `__typename`. -/
def findByRef (refId : Json) : Json → Except Unit (Option Json)
  | .obj kvs => do
    let objId := getKeyD "id".toList (.str []) kvs
    if objId = refId then .ok (some (.obj kvs))
    else do
      let typename := getKeyD "__typename".toList (.str []) kvs
      match typename with
      | .num _ => .error ()
      | .bool _ => .error ()
      | .null => if hasKey "__typename".toList kvs then .error () else findByRefKVs refId kvs
      | _ => findByRefKVs refId kvs
  | .arr xs => findByRefList refId xs
  | _ => .ok none

def findByRefKVs (refId : Json) : List (Str × Json) → Except Unit (Option Json)
  | [] => .ok none
  | (_, v) :: t =>
    match v with
    | .obj _ | .arr _ => do
      let r ← findByRef refId v
      match r with
      | some x => if truthy x then .ok (some x) else findByRefKVs refId t
      | none => findByRefKVs refId t
    | _ => findByRefKVs refId t

def findByRefList (refId : Json) : List Json → Except Unit (Option Json)
  | [] => .ok none
  | x :: t =>
    match x with
    | .obj _ | .arr _ => do
      let r ← findByRef refId x
      match r with
      | some y => if truthy y then .ok (some y) else findByRefList refId t
      | none => findByRefList refId t
    | _ => findByRefList refId t

end

/-- `ref.split(':')[-1]`. -/
def afterLastColon (s : Str) : Str := (s.reverse.takeWhile (fun c => !(c = ':'))).reverse

/-- `FBIRadioScraper._find_image_by_ref`. -/
def find_image_by_ref (j : Json) (ref : Json) : Except Unit (Option Json) :=
  if truthy ref = false || truthy j = false then .ok none
  else match ref with
    | .str s =>
      let refId : Json := .str (if s.contains ':' then afterLastColon s else s)
      findByRef refId j
    | .arr xs => if xs.contains (Json.str [':']) then .error () else findByRef ref j
    | .obj kvs => if kvs.any (fun kv => kv.1 = [':']) then .error () else findByRef ref j
    | _ => .error ()

/-- Normalised search term of `_find_programme_in_json` (last `/` segment of a
URL-ish slug). -/
def searchTermOf (s : Str) : Str :=
  if s.contains '/' then
    let tail := (s.reverse.takeWhile (fun c => !(c = '/'))).reverse
    if tail.isEmpty then s else tail
  else s

/-- The slug-match test `search_term in slug or slug == search_term or
slug.endswith(search_term)` with Python's exception behaviour on non-string
slugs. -/
def slugMatches (term : Str) (slugV : Json) : Except Unit Bool :=
  match slugV with
  | .str s => .ok (occursIn term s || s = term || endsWithL term s)
  | .arr xs =>
    if xs.contains (Json.str term) then .ok true else .error ()
  | .obj kvs =>
    if kvs.any (fun kv => kv.1 = term) then .ok true else .error ()
  | .num _ => .error ()
  | .bool _ => .error ()
  | .null => .error ()

mutual

/-- `find_programme_recursive`: first object with `slug` and `title` but no
`airedAt` whose slug matches the search term. -/
def findProgrammeJ (term : Str) : Json → Except Unit (Option Json)
  | .obj kvs => do
    let hit ←
      if hasKey "slug".toList kvs && hasKey "title".toList kvs &&
          !(hasKey "airedAt".toList kvs) then
        slugMatches term (getKeyD "slug".toList (.str []) kvs)
      else pure false
    if hit then .ok (some (.obj kvs)) else findProgrammeKVs term kvs
  | .arr xs => findProgrammeList term xs
  | _ => .ok none

def findProgrammeKVs (term : Str) : List (Str × Json) → Except Unit (Option Json)
  | [] => .ok none
  | (_, v) :: t =>
    match v with
    | .obj _ | .arr _ => do
      let r ← findProgrammeJ term v
      match r with
      | some x => if truthy x then .ok (some x) else findProgrammeKVs term t
      | none => findProgrammeKVs term t
    | _ => findProgrammeKVs term t

def findProgrammeList (term : Str) : List Json → Except Unit (Option Json)
  | [] => .ok none
  | x :: t =>
    match x with
    | .obj _ | .arr _ => do
      let r ← findProgrammeJ term x
      match r with
      | some y => if truthy y then .ok (some y) else findProgrammeList term t
      | none => findProgrammeList term t
    | _ => findProgrammeList term t

end

/-- `FBIRadioScraper._find_programme_in_json`. -/
def find_programme_in_json (j : Json) (programme_slug : Str) : Except Unit (Option Json) :=
  if programme_slug.isEmpty || truthy j = false then .ok none
  else findProgrammeJ (searchTermOf programme_slug) j

end FbiToRss

namespace FbiToRss

/-! ## The raw-markup image pattern phase of `extract_programme_image` -/

/-- `-2000x11\d{2}\.jpg` (case-insensitive) at the head. -/
def tail2000At (s : Str) : Bool :=
  startsWithCI "-2000x11".toList s &&
    (match s.drop 8 with
      | a :: b :: r => a.isDigit && b.isDigit && startsWithCI ".jpg".toList r
      | _ => false)

/-- `-1200x630\.jpg` at the head. -/
def tailOgAt (s : Str) : Bool := startsWithCI "-1200x630.jpg".toList s

/-- `-800x450\.jpg` at the head. -/
def tail800At (s : Str) : Bool := startsWithCI "-800x450.jpg".toList s

/-- `\.jpg` at the head. -/
def tailJpgAt (s : Str) : Bool := startsWithCI ".jpg".toList s

/-- Positions of the string where a predicate on the suffix holds. -/
def boolHitPositions (p : Str → Bool) : Str → List Nat
  | [] => if p [] then [0] else []
  | c :: cs => (if p (c :: cs) then [0] else []) ++ (boolHitPositions p cs).map (· + 1)

/-- `"url"\s*:\s*"https://media\.fbi\.radio/images/[^"]+TAIL"` anchored at the
head (the quote-free run must end exactly with the size tail). -/
def jsonImgPatAt (tailChk : Str → Bool) (tailLen : Nat) (s : Str) : Option Str := do
  let (q1, r0) ← matchLitCI "\"url\"".toList s
  let (w1, r1) := takeClassRun pySpaceChar r0
  match r1 with
  | ':' :: r2 =>
    let (w2, r3) := takeClassRun pySpaceChar r2
    let (lit2, r4) ← matchLitCI "\"https://media.fbi.radio/images/".toList r3
    let run := takeClassRun (fun c => !(c = '"')) r4
    if run.1.length ≥ tailLen + 1 && tailChk (run.1.drop (run.1.length - tailLen)) then
      match run.2 with
      | '"' :: _ => some (q1 ++ (w1 ++ (':' :: (w2 ++ (lit2 ++ (run.1 ++ ['"']))))))
      | _ => none
    else none
  | _ => none

/-- `https://media\.fbi\.radio/images/[^"\'\s\)]+TAIL` anchored at the head
(greedy: the *last* tail occurrence in the class run wins). -/
def bareImgPatAt (tailChk : Str → Bool) (tailLen : Nat) (s : Str) : Option Str := do
  let (lit, r0) ← matchLitCI "https://media.fbi.radio/images/".toList s
  let run := (takeClassRun looseUrlChar r0).1
  let hits := (boolHitPositions tailChk run).filter (fun i => 1 ≤ i)
  let i ← hits.getLast?
  some (lit ++ run.take (i + tailLen))

/-- `https://media\.fbi\.radio/images/.+?TAIL` anchored at the head
(lazy: the *first* tail occurrence wins; `.` does not cross newlines). -/
def dotImgPatAt (tailChk : Str → Bool) (tailLen : Nat) (s : Str) : Option Str := do
  let (lit, r0) ← matchLitCI "https://media.fbi.radio/images/".toList s
  let run := (takeClassRun (fun c => !(c = '\n')) r0).1
  let hits := (boolHitPositions tailChk run).filter (fun i => 1 ≤ i)
  let i ← hits.head?
  some (lit ++ run.take (i + tailLen))

/-- `re.findall`: leftmost, non-overlapping (continue after each match). -/
def findallAux (matchAt : Str → Option Str) : Nat → Str → List Str
  | 0, _ => []
  | _ + 1, [] => []
  | fuel + 1, c :: cs =>
    match matchAt (c :: cs) with
    | some m => m :: findallAux matchAt fuel ((c :: cs).drop m.length)
    | none => findallAux matchAt fuel cs

def findallPat (matchAt : Str → Option Str) (s : Str) : List Str :=
  findallAux matchAt s.length s

/-- The *case-sensitive* inner search
`re.search(r'"https://media\.fbi\.radio/images/[^"]+\.jpg"', match)` used when
post-processing a JSON-form match. -/
def innerQuotedAt (s : Str) : Option Str :=
  let pat := "\"https://media.fbi.radio/images/".toList
  if startsWithL pat s then
    let r0 := s.drop pat.length
    let pr := takeClassRun (fun c => !(c = '"')) r0
    if pr.1.length ≥ 5 && endsWithL ".jpg".toList pr.1 then
      match pr.2 with
      | '"' :: _ => some (pat ++ (pr.1 ++ ['"']))
      | _ => none
    else none
  else none

def innerQuotedSearch : Str → Option Str
  | [] => none
  | c :: cs =>
    match innerQuotedAt (c :: cs) with
    | some m => some m
    | none => innerQuotedSearch cs

/-- `url.replace(' ', '%20')`. -/
def encodeSpaces : Str → Str
  | [] => []
  | c :: t => if c = ' ' then '%' :: ('2' :: ('0' :: encodeSpaces t)) else c :: encodeSpaces t

/-- `.strip('"')`. -/
def stripDq (s : Str) : Str :=
  ((s.dropWhile (fun c => c = '"')).reverse.dropWhile (fun c => c = '"')).reverse

/-- `'-2000x11' in url or '-1200x630' in url or '-800x450' in url`. -/
def sizeSub (u : Str) : Bool :=
  occursIn "-2000x11".toList u || occursIn "-1200x630".toList u ||
    occursIn "-800x450".toList u

/-- Processing of one findall match in the high-priority loop: returns the
early-return value (if any) and the updated `all_matches` accumulator. -/
def procHighMatch (lbl : Str) (m : Str) (acc : List (Str × Str)) :
    Option Str × List (Str × Str) :=
  if occursIn "url".toList m then
    match innerQuotedSearch m with
    | some q =>
      let url := encodeSpaces (stripDq q)
      if is_generic_image url then (none, acc)
      else if sizeSub url then
        let acc2 := if acc.any (fun p => p.1 = url) then acc else acc ++ [(url, lbl)]
        if isHigh3 lbl then (some url, acc2) else (none, acc2)
      else (none, acc)
    | none => (none, acc)
  else if startsWithL "http".toList m then
    let url := encodeSpaces m
    if is_generic_image url then (none, acc)
    else if sizeSub url then
      let acc2 := if acc.any (fun p => p.1 = url) then acc else acc ++ [(url, lbl)]
      if isHigh3 lbl then (some url, acc2) else (none, acc2)
    else (none, acc)
  else (none, acc)

def runHighMatches (lbl : Str) : List Str → List (Str × Str) →
    Option Str × List (Str × Str)
  | [], acc => (none, acc)
  | m :: ms, acc =>
    match procHighMatch lbl m acc with
    | (some u, acc2) => (some u, acc2)
    | (none, acc2) => runHighMatches lbl ms acc2

/-- The nine `high_priority_patterns` in source order: each size family is
listed JSON-form first, then bare, then the lenient `.+?` form — but grouped
by *syntactic form first* (all three JSON patterns precede the bare 2000px
pattern). -/
def highPriorityPats : List ((Str → Option Str) × Str) :=
  [(jsonImgPatAt tail2000At 14, "wide_2000".toList),
   (jsonImgPatAt tailOgAt 13, "opengraph".toList),
   (jsonImgPatAt tail800At 12, "wide_800".toList),
   (bareImgPatAt tail2000At 14, "wide_2000".toList),
   (bareImgPatAt tailOgAt 13, "opengraph".toList),
   (bareImgPatAt tail800At 12, "wide_800".toList),
   (dotImgPatAt tail2000At 14, "wide_2000".toList),
   (dotImgPatAt tailOgAt 13, "opengraph".toList),
   (dotImgPatAt tail800At 12, "wide_800".toList)]

def runHighPats : List ((Str → Option Str) × Str) → Str → List (Str × Str) →
    Option Str × List (Str × Str)
  | [], _, acc => (none, acc)
  | (pm, lbl) :: ps, html, acc =>
    match runHighMatches lbl (findallPat pm html) acc with
    | (some u, acc2) => (some u, acc2)
    | (none, acc2) => runHighPats ps html acc2

/-- Processing of one fallback-pattern match. -/
def procFbMatch (m : Str) : Option Str :=
  if occursIn "url".toList m then
    match innerQuotedSearch m with
    | some q =>
      let url := encodeSpaces (stripDq q)
      if is_generic_image url then none
      else if !(occursIn "-320x320".toList url) && !(occursIn "-320x".toList url) then
        some url
      else none
    | none => none
  else if startsWithL "http".toList m then
    let url := encodeSpaces m
    if is_generic_image url then none
    else if !(occursIn "-320x320".toList url) && !(occursIn "-320x".toList url) then
      some url
    else none
  else none

def runFbMatches : List Str → Option Str
  | [] => none
  | m :: ms =>
    match procFbMatch m with
    | some u => some u
    | none => runFbMatches ms

def fallbackPats : List (Str → Option Str) :=
  [jsonImgPatAt tailJpgAt 4, bareImgPatAt tailJpgAt 4]

def runFbPats : List (Str → Option Str) → Str → Option Str
  | [], _ => none
  | pm :: ps, html =>
    match runFbMatches (findallPat pm html) with
    | some u => some u
    | none => runFbPats ps html

def prio3 : List Str := ["wide_2000".toList, "opengraph".toList, "wide_800".toList]

/-- The raw-markup scanning phase of `extract_programme_image` (everything
after the structured-data attempts). -/
def imageRegexPhase (html : Str) : Option Str :=
  match runHighPats highPriorityPats html [] with
  | (some u, _) => some u
  | (none, allM) =>
    if allM.isEmpty = false then
      match prio3.findSome? (fun p =>
          (allM.find? (fun q => q.2 = p && !(is_generic_image q.1))).map
            (fun q => q.1)) with
      | some u => some u
      | none =>
        match allM.find? (fun q => !(is_generic_image q.1)) with
        | some q => some q.1
        | none => (allM.head?).map (fun q => q.1)
    else runFbPats fallbackPats html

/-- `FBIRadioScraper.extract_programme_image`: override table, then the
programme object in the structured data, then a blind JSON image search, then
the raw-markup regex phase. -/
def extract_programme_image (env : Env) (html : Str) : Except Unit (Option Str) :=
  match lookupStr env.program_slug KNOWN_PROGRAMME_IMAGES with
  | some im => .ok (some im)
  | none =>
    match env.json_of html with
    | some j => do
      let prog ← find_programme_in_json j env.program_slug
      let r1 ←
        match prog with
        | some pobj =>
          if truthy pobj then
            match pobj with
            | .obj pkvs =>
              if truthy (getKeyD "image".toList .null pkvs) then
                match getKeyD "image".toList .null pkvs with
                | .obj ikvs =>
                  if hasKey "__ref".toList ikvs then do
                    let iobj ← find_image_by_ref j (getKeyD "__ref".toList .null ikvs)
                    match iobj with
                    | some io =>
                      if truthy io then extract_image_from_json io
                      else pure (none : Option Str)
                    | none => pure (none : Option Str)
                  else extract_image_from_json (.obj ikvs)
                | _ => pure (none : Option Str)
              else pure (none : Option Str)
            | _ => pure (none : Option Str)
          else pure (none : Option Str)
        | none => pure (none : Option Str)
      match r1 with
      | some u => .ok (some u)
      | none => do
        let r2 ← extract_image_from_json j
        match r2 with
        | some u =>
          if is_generic_image u then .ok (imageRegexPhase html) else .ok (some u)
        | none => .ok (imageRegexPhase html)
    | none => .ok (imageRegexPhase html)

end FbiToRss

namespace FbiToRss

/-! ## `urljoin(BASE_URL, href)` and `extract_episode_links_from_html`

`urllib.parse.urljoin` is embedded for the fixed base
`https://www.fbi.radio` (scheme `https`, netloc `www.fbi.radio`, empty path,
no query/fragment), following CPython's RFC-3986 resolution including
dot-segment removal. -/

def hostBase : Str := "https://www.fbi.radio".toList

/-- Leading `scheme:` of a URL (letter then letters/digits/`+`/`.`/`-`). -/
def schemeSplit (s : Str) : Option (Str × Str) :=
  match s with
  | c :: cs =>
    if c.isAlpha then
      let run := takeClassRun
        (fun ch => ch.isAlpha || ch.isDigit || ch = '+' || ch = '.' || ch = '-') cs
      match run.2 with
      | ':' :: rest => some (c :: run.1, rest)
      | _ => none
    else none
  | [] => none

/-- `s.split(ch, 1)`. -/
def splitOnce (ch : Char) : Str → Str × Option Str
  | [] => ([], none)
  | c :: cs =>
    if c = ch then ([], some cs)
    else
      let pr := splitOnce ch cs
      (c :: pr.1, pr.2)

/-- `s.split(ch)`. -/
def splitOnChar (ch : Char) : Str → List Str
  | [] => [[]]
  | c :: cs =>
    let r := splitOnChar ch cs
    if c = ch then [] :: r
    else
      match r with
      | h :: t => (c :: h) :: t
      | [] => [[c]]

/-- The `..`/`.` resolution loop of `urljoin` (with the trailing-dot-segment
empty-segment append). -/
def dotResolve (segs : List Str) : List Str :=
  let r := segs.foldl (fun acc seg =>
    if seg = ['.', '.'] then acc.dropLast
    else if seg = ['.'] then acc
    else acc ++ [seg]) []
  match segs.getLast? with
  | some l => if l = ['.'] || l = ['.', '.'] then r ++ [[]] else r
  | none => r

/-- `'/'.join(resolved_path) or '/'`. -/
def joinSegs (segs : List Str) : Str :=
  let j := List.intercalate ['/'] segs
  if j.isEmpty then ['/'] else j

/-- `segments[1:-1] = filter(None, segments[1:-1])`. -/
def filterMiddle (segs : List Str) : List Str :=
  match segs with
  | [] => []
  | [a] => [a]
  | a :: rest =>
    match rest.getLast? with
    | some l => a :: (rest.dropLast.filter (fun s => !s.isEmpty) ++ [l])
    | none => [a]

/-- `urlunsplit`'s query/fragment rendering (empty parts are dropped). -/
def renderQF (q : Option Str) (f : Option Str) : Str :=
  (match q with
    | some qs => if qs.isEmpty then [] else '?' :: qs
    | none => []) ++
  (match f with
    | some fs => if fs.isEmpty then [] else '#' :: fs
    | none => [])

/-- `urljoin('https://www.fbi.radio', href)`. -/
def urljoinFbi (href : Str) : Str :=
  if href.isEmpty then hostBase
  else
    let pr := match schemeSplit href with
      | some (sc, r) => (lowerStr sc, r)
      | none => ("https".toList, href)
    if !(pr.1 = "https".toList) then href
    else
      let r1 := pr.2
      if startsWithL "//".toList r1 then
        let nl := takeClassRun (fun c => !(c = '/' || c = '?' || c = '#')) (r1.drop 2)
        "https://".toList ++ (nl.1 ++ nl.2)
      else
        let (core, frag) := splitOnce '#' r1
        let (pathPart, q) := splitOnce '?' core
        if pathPart.isEmpty then hostBase ++ renderQF q frag
        else
          let segs :=
            if startsWithL "/".toList pathPart then splitOnChar '/' pathPart
            else filterMiddle ([] :: splitOnChar '/' pathPart)
          let p := joinSegs (dotResolve segs)
          -- `urlunsplit` inserts a slash before a relative path when a netloc
          -- is present
          let p := if startsWithL "/".toList p then p else '/' :: p
          hostBase ++ (p ++ renderQF q frag)

/-- `FBIRadioScraper.extract_episode_links_from_html`: anchor hrefs containing
both `/episodes/` and the program slug, joined against the base URL,
deduplicated keeping first occurrences. -/
def extract_episode_links_from_html (env : Env) (html : Str) : List Str :=
  (env.anchors html).foldl (fun acc href =>
    if occursIn "/episodes/".toList href && occursIn env.program_slug href then
      let full := urljoinFbi href
      if acc.contains full then acc else acc ++ [full]
    else acc) []

end FbiToRss

namespace FbiToRss

/-! ## The scraping pipeline (`get_episodes`) and the feed emitter -/

/-- `FBIRadioScraper.parse_description`: dict with truthy `children` joins the
`text` fields of dict children with spaces (raising if a joined value is not a
string, or if a truthy non-iterable `children` is iterated); a string is
returned as-is; anything else gives `''`. -/
def parse_description (d : Json) : Except Unit Str :=
  match d with
  | .obj kvs =>
    (match getKeyD "children".toList (.arr []) kvs with
    | .arr xs =>
      if xs.isEmpty then .ok []
      else
        let vals := xs.filterMap (fun c =>
          match c with
          | .obj ck => lookupKey "text".toList ck
          | _ => none)
        if vals.all (fun v => match v with | .str _ => true | _ => false) then
          .ok (List.intercalate [' '] (vals.map pyStr))
        else .error ()
    | .str _ => .ok []
    | .obj _ => .ok []
    | .num n => if n = 0 then .ok [] else .error ()
    | .bool b => if b then .error () else .ok []
    | .null => .ok [])
  | .str s => .ok s
  | _ => .ok []

/-- A fully processed episode dict (the shape consumed by `generate_feed`). -/
structure Episode where
  title : Json
  url : Str
  audio_url : Option Str
  date : Option PyDatetime
  description : Str
deriving DecidableEq

/-- The date-resolution chain of the processing loop in `get_episodes`
(lines 1049–1061): `parse_date(airedAt)` when `airedAt` is truthy, else
`parse_date_from_url(url)`, else `datetime.now(timezone.utc)`. -/
def resolveEpisodeDate (env : Env) (ep : RawEpisode) : Except Unit PyDatetime := do
  let d1 ← if truthy ep.airedAt then parse_date ep.airedAt else pure none
  .ok ((match d1 with
    | some d => some d
    | none => parse_date_from_url ep.url).getD (envNow env))

/-- The audio-URL step of the processing loop: fetch the episode page and run
the audio extractor on it (unavailable or empty pages give no audio). -/
def audioStep (env : Env) (cache : Option Str) (url : Str) :
    Except Unit (Option Str × Option Str) :=
  match fetch_page env url with
  | some ehtml =>
    if ehtml.isEmpty then .ok (none, cache)
    else extract_audio_url_from_episode_page env cache ehtml
  | none => .ok (none, cache)

/-- The per-episode body of the processing loop in `get_episodes`
(lines 1048–1079): resolve the date (airedAt, then URL, then now), parse the
description, and fetch the episode page for an audio URL.  Returns the episode
and the updated `self.show_id` cache. -/
def processEpisode (env : Env) (cache : Option Str) (ep : RawEpisode) :
    Except Unit (Episode × Option Str) := do
  let date ← resolveEpisodeDate env ep
  let desc ← parse_description ep.description
  let pr ← audioStep env cache ep.url
  .ok ({ title := ep.title, url := ep.url, audio_url := pr.1, date := some date,
         description := desc }, pr.2)

/-- The per-link fallback episode dict built from plain HTML (the dict's
`audio_url` and `date` entries are recomputed by the processing loop and never
observed, so they are not carried). -/
def fallbackEpisode (env : Env) (link : Str) (ehtml : Str) : RawEpisode :=
  let title :=
    match env.h1Text ehtml with
    | some t => Json.str t
    | none =>
      match env.titleText ehtml with
      | some t => Json.str t
      | none => Json.str "Untitled Episode".toList
  { idField := .str [], title := title, slug := .str [], airedAt := .str [],
    description := .str [], omnyStudioClip := .str [], url := link }

/-- The HTML-links fallback of `get_episodes` (lines 997–1044). -/
def fallbackFromLinks (env : Env) (html : Str) : Except Unit (List RawEpisode) := do
  let links := extract_episode_links_from_html env html
  links.foldlM (fun acc link => do
    match fetch_page env link with
    | none => pure acc
    | some ehtml =>
      if ehtml.isEmpty then pure acc
      else
        match env.json_of ehtml with
        | some ejson =>
          if truthy ejson then do
            let lst ← extract_episodes_from_json env.program_slug ejson
            if lst.isEmpty then pure (acc ++ [fallbackEpisode env link ehtml])
            else pure (acc ++ lst)
          else pure (acc ++ [fallbackEpisode env link ehtml])
        | none => pure (acc ++ [fallbackEpisode env link ehtml])) []

/-- `get_sort_key` inside `get_episodes` (`None` sorts as `0` there). -/
def getSortKeyGE (env : Env) (e : Episode) : Int :=
  match e.date with
  | none => 0
  | some d => tsMicro env.localOffset d

/-- `FBIRadioScraper.get_episodes`. -/
def get_episodes (env : Env) : Except Unit (List Episode × Str × Option Str) :=
  match fetch_page env (programUrl env.program_slug) with
  | none => .ok ([], env.program_slug, none)
  | some html =>
    if html.isEmpty then .ok ([], env.program_slug, none)
    else do
      let program_name := (env.h1Text html).getD env.program_slug
      let program_image ← extract_programme_image env html
      let eData ←
        match env.json_of html with
        | some j =>
          if truthy j then extract_episodes_from_json env.program_slug j
          else pure []
        | none => pure ([] : List RawEpisode)
      let eData ← if eData.isEmpty then fallbackFromLinks env html else pure eData
      let st ← eData.foldlM
        (fun (st : List Episode × Option Str) ep => do
          let pr ← processEpisode env st.2 ep
          pure (st.1 ++ [pr.1], pr.2))
        (([] : List Episode), (none : Option Str))
      let eps := st.1
      let valid := eps.filter (fun e => e.date.isSome)
      let noDate := eps.filter (fun e => e.date.isNone)
      .ok (sortD (getSortKeyGE env) valid ++ noDate, program_name, program_image)

/-- One `<item>` of the emitted RSS document.  `pub` holds the RFC-822
`pubDate` content as (wall-clock seconds, utcoffset seconds) — second
precision, as rendered. -/
structure Item where
  title : Json
  link : Str
  pub : Option (Int × Int)
  desc : Option Str
  enc : Option (Str × Str)
  guid : Str
deriving DecidableEq

/-- Building one feed entry: `pubDate` raises on a naive datetime and emits no
element for `None`; the description is set only when non-empty; the enclosure
(fixed `audio/mpeg` type) only when the audio URL is truthy. -/
def toItem (ep : Episode) : Except Unit Item := do
  let pub ←
    match ep.date with
    | some d =>
      match d.tz with
      | some o => pure (some (d.wallSec, o))
      | none => .error ()
    | none => pure (none : Option (Int × Int))
  .ok { title := ep.title, link := ep.url, pub := pub
        desc := if ep.description.isEmpty then none else some ep.description
        enc := match ep.audio_url with
          | some u => if u.isEmpty then none else some (u, "audio/mpeg".toList)
          | none => none
        guid := ep.url }

/-- `get_sort_timestamp` in `generate_feed` (`None` dates sort as `-inf`). -/
def get_sort_timestamp (env : Env) (ep : Episode) : WithBot Int :=
  match ep.date with
  | none => ⊥
  | some d => (tsMicro env.localOffset d : Int)

/-- `get_item_timestamp` in `generate_feed`: parse the RFC-822 `pubDate` back
(second precision), apply `time.mktime` (local-time interpretation, modelled
as the fixed offset `env.localOffset`) minus the parsed utcoffset; items
without a parsable `pubDate` get `0`. -/
def get_item_timestamp (env : Env) (it : Item) : Int :=
  match it.pub with
  | some pr => pr.1 - env.localOffset - pr.2
  | none => 0

/-- The final-serialization reordering: all `<item>`s are removed from the
channel and re-appended sorted by `get_item_timestamp`, newest first. -/
def xmlReorderItems (env : Env) (items : List Item) : List Item :=
  sortD (get_item_timestamp env) items

structure FeedOut where
  items : List Item
deriving DecidableEq

/-- `RSSFeedGenerator.generate_feed` (content of the emitted document, at the
item level): sort episodes newest-first, add entries in that order (feedgen
*prepends* each new entry, so the intermediate document is in reverse order of
addition), then re-sort the parsed items by `pubDate` at the final
serialization step. -/
def generate_feed (env : Env) (episodes : List Episode) : Except Unit FeedOut := do
  let sortedEps := sortD (get_sort_timestamp env) episodes
  let entries ← sortedEps.foldlM
    (fun acc ep => do
      let it ← toItem ep
      pure (it :: acc))
    ([] : List Item)
  .ok { items := xmlReorderItems env entries }

end FbiToRss

namespace FbiToRss

/-! ## Shared lemmas about the feed emitter -/

/-- Total variant of `toItem` (agrees with it whenever the date is aware). -/
def toItemT (ep : Episode) : Item :=
  { title := ep.title, link := ep.url
    pub := ep.date.map (fun d => (d.wallSec, d.tz.getD 0))
    desc := if ep.description.isEmpty then none else some ep.description
    enc := match ep.audio_url with
      | some u => if u.isEmpty then none else some (u, "audio/mpeg".toList)
      | none => none
    guid := ep.url }

theorem toItem_eq (ep : Episode) (h : ∀ d, ep.date = some d → (d.tz).isSome) :
    toItem ep = .ok (toItemT ep) := by
  unfold toItem toItemT
  cases hd : ep.date with
  | none => simp [hd]
  | some d =>
    cases ht : d.tz with
    | some o => simp [hd, ht]
    | none =>
      have := h d hd
      rw [ht] at this
      simp at this

theorem feed_foldlM_eq (l : List Episode) (acc : List Item)
    (h : ∀ ep ∈ l, ∀ d, ep.date = some d → (d.tz).isSome) :
    (l.foldlM (fun acc ep => do
        let it ← toItem ep
        pure (it :: acc)) acc : Except Unit (List Item)) =
      .ok ((l.map toItemT).reverse ++ acc) := by
  induction l generalizing acc with
  | nil => rfl
  | cons e t ih =>
    have he := h e (List.mem_cons_self e t)
    have ht : ∀ ep ∈ t, ∀ d, ep.date = some d → (d.tz).isSome :=
      fun ep hm => h ep (List.mem_cons_of_mem e hm)
    simp only [List.foldlM_cons, toItem_eq e he]
    show (t.foldlM _ (toItemT e :: acc) : Except Unit (List Item)) = _
    rw [ih (toItemT e :: acc) ht]
    simp

/-- `generate_feed` on aware-dated episodes: sort, map to items, reverse
(feedgen prepends entries), then the final XML reorder. -/
theorem generate_feed_eq (env : Env) (eps : List Episode)
    (h : ∀ ep ∈ eps, ∀ d, ep.date = some d → (d.tz).isSome) :
    generate_feed env eps =
      .ok ⟨xmlReorderItems env
            (((sortD (get_sort_timestamp env) eps).map toItemT).reverse)⟩ := by
  unfold generate_feed
  have hs : ∀ ep ∈ sortD (get_sort_timestamp env) eps, ∀ d,
      ep.date = some d → (d.tz).isSome :=
    fun ep hmem => h ep ((sortD_perm _ _).mem_iff.mp hmem)
  show (do
    let entries ← (sortD (get_sort_timestamp env) eps).foldlM (fun acc ep => do
        let it ← toItem ep
        pure (it :: acc)) ([] : List Item)
    Except.ok (FeedOut.mk (xmlReorderItems env entries))) = _
  rw [feed_foldlM_eq _ [] hs]
  simp only [List.append_nil]
  rfl

end FbiToRss

namespace FbiToRss

/-! ## Claim C8 -/

/-- Claim C8 (amended): fetch failures — a raised timeout, a raised connection
error, or a final response status in `400..599` — make `fetch_page` return
`None` instead of propagating an exception; and `get_episodes` on an
unavailable program page returns the empty episode list with the program slug
as the name and no image, rather than raising.  (Statuses outside that band,
including non-2xx ones such as 304 and out-of-band ones such as 600, are *not*
treated as failures: their body is returned — `requests.raise_for_status`
raises only for `400 ≤ status < 600`; see the counterexample.) -/
theorem c8_fetch_failures_return_none (env : Env) (url : Str) :
    (env.net url = NetResult.timeout → fetch_page env url = none) ∧
    (env.net url = NetResult.connError → fetch_page env url = none) ∧
    (∀ status body, env.net url = NetResult.resp status body → 400 ≤ status →
      status < 600 → fetch_page env url = none) ∧
    (fetch_page env (programUrl env.program_slug) = none →
      get_episodes env = .ok ([], env.program_slug, none)) := by
  refine ⟨?_, ?_, ?_, ?_⟩
  · intro h; unfold fetch_page; rw [h]
  · intro h; unfold fetch_page; rw [h]
  · intro status body h hs hs6
    unfold fetch_page
    rw [h]
    simp [hs, hs6]
  · intro h
    unfold get_episodes
    rw [h]

def envNet304 : Env :=
  { program_slug := "jack".toList, net := fun _ => .resp 304 "b".toList,
    json_of := fun _ => none, h1Text := fun _ => none, titleText := fun _ => none,
    anchors := fun _ => [], scripts := fun _ => [], localOffset := 0,
    nowSec := 0, nowMicro := 0 }

def envNet600 : Env :=
  { program_slug := "jack".toList, net := fun _ => .resp 600 "b".toList,
    json_of := fun _ => none, h1Text := fun _ => none, titleText := fun _ => none,
    anchors := fun _ => [], scripts := fun _ => [], localOffset := 0,
    nowSec := 0, nowMicro := 0 }

/-- Claim C8 counterexample: a final `304 Not Modified` response is a non-2xx
status, yet `fetch_page` returns the response body rather than `None`; and a
`600` status is also passed through, because `requests.raise_for_status`
raises only for `400 ≤ status < 600`. -/
theorem c8_counterexample :
    envNet304.net "u".toList = NetResult.resp 304 "b".toList ∧
    (304 < 200 ∨ 299 < 304) ∧
    fetch_page envNet304 "u".toList = some "b".toList ∧
    envNet600.net "u".toList = NetResult.resp 600 "b".toList ∧
    400 ≤ 600 ∧
    fetch_page envNet600 "u".toList = some "b".toList :=
  ⟨rfl, Or.inr (by norm_num), rfl, rfl, by norm_num, rfl⟩

def envNet404 : Env :=
  { program_slug := "jack".toList, net := fun _ => .resp 404 "b".toList,
    json_of := fun _ => none, h1Text := fun _ => none, titleText := fun _ => none,
    anchors := fun _ => [], scripts := fun _ => [], localOffset := 0,
    nowSec := 0, nowMicro := 0 }

def envNetTimeout : Env :=
  { program_slug := "jack".toList, net := fun _ => .timeout,
    json_of := fun _ => none, h1Text := fun _ => none, titleText := fun _ => none,
    anchors := fun _ => [], scripts := fun _ => [], localOffset := 0,
    nowSec := 0, nowMicro := 0 }

/-- Witness for C8: a concrete timed-out fetch yields `None`, and
`get_episodes` on the unreachable program page yields the empty result. -/
theorem c8_witness :
    fetch_page envNetTimeout "u".toList = none ∧
    fetch_page envNet404 "u".toList = none ∧
    get_episodes envNetTimeout = .ok ([], "jack".toList, none) :=
  ⟨(c8_fetch_failures_return_none envNetTimeout "u".toList).1 rfl,
   (c8_fetch_failures_return_none envNet404 "u".toList).2.2.1 404 "b".toList rfl
     (by norm_num) (by norm_num),
   (c8_fetch_failures_return_none envNetTimeout "u".toList).2.2.2 rfl⟩

end FbiToRss

namespace FbiToRss

/-! ## Claim C6 -/

instance {ε α : Type} [DecidableEq ε] [DecidableEq α] : DecidableEq (Except ε α) :=
  fun x y =>
    match x, y with
    | .ok a, .ok b =>
      if h : a = b then .isTrue (h ▸ rfl)
      else .isFalse (fun he => h (Except.ok.inj he))
    | .error a, .error b =>
      if h : a = b then .isTrue (h ▸ rfl)
      else .isFalse (fun he => h (Except.error.inj he))
    | .ok _, .error _ => .isFalse (fun he => Except.noConfusion he)
    | .error _, .ok _ => .isFalse (fun he => Except.noConfusion he)

theorem lookupStr_mem : ∀ (tbl : List (Str × Str)) (k v : Str),
    lookupStr k tbl = some v → v ∈ tbl.map Prod.snd := by
  intro tbl
  induction tbl with
  | nil => intro k v h; simp [lookupStr] at h
  | cons p t ih =>
    intro k v h
    obtain ⟨k', v'⟩ := p
    unfold lookupStr at h
    by_cases hk : k' = k
    · rw [if_pos hk] at h
      simp at h
      simp [h]
    · rw [if_neg hk] at h
      simp [ih k v h]

theorem known_show_ids_ne_nil : ∀ v ∈ KNOWN_SHOW_IDS.map Prod.snd, v ≠ [] := by
  decide

/-- Claim C6 (amended): for a program slug present in the override tables, the
resolved show ID is exactly the `KNOWN_SHOW_IDS` entry whenever the raw-HTML
show-ID reconstruction runs — i.e. no fully-formed CDN URL was found verbatim
and at least one raw-HTML UUID survives the harvest — for *every* page
content, with every heuristic show-ID path bypassed; and the resolved cover
image is exactly the `KNOWN_PROGRAMME_IMAGES` entry, unconditionally.  The
cache may be empty or already hold the override value (the only two states
reachable for such a slug).  The raw-HTML-UUID proviso is essential: when no
UUID survives the raw-HTML harvest but a structured-data blob is recoverable,
the JSON fallback tier builds the audio URL from heuristic clip/show UUIDs
found in the blob and ignores the override entirely — see the
counterexample. -/
theorem c6_override_tables (env : Env) (cache : Option Str) (html : Str) :
    (∀ sid, lookupStr env.program_slug KNOWN_SHOW_IDS = some sid →
      (cache = none ∨ cache = some sid) →
      cdnDirectSearch html = none →
      filteredUuids html ≠ [] →
      ∃ clip cacheOut, extract_audio_url_from_episode_page env cache html =
        .ok (some (mkCdnUrl (pageOrgId html) sid clip), cacheOut)) ∧
    (∀ im, lookupStr env.program_slug KNOWN_PROGRAMME_IMAGES = some im →
      extract_programme_image env html = .ok (some im)) := by
  constructor
  · intro sid hs hc hdirect hu
    have hne : sid ≠ [] :=
      known_show_ids_ne_nil sid (lookupStr_mem KNOWN_SHOW_IDS env.program_slug sid hs)
    have hres : resolveShowId env cache html (pageOrgId html) (filteredUuids html)
        = (some sid, some sid) := by
      unfold resolveShowId
      rcases hc with rfl | rfl
      · rw [if_neg (by simp [truthyStrOpt]), hs]
      · rw [if_pos (by simp [truthyStrOpt, List.isEmpty_iff, hne])]
    have hne2 : (filteredUuids html).isEmpty = false := by
      rw [List.isEmpty_eq_false]
      exact hu
    refine ⟨(match (filteredUuids html).find? (fun u => !(u = sid)) with
      | some u => u
      | none => (filteredUuids html).getLastD []), some sid, ?_⟩
    simp only [extract_audio_url_from_episode_page]
    rw [hdirect, hres]
    simp only [hne2]
    rfl
  · intro im him
    unfold extract_programme_image
    rw [him]

def envC6 : Env :=
  { program_slug := "utility-fog".toList, net := fun _ => .timeout,
    json_of := fun _ => none, h1Text := fun _ => none, titleText := fun _ => none,
    anchors := fun _ => [], scripts := fun _ => [], localOffset := 0,
    nowSec := 0, nowMicro := 0 }

def htmlC6 : Str := "11111111-1111-1111-1111-111111111111".toList

def blobC6x : Json :=
  .obj [("uuid".toList, .str "22222222-2222-2222-2222-222222222222".toList),
        ("__typename".toList, .str "Clip".toList)]

def envC6x : Env :=
  { program_slug := "utility-fog".toList, net := fun _ => .timeout,
    json_of := fun _ => some blobC6x, h1Text := fun _ => none,
    titleText := fun _ => none, anchors := fun _ => [], scripts := fun _ => [],
    localOffset := 0, nowSec := 0, nowMicro := 0 }

def htmlC6x : Str := "<p>nothing here</p>".toList

/-- Counterexample to C6 as stated: the slug `utility-fog` is in
`KNOWN_SHOW_IDS`, but on a page with no raw-HTML UUIDs whose structured-data
blob holds one clip UUID, the JSON fallback tier builds the audio URL with
that heuristic UUID as *both* show and clip ID — the override show ID is
resolved into the cache yet never used in the URL, so not every heuristic
path is bypassed. -/
theorem c6_counterexample :
    lookupStr envC6x.program_slug KNOWN_SHOW_IDS =
      some "1e142c09-9e63-4d2e-8ce7-a00df26cf834".toList ∧
    extract_audio_url_from_episode_page envC6x none htmlC6x =
      .ok (some ("https://traffic.omny.fm/d/clips/02b00798-16d7-4067-89ac-aba000ffd8cb/22222222-2222-2222-2222-222222222222/22222222-2222-2222-2222-222222222222/audio.mp3").toList,
        some "1e142c09-9e63-4d2e-8ce7-a00df26cf834".toList) ∧
    occursIn "1e142c09-9e63-4d2e-8ce7-a00df26cf834".toList
      ("https://traffic.omny.fm/d/clips/02b00798-16d7-4067-89ac-aba000ffd8cb/22222222-2222-2222-2222-222222222222/22222222-2222-2222-2222-222222222222/audio.mp3").toList = false :=
  ⟨by decide, by decide, by decide⟩

/-- Witness for C6 at the `utility-fog` slug (present in both override
tables), on a page with no direct CDN URL and one candidate UUID. -/
theorem c6_witness :
    (∃ clip cacheOut, extract_audio_url_from_episode_page envC6 none htmlC6 =
      .ok (some (mkCdnUrl (pageOrgId htmlC6)
        "1e142c09-9e63-4d2e-8ce7-a00df26cf834".toList clip), cacheOut)) ∧
    extract_programme_image envC6 htmlC6 =
      .ok (some "https://media.fbi.radio/images/utility%20fog%20with%20peter%20hollo-800x450.jpg".toList) :=
  ⟨(c6_override_tables envC6 none htmlC6).1 _ (by decide) (Or.inl rfl) (by decide)
      (by decide),
   (c6_override_tables envC6 none htmlC6).2 _ (by decide)⟩

end FbiToRss

namespace FbiToRss

/-! ## Claim C7 -/

/-- Claim C7 (amended): when no fully-formed CDN URL is found verbatim, no
UUID-shaped token survives the raw-HTML harvest and no JSON blob is
recoverable (so no UUID triad can be assembled), the audio resolver returns
no audio URL — `.ok (none, _)`, not an exception; and feed emission keeps
every episode: the emitted items are a permutation of the per-episode items,
each of which carries the episode URL as GUID and an enclosure exactly when
the episode has an audio URL, with the fixed `audio/mpeg` MIME type.  The
no-JSON-blob proviso is essential to the no-exception half: on a page whose
blob holds a truthy non-string `uuid` value the resolver *raises*
(`'-' in uuid_value` on a non-string is a `TypeError`) — see the
counterexample. -/
theorem c7_no_audio_not_dropped (env : Env) (cache : Option Str) (html : Str)
    (eps : List Episode) :
    (cdnDirectSearch html = none → filteredUuids html = [] →
      env.json_of html = none →
      ∃ cacheOut, extract_audio_url_from_episode_page env cache html =
        .ok (none, cacheOut)) ∧
    ((∀ ep ∈ eps, ∀ d, ep.date = some d → (d.tz).isSome) →
     (∀ ep ∈ eps, ∀ u, ep.audio_url = some u → u ≠ []) →
      ∃ items, generate_feed env eps = .ok ⟨items⟩ ∧
        items.Perm (eps.map toItemT) ∧
        ∀ ep ∈ eps, (toItemT ep).guid = ep.url ∧
          (toItemT ep).enc = ep.audio_url.map (fun u => (u, "audio/mpeg".toList))) := by
  constructor
  · intro hdirect huu hjson
    refine ⟨(resolveShowId env cache html (pageOrgId html) (filteredUuids html)).2, ?_⟩
    simp only [extract_audio_url_from_episode_page]
    rw [hdirect]
    simp only [huu, List.isEmpty_nil]
    show audioJsonTier env (pageOrgId html) _ html = _
    simp only [audioJsonTier]
    rw [hjson]
  · intro haware haudio
    refine ⟨xmlReorderItems env
      (((sortD (get_sort_timestamp env) eps).map toItemT).reverse),
      generate_feed_eq env eps haware, ?_, ?_⟩
    · calc xmlReorderItems env (((sortD (get_sort_timestamp env) eps).map toItemT).reverse)
          |>.Perm (((sortD (get_sort_timestamp env) eps).map toItemT).reverse) :=
            sortD_perm _ _
      _ |>.Perm ((sortD (get_sort_timestamp env) eps).map toItemT) :=
            List.reverse_perm _
      _ |>.Perm (eps.map toItemT) := (sortD_perm _ _).map toItemT
    · intro ep hmem
      refine ⟨rfl, ?_⟩
      cases hau : ep.audio_url with
      | none => simp [toItemT, hau]
      | some u =>
        have hne : u.isEmpty = false := by
          rw [List.isEmpty_eq_false]
          exact haudio ep hmem u hau
        simp [toItemT, hau, hne]

def envC7 : Env :=
  { program_slug := "jack-off".toList, net := fun _ => .timeout,
    json_of := fun _ => none, h1Text := fun _ => none, titleText := fun _ => none,
    anchors := fun _ => [], scripts := fun _ => [], localOffset := 0,
    nowSec := 0, nowMicro := 0 }

def htmlC7 : Str := "<p>nothing here</p>".toList

def epC7 : Episode :=
  { title := .str "Ep".toList, url := "https://www.fbi.radio/programs/jack-off/episodes/e1".toList,
    audio_url := none, date := some (mkDT 2025 10 28 6 0 0 (some 0)),
    description := [] }

def envC7x : Env :=
  { program_slug := "zzz-not-in-tables".toList, net := fun _ => .timeout,
    json_of := fun _ => some (.obj [("uuid".toList, Json.num 5)]),
    h1Text := fun _ => none, titleText := fun _ => none, anchors := fun _ => [],
    scripts := fun _ => [], localOffset := 0, nowSec := 0, nowMicro := 0 }

def htmlC7x : Str := "<p>nothing here</p>".toList

/-- Counterexample to C7 as stated: a page from which no CDN URL and no UUID
triad can be assembled (no raw-HTML UUIDs; the blob's only `uuid` value is
the number `5`) makes the resolver *raise* `TypeError` (`'-' in 5`) instead
of returning `None`. -/
theorem c7_counterexample :
    cdnDirectSearch htmlC7x = none ∧
    filteredUuids htmlC7x = [] ∧
    extract_audio_url_from_episode_page envC7x none htmlC7x = .error () :=
  ⟨by decide, by decide, by decide⟩

/-- Witness for C7: a page with no CDN URL, no UUIDs and no JSON blob yields
`.ok (none, _)`, and a one-episode feed (audio-less episode) still emits that
episode, without an enclosure. -/
theorem c7_witness :
    (∃ cacheOut, extract_audio_url_from_episode_page envC7 none htmlC7 =
      .ok (none, cacheOut)) ∧
    (∃ items, generate_feed envC7 [epC7] = .ok ⟨items⟩ ∧
      items.Perm ([epC7].map toItemT) ∧
      ∀ ep ∈ [epC7], (toItemT ep).guid = ep.url ∧
        (toItemT ep).enc = ep.audio_url.map (fun u => (u, "audio/mpeg".toList))) :=
  ⟨(c7_no_audio_not_dropped envC7 none htmlC7 [epC7]).1 (by decide) (by decide) rfl,
   (c7_no_audio_not_dropped envC7 none htmlC7 [epC7]).2
     (by intro ep hm d hd
         simp at hm
         subst hm
         cases hd
         rfl)
     (by intro ep hm u hu
         simp at hm
         subst hm
         cases hu)⟩

end FbiToRss

namespace FbiToRss

/-! ## Claim C3 -/

theorem startsWithL_append_self : ∀ (p rest : Str), startsWithL p (p ++ rest) = true := by
  intro p
  induction p with
  | nil => intro rest; rfl
  | cons c cs ih => intro rest; simp [startsWithL, ih rest]

theorem matchLitCI_refl : ∀ (lit rest : Str), matchLitCI lit (lit ++ rest) = some (lit, rest) := by
  intro lit
  induction lit with
  | nil => intro rest; rfl
  | cons p ps ih =>
    intro rest
    show matchLitCI (p :: ps) (p :: (ps ++ rest)) = _
    simp [matchLitCI, ih rest]

theorem takeClassRun_exact (cls : Char → Bool) :
    ∀ (xs ys : Str), xs.all cls = true → (∀ c ∈ ys.head?, cls c = false) →
      takeClassRun cls (xs ++ ys) = (xs, ys) := by
  intro xs
  induction xs with
  | nil =>
    intro ys _ hy
    cases ys with
    | nil => rfl
    | cons c cs =>
      have := hy c rfl
      simp [takeClassRun, this]
  | cons x xs ih =>
    intro ys hx hy
    simp only [List.all_cons, Bool.and_eq_true] at hx
    simp [takeClassRun, hx.1, ih ys hx.2 hy]

theorem matchSeg_exact (xs ys : Str) (hne : xs ≠ []) (hx : xs.all isHexDashChar = true)
    (hy : ∀ c ∈ ys.head?, isHexDashChar c = false) :
    matchSeg (xs ++ ys) = some (xs, ys) := by
  unfold matchSeg
  rw [takeClassRun_exact isHexDashChar xs ys hx hy]
  simp [List.isEmpty_eq_false.mpr hne]

/-- The verbatim lowercase three-segment CDN URL (followed by anything)
matches the first direct pattern at its own head, exactly. -/
theorem matchCdnP1At_exact (s1 s2 s3 b : Str)
    (h1 : s1 ≠ [] ∧ s1.all isHexDashChar = true)
    (h2 : s2 ≠ [] ∧ s2.all isHexDashChar = true)
    (h3 : s3 ≠ [] ∧ s3.all isHexDashChar = true) :
    matchCdnP1At cdnLitFull
        ((cdnLitFull ++ s1 ++ "/".toList ++ s2 ++ "/".toList ++ s3 ++
          "/audio.mp3".toList) ++ b) =
      some (cdnLitFull ++ s1 ++ "/".toList ++ s2 ++ "/".toList ++ s3 ++
        "/audio.mp3".toList) := by
  have hslash : isHexDashChar '/' = false := by decide
  unfold matchCdnP1At
  rw [show (cdnLitFull ++ s1 ++ "/".toList ++ s2 ++ "/".toList ++ s3 ++
        "/audio.mp3".toList) ++ b =
      cdnLitFull ++ (s1 ++ ('/' :: (s2 ++ ('/' :: (s3 ++ ("/audio.mp3".toList ++ b))))))
    by simp]
  rw [matchLitCI_refl cdnLitFull _]
  show (do
    let (s1', r1) ← matchSeg (s1 ++ ('/' :: (s2 ++ ('/' :: (s3 ++ ("/audio.mp3".toList ++ b))))))
    let (d1, r2) ← matchLitCI "/".toList r1
    let (s2', r3) ← matchSeg r2
    let (d2, r4) ← matchLitCI "/".toList r3
    let (s3', r5) ← matchSeg r4
    let (tl, _) ← matchLitCI "/audio.mp3".toList r5
    some (cdnLitFull ++ (s1' ++ (d1 ++ (s2' ++ (d2 ++ (s3' ++ tl))))))) = _
  rw [matchSeg_exact s1 _ h1.1 h1.2 (by intro c hc; cases hc; exact hslash)]
  show (do
    let (d1, r2) ← matchLitCI "/".toList ('/' :: (s2 ++ ('/' :: (s3 ++ ("/audio.mp3".toList ++ b)))))
    let (s2', r3) ← matchSeg r2
    let (d2, r4) ← matchLitCI "/".toList r3
    let (s3', r5) ← matchSeg r4
    let (tl, _) ← matchLitCI "/audio.mp3".toList r5
    some (cdnLitFull ++ (s1 ++ (d1 ++ (s2' ++ (d2 ++ (s3' ++ tl))))))) = _
  rw [show ('/' :: (s2 ++ ('/' :: (s3 ++ ("/audio.mp3".toList ++ b))))) =
      "/".toList ++ (s2 ++ ('/' :: (s3 ++ ("/audio.mp3".toList ++ b)))) from rfl]
  rw [matchLitCI_refl "/".toList _]
  show (do
    let (s2', r3) ← matchSeg (s2 ++ ('/' :: (s3 ++ ("/audio.mp3".toList ++ b))))
    let (d2, r4) ← matchLitCI "/".toList r3
    let (s3', r5) ← matchSeg r4
    let (tl, _) ← matchLitCI "/audio.mp3".toList r5
    some (cdnLitFull ++ (s1 ++ ("/".toList ++ (s2' ++ (d2 ++ (s3' ++ tl))))))) = _
  rw [matchSeg_exact s2 _ h2.1 h2.2 (by intro c hc; cases hc; exact hslash)]
  show (do
    let (d2, r4) ← matchLitCI "/".toList ('/' :: (s3 ++ ("/audio.mp3".toList ++ b)))
    let (s3', r5) ← matchSeg r4
    let (tl, _) ← matchLitCI "/audio.mp3".toList r5
    some (cdnLitFull ++ (s1 ++ ("/".toList ++ (s2 ++ (d2 ++ (s3' ++ tl))))))) = _
  rw [show ('/' :: (s3 ++ ("/audio.mp3".toList ++ b))) =
      "/".toList ++ (s3 ++ ("/audio.mp3".toList ++ b)) from rfl]
  rw [matchLitCI_refl "/".toList _]
  show (do
    let (s3', r5) ← matchSeg (s3 ++ ("/audio.mp3".toList ++ b))
    let (tl, _) ← matchLitCI "/audio.mp3".toList r5
    some (cdnLitFull ++ (s1 ++ ("/".toList ++ (s2 ++ ("/".toList ++ (s3' ++ tl))))))) = _
  rw [matchSeg_exact s3 _ h3.1 h3.2 (by intro c hc; cases hc; decide)]
  show (do
    let (tl, _) ← matchLitCI "/audio.mp3".toList ("/audio.mp3".toList ++ b)
    some (cdnLitFull ++ (s1 ++ ("/".toList ++ (s2 ++ ("/".toList ++ (s3 ++ tl))))))) = _
  rw [matchLitCI_refl "/audio.mp3".toList b]
  simp

theorem matchCdnP1At_none_of_head (c : Char) (cs : Str) (hc : ¬(c.toLower = 'h')) :
    matchCdnP1At cdnLitFull (c :: cs) = none := by
  have hlit : cdnLitFull = 'h' :: "ttps://traffic.omny.fm/d/clips/".toList := rfl
  have hnone : matchLitCI cdnLitFull (c :: cs) = none := by
    rw [hlit]
    unfold matchLitCI
    rw [if_neg]
    intro he
    apply hc
    have : Char.toLower 'h' = 'h' := by decide
    rw [← he, this]
  unfold matchCdnP1At
  rw [hnone]
  rfl

theorem searchCdnSeg_skip (a : Str) (ha : ∀ c ∈ a, ¬(c.toLower = 'h')) :
    ∀ rest : Str, searchCdnSeg cdnLitFull (a ++ rest) = searchCdnSeg cdnLitFull rest := by
  induction a with
  | nil => intro rest; rfl
  | cons c a' ih =>
    intro rest
    show (match matchCdnP1At cdnLitFull (c :: (a' ++ rest)) with
      | some m => some m
      | none => searchCdnSeg cdnLitFull (a' ++ rest)) = searchCdnSeg cdnLitFull rest
    rw [matchCdnP1At_none_of_head c _ (ha c (List.mem_cons_self c a'))]
    exact ih (fun x hx => ha x (List.mem_cons_of_mem c hx)) rest

theorem searchCdnSeg_of_matchAt (s m : Str)
    (h : matchCdnP1At cdnLitFull s = some m) :
    searchCdnSeg cdnLitFull s = some m := by
  cases s with
  | nil =>
    have hn : matchCdnP1At cdnLitFull [] = none := rfl
    rw [hn] at h
    exact Option.noConfusion h
  | cons c cs =>
    unfold searchCdnSeg
    rw [h]

/-- Claim C3 (amended): for a page containing the *lowercase-scheme*
fully-formed CDN audio URL verbatim, with no `h`/`H` before it (so the
leftmost case-insensitive match is the URL itself), the extractor returns
that exact URL unmodified, short-circuiting all heuristic tiers.  The
restriction to the lowercase scheme is essential: the search regexes run under
`re.I` while the subsequent `url.startswith('http')` check is case-sensitive,
so a scheme spelled `HTTPS://` is matched but comes back with an extra
`https://` prefix glued on — see the counterexample. -/
theorem c3_direct_cdn_exact (env : Env) (cache : Option Str) (a b s1 s2 s3 url : Str)
    (h1 : s1 ≠ [] ∧ s1.all isHexDashChar = true)
    (h2 : s2 ≠ [] ∧ s2.all isHexDashChar = true)
    (h3 : s3 ≠ [] ∧ s3.all isHexDashChar = true)
    (ha : ∀ c ∈ a, ¬(c.toLower = 'h'))
    (hurl : url = cdnLitFull ++ s1 ++ "/".toList ++ s2 ++ "/".toList ++ s3 ++
      "/audio.mp3".toList) :
    cdnDirectSearch (a ++ url ++ b) = some url ∧
    extract_audio_url_from_episode_page env cache (a ++ url ++ b) =
      .ok (some url, cache) := by
  have hsearch : searchCdnSeg cdnLitFull (a ++ url ++ b) = some url := by
    rw [List.append_assoc, searchCdnSeg_skip a ha (url ++ b)]
    exact searchCdnSeg_of_matchAt (url ++ b) url
      (by rw [hurl]; exact matchCdnP1At_exact s1 s2 s3 b h1 h2 h3)
  have hdir : cdnDirectSearch (a ++ url ++ b) = some url := by
    unfold cdnDirectSearch
    rw [hsearch]
    have hsw : startsWithL "http".toList url = true := by
      rw [hurl,
        show cdnLitFull ++ s1 ++ "/".toList ++ s2 ++ "/".toList ++ s3 ++ "/audio.mp3".toList =
          "http".toList ++ ("s://traffic.omny.fm/d/clips/".toList ++ s1 ++ "/".toList ++
            s2 ++ "/".toList ++ s3 ++ "/audio.mp3".toList) by simp [cdnLitFull]]
      exact startsWithL_append_self "http".toList _
    show some (if startsWithL "http".toList url then url
        else "https://".toList ++ url) = some url
    rw [hsw]
    simp
  refine ⟨hdir, ?_⟩
  simp only [extract_audio_url_from_episode_page]
  rw [hdir]

def envC3 : Env :=
  { program_slug := "jack-off".toList, net := fun _ => .timeout,
    json_of := fun _ => none, h1Text := fun _ => none, titleText := fun _ => none,
    anchors := fun _ => [], scripts := fun _ => [], localOffset := 0,
    nowSec := 0, nowMicro := 0 }

def htmlC3 : Str := "HTTPS://traffic.omny.fm/d/clips/aa/bb/cc/audio.mp3".toList

/-- Counterexample to C3 as stated: a page holding the fully-formed CDN URL
with an uppercase scheme (schemes are case-insensitive, and the extraction
regex runs with `re.I`, so this *is* matched) gets the URL back *modified*:
`url.startswith('http')` is case-sensitive, so `'https://'` is prepended to
the already-schemed match. -/
theorem c3_counterexample :
    ([] : Str) ++ "HTTPS://traffic.omny.fm/d/clips/aa/bb/cc/audio.mp3".toList ++ [] = htmlC3 ∧
    extract_audio_url_from_episode_page envC3 none htmlC3 =
      .ok (some "https://HTTPS://traffic.omny.fm/d/clips/aa/bb/cc/audio.mp3".toList, none) ∧
    ¬ extract_audio_url_from_episode_page envC3 none htmlC3 =
      .ok (some "HTTPS://traffic.omny.fm/d/clips/aa/bb/cc/audio.mp3".toList, none) := by
  refine ⟨by simp [htmlC3], by decide, by decide⟩

def htmlC3w : Str :=
  "<x>https://traffic.omny.fm/d/clips/aa-1/bb-2/cc-3/audio.mp3</x>".toList

/-- Witness for the amended C3 on a concrete page. -/
theorem c3_witness :
    cdnDirectSearch htmlC3w =
      some "https://traffic.omny.fm/d/clips/aa-1/bb-2/cc-3/audio.mp3".toList ∧
    extract_audio_url_from_episode_page envC3 (some "s".toList) htmlC3w =
      .ok (some "https://traffic.omny.fm/d/clips/aa-1/bb-2/cc-3/audio.mp3".toList,
        some "s".toList) := by
  have h := c3_direct_cdn_exact envC3 (some "s".toList) "<x>".toList "</x>".toList
    "aa-1".toList "bb-2".toList "cc-3".toList
    "https://traffic.omny.fm/d/clips/aa-1/bb-2/cc-3/audio.mp3".toList
    (by decide) (by decide) (by decide) (by decide) (by decide)
  exact h

end FbiToRss

namespace FbiToRss

/-! ## Claim C5 -/

mutual

theorem outerShaped_shaped : ∀ (j : Json) (kvs : List (Str × Json)),
    kvs ∈ outerShaped j → isEpisodeShaped kvs = true
  | .obj ks, kvs, h => by
    by_cases hs : isEpisodeShaped ks = true
    · simp only [outerShaped, hs, if_true] at h
      simp at h
      subst h
      exact hs
    · simp only [outerShaped, hs, if_false] at h
      exact outerShapedKVs_shaped ks kvs h
  | .arr xs, kvs, h => by
    simp only [outerShaped] at h
    exact outerShapedList_shaped xs kvs h
  | .null, kvs, h => by simp [outerShaped] at h
  | .bool _, kvs, h => by simp [outerShaped] at h
  | .num _, kvs, h => by simp [outerShaped] at h
  | .str _, kvs, h => by simp [outerShaped] at h

theorem outerShapedKVs_shaped : ∀ (l : List (Str × Json)) (kvs : List (Str × Json)),
    kvs ∈ outerShapedKVs l → isEpisodeShaped kvs = true
  | [], kvs, h => by simp [outerShapedKVs] at h
  | (k, v) :: t, kvs, h => by
    simp only [outerShapedKVs, List.mem_append] at h
    rcases h with h | h
    · exact outerShaped_shaped v kvs h
    · exact outerShapedKVs_shaped t kvs h

theorem outerShapedList_shaped : ∀ (l : List Json) (kvs : List (Str × Json)),
    kvs ∈ outerShapedList l → isEpisodeShaped kvs = true
  | [], kvs, h => by simp [outerShapedList] at h
  | x :: t, kvs, h => by
    simp only [outerShapedList, List.mem_append] at h
    rcases h with h | h
    · exact outerShaped_shaped x kvs h
    · exact outerShapedList_shaped t kvs h

end

mutual

theorem outerShaped_count : ∀ (j : Json),
    (outerShaped j).length ≤ countShaped j ∧
      (outerShaped j = [] → countShaped j = 0)
  | .obj ks => by
    by_cases hs : isEpisodeShaped ks = true
    · simp only [outerShaped, countShaped, hs, if_true]
      constructor
      · simp [Nat.le_add_right]
      · intro h; simp at h
    · have ih := outerShapedKVs_count ks
      simp only [outerShaped, countShaped, hs, if_false]
      constructor
      · simpa using ih.1
      · intro h
        simp [ih.2 h]
  | .arr xs => by
    have ih := outerShapedList_count xs
    simpa only [outerShaped, countShaped] using ih
  | .null => by simp [outerShaped, countShaped]
  | .bool _ => by simp [outerShaped, countShaped]
  | .num _ => by simp [outerShaped, countShaped]
  | .str _ => by simp [outerShaped, countShaped]

theorem outerShapedKVs_count : ∀ (l : List (Str × Json)),
    (outerShapedKVs l).length ≤ countShapedKVs l ∧
      (outerShapedKVs l = [] → countShapedKVs l = 0)
  | [] => by simp [outerShapedKVs, countShapedKVs]
  | (k, v) :: t => by
    have ihv := outerShaped_count v
    have iht := outerShapedKVs_count t
    simp only [outerShapedKVs, countShapedKVs, List.length_append, List.append_eq_nil]
    constructor
    · exact Nat.add_le_add ihv.1 iht.1
    · intro h
      rw [ihv.2 h.1, iht.2 h.2]

theorem outerShapedList_count : ∀ (l : List Json),
    (outerShapedList l).length ≤ countShapedList l ∧
      (outerShapedList l = [] → countShapedList l = 0)
  | [] => by simp [outerShapedList, countShapedList]
  | x :: t => by
    have ihx := outerShaped_count x
    have iht := outerShapedList_count t
    simp only [outerShapedList, countShapedList, List.length_append, List.append_eq_nil]
    constructor
    · exact Nat.add_le_add ihx.1 iht.1
    · intro h
      rw [ihx.2 h.1, iht.2 h.2]

end

end FbiToRss

namespace FbiToRss

/-- Claim C5 (amended): on a tree in which every *outermost* episode-shaped
object (one carrying `airedAt`, `slug` and `title` all three) has a
well-shaped `description` field, `extract_episodes_from_json` yields exactly
one record per outermost shaped object, in pre-order, regardless of its
container key; each record's url is the base URL joined with the program slug,
the `/episodes/` path segment and the discovered slug, or the program URL
itself when the slug is absent or falsy; and a tree containing exactly one
shaped object in total yields exactly one record.  Two amendments to the
original: shaped objects *nested inside* another shaped object are skipped
(the recursion returns at a match — see the counterexample), and a shaped
object whose `description` (or `description.root`) is present but not a dict
makes the function raise `AttributeError` instead of yielding records. -/
theorem c5_episode_extraction (slugP : Str) (j : Json)
    (h : allOuterDescOk j = true) :
    extract_episodes_from_json slugP j =
      .ok ((outerShaped j).map (mkEpisodeT slugP)) ∧
    (∀ kvs ∈ outerShaped j, isEpisodeShaped kvs = true ∧
      (mkEpisodeT slugP kvs).title = getKeyD "title".toList (.str "Untitled".toList) kvs ∧
      (mkEpisodeT slugP kvs).airedAt = getKeyD "airedAt".toList (.str []) kvs ∧
      (mkEpisodeT slugP kvs).url =
        (if truthy (getKeyD "slug".toList (.str []) kvs) then
          baseUrl ++ ("/programs/".toList ++ slugP ++ ("/episodes/".toList ++
            pyStr (getKeyD "slug".toList (.str []) kvs)))
        else programUrl slugP)) ∧
    (countShaped j = 1 →
      ∃ e, extract_episodes_from_json slugP j = .ok [e]) := by
  have heq : extract_episodes_from_json slugP j =
      .ok ((outerShaped j).map (mkEpisodeT slugP)) :=
    findEpisodes_eq slugP j h
  refine ⟨heq, ?_, ?_⟩
  · intro kvs hmem
    refine ⟨outerShaped_shaped j kvs hmem, rfl, rfl, rfl⟩
  · intro hcount
    have hc := outerShaped_count j
    have hne : outerShaped j ≠ [] := by
      intro hnil
      rw [hc.2 hnil] at hcount
      exact Nat.noConfusion hcount
    have hle : (outerShaped j).length ≤ 1 := hcount ▸ hc.1
    cases ho : outerShaped j with
    | nil => exact absurd ho hne
    | cons a t =>
      cases t with
      | nil => exact ⟨mkEpisodeT slugP a, by rw [heq, ho]; rfl⟩
      | cons b t' => rw [ho] at hle; simp at hle

def jC5x : Json :=
  .obj [("airedAt".toList, .str "2025-01-01T00:00:00Z".toList),
        ("slug".toList, .str "outer-ep".toList),
        ("title".toList, .str "Outer".toList),
        ("related".toList,
          .obj [("airedAt".toList, .str "2025-01-02T00:00:00Z".toList),
                ("slug".toList, .str "inner-ep".toList),
                ("title".toList, .str "Inner".toList)])]

/-- Counterexample to C5 as stated: this tree holds *two* episode-shaped
objects (one nested inside the other), yet extraction yields only one record
— the walk returns at the outer match without visiting its fields. -/
theorem c5_counterexample :
    countShaped jC5x = 2 ∧
    extract_episodes_from_json "jack-off".toList jC5x =
      .ok [mkEpisodeT "jack-off".toList
        [("airedAt".toList, .str "2025-01-01T00:00:00Z".toList),
         ("slug".toList, .str "outer-ep".toList),
         ("title".toList, .str "Outer".toList),
         ("related".toList,
           .obj [("airedAt".toList, .str "2025-01-02T00:00:00Z".toList),
                 ("slug".toList, .str "inner-ep".toList),
                 ("title".toList, .str "Inner".toList)])]] := by
  refine ⟨by decide, by rfl⟩

def jC5w : Json :=
  .obj [("docs".toList,
    .arr [.obj [("airedAt".toList, .str "2025-10-28T06:00:00Z".toList),
                ("slug".toList, .str "ep-one".toList),
                ("title".toList, .str "Episode One".toList)]])]

/-- Witness for the amended C5 on a concrete one-episode tree. -/
theorem c5_witness :
    extract_episodes_from_json "jack-off".toList jC5w =
      .ok ((outerShaped jC5w).map (mkEpisodeT "jack-off".toList)) ∧
    (∀ kvs ∈ outerShaped jC5w, isEpisodeShaped kvs = true ∧
      (mkEpisodeT "jack-off".toList kvs).title =
        getKeyD "title".toList (.str "Untitled".toList) kvs ∧
      (mkEpisodeT "jack-off".toList kvs).airedAt =
        getKeyD "airedAt".toList (.str []) kvs ∧
      (mkEpisodeT "jack-off".toList kvs).url =
        (if truthy (getKeyD "slug".toList (.str []) kvs) then
          baseUrl ++ ("/programs/".toList ++ "jack-off".toList ++ ("/episodes/".toList ++
            pyStr (getKeyD "slug".toList (.str []) kvs)))
        else programUrl "jack-off".toList)) ∧
    (countShaped jC5w = 1 →
      ∃ e, extract_episodes_from_json "jack-off".toList jC5w = .ok [e]) :=
  c5_episode_extraction "jack-off".toList jC5w (by decide)

end FbiToRss

namespace FbiToRss

/-! ## Claim C10 -/

theorem schemeSplit_https (X : Str) :
    schemeSplit ("https://".toList ++ X) =
      some ("https".toList, '/' :: '/' :: X) := by
  rw [show ("https://".toList ++ X) = 'h' :: ("ttps".toList ++ (':' :: '/' :: '/' :: X))
    from rfl]
  simp only [schemeSplit]
  rw [if_pos (by decide)]
  rw [takeClassRun_exact _ "ttps".toList (':' :: '/' :: '/' :: X) (by decide)
    (by intro c hc; cases hc; decide)]
  rfl

theorem hostBase_append_scheme (Z : Str) :
    (schemeSplit (hostBase ++ Z)).isSome = true := by
  rw [show hostBase = "https://".toList ++ "www.fbi.radio".toList from rfl,
    List.append_assoc, schemeSplit_https]
  rfl

theorem urljoinFbi_abs (href : Str) : (schemeSplit (urljoinFbi href)).isSome = true := by
  unfold urljoinFbi
  by_cases h0 : href.isEmpty = true
  · rw [if_pos h0]
    decide
  · rw [if_neg h0]
    cases hsc : schemeSplit href with
    | some pr =>
      obtain ⟨sc, r⟩ := pr
      simp only [hsc]
      by_cases hl : lowerStr sc = "https".toList
      · rw [if_neg (by simp [hl])]
        by_cases h2 : startsWithL "//".toList r = true
        · rw [if_pos h2, schemeSplit_https]
          rfl
        · rw [if_neg h2]
          by_cases h3 : (splitOnce '?' (splitOnce '#' r).1).1.isEmpty = true
          · rw [if_pos h3]
            exact hostBase_append_scheme _
          · rw [if_neg h3]
            exact hostBase_append_scheme _
      · rw [if_pos (by simpa using hl)]
        rw [hsc]
        rfl
    | none =>
      simp only [hsc]
      rw [if_neg (by simp)]
      by_cases h2 : startsWithL "//".toList href = true
      · rw [if_pos h2, schemeSplit_https]
        rfl
      · rw [if_neg h2]
        by_cases h3 : (splitOnce '?' (splitOnce '#' href).1).1.isEmpty = true
        · rw [if_pos h3]
          exact hostBase_append_scheme _
        · rw [if_neg h3]
          exact hostBase_append_scheme _

theorem foldl_dedup_eq (P : Str → Bool) (g : Str → Str) :
    ∀ (l acc : List Str),
      l.foldl (fun acc href => if P href then
          (if acc.contains (g href) then acc else acc ++ [g href]) else acc) acc =
      acc ++ dedupKeepFirst.go acc ((l.filter P).map g) := by
  intro l
  induction l with
  | nil => intro acc; simp [dedupKeepFirst.go]
  | cons href t ih =>
    intro acc
    by_cases hp : P href = true
    · by_cases hm : g href ∈ acc
      · have hcont : acc.contains (g href) = true := by
          show acc.elem (g href) = true
          simp [List.elem_eq_mem, hm]
        simp only [List.foldl_cons, List.filter_cons, hp, if_true, hcont, List.map_cons]
        rw [ih acc]
        simp [dedupKeepFirst.go, hm]
      · have hcont : acc.contains (g href) = false := by
          show acc.elem (g href) = false
          simp [List.elem_eq_mem, hm]
        simp only [List.foldl_cons, List.filter_cons, hp, if_true, hcont, List.map_cons]
        rw [if_neg (fun hf : (false = true) => Bool.noConfusion hf)]
        rw [ih (acc ++ [g href])]
        simp [dedupKeepFirst.go, hm]
    · simp only [List.foldl_cons, List.filter_cons, hp, if_false]
      exact ih acc

theorem links_fold_eq (env : Env) (html : Str) :
    extract_episode_links_from_html env html =
      dedupKeepFirst (((env.anchors html).filter (fun href =>
        occursIn "/episodes/".toList href && occursIn env.program_slug href)).map
          urljoinFbi) := by
  have h := foldl_dedup_eq (fun href =>
      occursIn "/episodes/".toList href && occursIn env.program_slug href)
    urljoinFbi (env.anchors html) []
  simpa [extract_episode_links_from_html, dedupKeepFirst] using h

/-- Claim C10 (amended): the extracted link list is duplicate-free; it is a
sublist of the joined URLs of the qualifying anchors in document order (first
occurrences kept), every member is an absolute URL (it carries a scheme), and
every member is `urljoin(BASE_URL, href)` of some anchor href that contains
`/episodes/` and the program slug.  The containment test runs on the *raw*
href, not on the joined URL: `urljoin`'s dot-segment resolution can remove
the `/episodes/` segment or the slug from the returned URL — see the
counterexample. -/
theorem c10_links_invariant (env : Env) (html : Str) :
    (extract_episode_links_from_html env html).Nodup ∧
    List.Sublist (extract_episode_links_from_html env html)
      (((env.anchors html).filter (fun href =>
        occursIn "/episodes/".toList href && occursIn env.program_slug href)).map
          urljoinFbi) ∧
    ∀ u ∈ extract_episode_links_from_html env html,
      (schemeSplit u).isSome = true ∧
      ∃ href ∈ env.anchors html,
        occursIn "/episodes/".toList href = true ∧
        occursIn env.program_slug href = true ∧
        u = urljoinFbi href := by
  rw [links_fold_eq env html]
  refine ⟨dedupKeepFirst_nodup _, dedupKeepFirst_sublist _, ?_⟩
  intro u hu
  have hmem := (dedupKeepFirst_sublist _).mem hu
  rw [List.mem_map] at hmem
  obtain ⟨href, hhref, rfl⟩ := hmem
  rw [List.mem_filter] at hhref
  have hb := hhref.2
  rw [Bool.and_eq_true] at hb
  exact ⟨urljoinFbi_abs href, href, hhref.1, hb.1, hb.2, rfl⟩

def envC10 : Env :=
  { program_slug := "jack-off".toList, net := fun _ => .timeout,
    json_of := fun _ => none, h1Text := fun _ => none, titleText := fun _ => none,
    anchors := fun _ => ["/episodes/../jack-off".toList, "/episodes/jack-off/..".toList],
    scripts := fun _ => [], localOffset := 0, nowSec := 0, nowMicro := 0 }

/-- Counterexample to C10 as stated: two anchors that pass the raw-href test
come back with urljoin's dot segments resolved — the first returned URL has
lost its `/episodes/` segment, the second has lost the program slug. -/
theorem c10_counterexample :
    extract_episode_links_from_html envC10 "<page>".toList =
      ["https://www.fbi.radio/jack-off".toList,
       "https://www.fbi.radio/episodes/".toList] ∧
    occursIn "/episodes/".toList "https://www.fbi.radio/jack-off".toList = false ∧
    occursIn "jack-off".toList "https://www.fbi.radio/episodes/".toList = false := by
  refine ⟨by decide, by decide, by decide⟩

end FbiToRss

namespace FbiToRss

/-- Witness for C10 at a concrete page with two qualifying anchors. -/
theorem c10_witness :
    ((extract_episode_links_from_html envC10 "<page>".toList).Nodup ∧
     List.Sublist (extract_episode_links_from_html envC10 "<page>".toList)
       (((envC10.anchors "<page>".toList).filter (fun href =>
         occursIn "/episodes/".toList href && occursIn envC10.program_slug href)).map
           urljoinFbi) ∧
     ∀ u ∈ extract_episode_links_from_html envC10 "<page>".toList,
       (schemeSplit u).isSome = true ∧
       ∃ href ∈ envC10.anchors "<page>".toList,
         occursIn "/episodes/".toList href = true ∧
         occursIn envC10.program_slug href = true ∧
         u = urljoinFbi href) ∧
    "https://www.fbi.radio/jack-off".toList ∈
      extract_episode_links_from_html envC10 "<page>".toList :=
  ⟨c10_links_invariant envC10 "<page>".toList, by decide⟩

end FbiToRss

namespace FbiToRss

/-! ## Claim C4 -/

theorem parse_date_str_aware (s : Str) (d : PyDatetime)
    (h : parse_date_str s = some d) : d.tz.isSome = true := by
  unfold parse_date_str at h
  cases h1 : isoParse (replaceZ s) with
  | some dt => rw [h1] at h; injection h with h; rw [← h]; rfl
  | none =>
    rw [h1] at h
    cases h2 : strpDT1 s with
    | some dt => rw [h2] at h; injection h with h; rw [← h]; rfl
    | none =>
      rw [h2] at h
      cases h3 : strpDT2 s with
      | some dt => rw [h3] at h; injection h with h; rw [← h]; rfl
      | none =>
        rw [h3] at h
        cases h4 : strpDT3 s with
        | some dt => rw [h4] at h; injection h with h; rw [← h]; rfl
        | none => rw [h4] at h; exact Option.noConfusion h

theorem parse_date_from_url_aware (u : Str) (d : PyDatetime)
    (h : parse_date_from_url u = some d) : d.tz.isSome = true := by
  unfold parse_date_from_url at h
  split at h
  · exact Option.noConfusion h
  split at h
  · exact Option.noConfusion h
  split at h
  · exact Option.noConfusion h
  split at h
  · injection h with h; rw [← h]; rfl
  · exact Option.noConfusion h

theorem getD_url_aware (env : Env) (ep : RawEpisode) :
    (((match (none : Option PyDatetime) with
      | some dd => some dd
      | none => parse_date_from_url ep.url).getD (envNow env)).tz).isSome = true := by
  cases hu : parse_date_from_url ep.url with
  | some dd => simpa [hu] using parse_date_from_url_aware ep.url dd hu
  | none => simp [hu, envNow]

theorem resolveDate_aware (env : Env) (ep : RawEpisode) (d : PyDatetime)
    (h : resolveEpisodeDate env ep = .ok d) : d.tz.isSome = true := by
  unfold resolveEpisodeDate at h
  by_cases ht : truthy ep.airedAt = true
  · rw [if_pos ht] at h
    cases hp : parse_date ep.airedAt with
    | error u => rw [hp] at h; exact Except.noConfusion h
    | ok d1 =>
      rw [hp] at h
      have hd : d = (match d1 with
          | some dd => some dd
          | none => parse_date_from_url ep.url).getD (envNow env) :=
        (Except.ok.inj h).symm
      cases d1 with
      | some dd =>
        subst hd
        unfold parse_date at hp
        rw [if_neg (by simp [ht])] at hp
        cases hair : ep.airedAt with
        | str s =>
          rw [hair] at hp
          exact parse_date_str_aware s _ (by simpa using Except.ok.inj hp)
        | null => rw [hair] at hp; exact Except.noConfusion hp
        | bool b => rw [hair] at hp; exact Except.noConfusion hp
        | num n => rw [hair] at hp; exact Except.noConfusion hp
        | arr xs => rw [hair] at hp; exact Except.noConfusion hp
        | obj kvs => rw [hair] at hp; exact Except.noConfusion hp
      | none =>
        subst hd
        exact getD_url_aware env ep
  · rw [if_neg ht] at h
    have hd : d = (match (none : Option PyDatetime) with
        | some dd => some dd
        | none => parse_date_from_url ep.url).getD (envNow env) :=
      (Except.ok.inj h).symm
    subst hd
    exact getD_url_aware env ep

theorem resolveEpisodeDate_str (env : Env) (ep : RawEpisode) (s : Str)
    (hs : ep.airedAt = .str s) :
    resolveEpisodeDate env ep = .ok
      (match (if s.isEmpty then none else parse_date_str s) with
        | some d => d
        | none => (parse_date_from_url ep.url).getD (envNow env)) := by
  unfold resolveEpisodeDate
  rw [hs]
  by_cases h0 : s.isEmpty = true
  · have ht : truthy (Json.str s) = false := by simp [truthy, h0]
    simp only [ht]
    rw [if_pos h0]
    rfl
  · have h0' : s.isEmpty = false := by
      cases hv : s.isEmpty
      · rfl
      · exact absurd hv h0
    have ht : truthy (Json.str s) = true := by simp [truthy, h0']
    simp only [ht]
    rw [if_neg h0]
    rw [show parse_date (Json.str s) = .ok (parse_date_str s) from by
      unfold parse_date
      rw [if_neg (by simp [ht])]]
    cases hp : parse_date_str s with
    | some d => rfl
    | none => rfl

/-- Claim C4 (amended): per episode, the publish date is resolved in the fixed
order `airedAt` (when truthy, parsed as ISO-8601, tolerant of a trailing `Z`,
an explicit offset, or missing sub-second precision), else the
day-ordinal + month-name + year pattern in the episode URL, else the current
time as a placeholder; every episode `processEpisode` emits carries that
resolved date, which is non-null and timezone-*aware*.  It is however *not*
always normalized to UTC: `datetime.fromisoformat` keeps an explicit offset
as-is — see the counterexample. -/
theorem c4_date_resolution (env : Env) (ep : RawEpisode) :
    (∀ s, ep.airedAt = .str s →
      resolveEpisodeDate env ep = .ok
        (match (if s.isEmpty then none else parse_date_str s) with
          | some d => d
          | none => (parse_date_from_url ep.url).getD (envNow env))) ∧
    (∀ e cache cache', processEpisode env cache ep = .ok (e, cache') →
      ∃ d, resolveEpisodeDate env ep = .ok d ∧ e.date = some d ∧
        d.tz.isSome = true) ∧
    parse_date_str "2025-10-28T06:00:00Z".toList =
      some { wallSec := 1761631200, micro := 0, tz := some 0 } ∧
    parse_date_str "2025-10-28T06:00:00.123Z".toList =
      some { wallSec := 1761631200, micro := 123000, tz := some 0 } ∧
    parse_date_from_url
        "/programs/wildcard/episodes/wildcard-with-stuart-coupe-28th-october-2025".toList =
      some (mkDT 2025 10 28 0 0 0 (some 0)) ∧
    (envNow env).tz = some 0 := by
  refine ⟨?_, ?_, by decide, by decide, by decide, rfl⟩
  · intro s hs
    exact resolveEpisodeDate_str env ep s hs
  · intro e cache cache' h
    unfold processEpisode at h
    cases hd : resolveEpisodeDate env ep with
    | error u => rw [hd] at h; exact Except.noConfusion h
    | ok date =>
      rw [hd] at h
      cases hds : parse_description ep.description with
      | error u => rw [hds] at h; exact Except.noConfusion h
      | ok desc =>
        rw [hds] at h
        cases ha : audioStep env cache ep.url with
        | error u => rw [ha] at h; exact Except.noConfusion h
        | ok pr =>
          rw [ha] at h
          refine ⟨date, rfl, ?_, resolveDate_aware env ep date hd⟩
          have h2 := Except.ok.inj h
          rw [← ((Prod.mk.injEq _ _ _ _).mp h2).1]

end FbiToRss

namespace FbiToRss

def envC4 : Env :=
  { program_slug := "jack-off".toList, net := fun _ => .timeout,
    json_of := fun _ => none, h1Text := fun _ => none, titleText := fun _ => none,
    anchors := fun _ => [], scripts := fun _ => [], localOffset := 0,
    nowSec := 0, nowMicro := 0 }

def epC4raw : RawEpisode :=
  { idField := .str [], title := .str "T".toList, slug := .str [],
    airedAt := .str "2025-10-28T06:00:00+10:00".toList,
    description := .str [], omnyStudioClip := .str [], url := "u".toList }

/-- Counterexample to C4 as stated: an `airedAt` carrying an explicit
`+10:00` offset is kept at that offset (`datetime.fromisoformat` does not
convert to UTC), so the episode handed to feed emission is timezone-aware but
*not* normalized to UTC. -/
theorem c4_counterexample :
    processEpisode envC4 none epC4raw =
      .ok ({ title := Json.str "T".toList, url := "u".toList, audio_url := none,
             date := some { wallSec := 1761631200, micro := 0, tz := some 36000 },
             description := [] }, none) ∧
    ¬ (some (36000 : Int) = some (0 : Int)) :=
  ⟨by decide, by decide⟩

def epC4w : RawEpisode :=
  { idField := .str [], title := .str "T".toList, slug := .str [],
    airedAt := .str "2025-10-28T06:00:00.123Z".toList,
    description := .str [], omnyStudioClip := .str [], url := "u".toList }

def epItemC4 : Episode :=
  { title := Json.str "T".toList, url := "u".toList, audio_url := none,
    date := some { wallSec := 1761631200, micro := 123000, tz := some 0 },
    description := [] }

/-- Witness for C4 on a concrete episode whose `airedAt` has a trailing `Z`
and sub-second precision. -/
theorem c4_witness :
    resolveEpisodeDate envC4 epC4w = .ok
      { wallSec := 1761631200, micro := 123000, tz := some 0 } ∧
    (∃ d, resolveEpisodeDate envC4 epC4w = .ok d ∧
      epItemC4.date = some d ∧ d.tz.isSome = true) := by
  have h := c4_date_resolution envC4 epC4w
  refine ⟨?_, h.2.1 epItemC4 none none (by decide)⟩
  have h1 := h.1 "2025-10-28T06:00:00.123Z".toList rfl
  rw [h1]
  decide

end FbiToRss

namespace FbiToRss

/-! ## Claim C9 -/

theorem procHighMatch_some_nongeneric (lbl m : Str) (acc : List (Str × Str))
    (u : Str) (acc2 : List (Str × Str))
    (h : procHighMatch lbl m acc = (some u, acc2)) : is_generic_image u = false := by
  simp only [procHighMatch] at h
  repeat' split at h
  all_goals simp_all

theorem procHighMatch_acc_cases (lbl m : Str) (acc : List (Str × Str)) :
    (procHighMatch lbl m acc).2 = acc ∨
    ∃ w, is_generic_image w = false ∧ (procHighMatch lbl m acc).2 = acc ++ [(w, lbl)] := by
  simp only [procHighMatch]
  repeat' split
  all_goals first
    | exact Or.inl rfl
    | exact Or.inr ⟨_, by simp_all, rfl⟩

theorem procHighMatch_acc_nongeneric (lbl m : Str) (acc : List (Str × Str))
    (hacc : ∀ p ∈ acc, is_generic_image p.1 = false) :
    ∀ p ∈ (procHighMatch lbl m acc).2, is_generic_image p.1 = false := by
  rcases procHighMatch_acc_cases lbl m acc with hc | ⟨w, hw, hc⟩
  · rw [hc]; exact hacc
  · rw [hc]
    intro p hp
    rcases List.mem_append.mp hp with h1 | h1
    · exact hacc p h1
    · simp at h1
      rw [h1]
      exact hw

theorem runHighMatches_nongeneric (lbl : Str) :
    ∀ (ms : List Str) (acc : List (Str × Str)),
      (∀ p ∈ acc, is_generic_image p.1 = false) →
      (∀ u acc2, runHighMatches lbl ms acc = (some u, acc2) →
        is_generic_image u = false) ∧
      (∀ p ∈ (runHighMatches lbl ms acc).2, is_generic_image p.1 = false) := by
  intro ms
  induction ms with
  | nil =>
    intro acc hacc
    refine ⟨?_, ?_⟩
    · intro u acc2 h
      simp [runHighMatches] at h
    · simpa [runHighMatches] using hacc
  | cons m ms ih =>
    intro acc hacc
    have hacc2 := procHighMatch_acc_nongeneric lbl m acc hacc
    cases hpm : procHighMatch lbl m acc with
    | mk o acc2 =>
      rw [hpm] at hacc2
      cases o with
      | some v =>
        refine ⟨?_, ?_⟩
        · intro u acc3 h
          simp only [runHighMatches, hpm] at h
          have := (Prod.mk.injEq _ _ _ _).mp h
          have hv := Option.some.inj this.1
          rw [← hv]
          exact procHighMatch_some_nongeneric lbl m acc v acc2 hpm
        · simp only [runHighMatches, hpm]
          exact hacc2
      | none =>
        have ihr := ih acc2 hacc2
        refine ⟨?_, ?_⟩
        · intro u acc3 h
          simp only [runHighMatches, hpm] at h
          exact ihr.1 u acc3 h
        · simp only [runHighMatches, hpm]
          exact ihr.2
  
theorem runHighPats_nongeneric :
    ∀ (ps : List ((Str → Option Str) × Str)) (html : Str) (acc : List (Str × Str)),
      (∀ p ∈ acc, is_generic_image p.1 = false) →
      (∀ u acc2, runHighPats ps html acc = (some u, acc2) →
        is_generic_image u = false) ∧
      (∀ p ∈ (runHighPats ps html acc).2, is_generic_image p.1 = false) := by
  intro ps
  induction ps with
  | nil =>
    intro html acc hacc
    refine ⟨?_, ?_⟩
    · intro u acc2 h
      simp [runHighPats] at h
    · simpa [runHighPats] using hacc
  | cons pr ps ih =>
    intro html acc hacc
    obtain ⟨pm, lbl⟩ := pr
    have hm := runHighMatches_nongeneric lbl (findallPat pm html) acc hacc
    cases hrm : runHighMatches lbl (findallPat pm html) acc with
    | mk o acc2 =>
      have hacc2 := hm.2
      rw [hrm] at hacc2
      cases o with
      | some v =>
        refine ⟨?_, ?_⟩
        · intro u acc3 h
          simp only [runHighPats, hrm] at h
          have := (Prod.mk.injEq _ _ _ _).mp h
          have hv := Option.some.inj this.1
          rw [← hv]
          exact hm.1 v acc2 hrm
        · simp only [runHighPats, hrm]
          exact hacc2
      | none =>
        have ihr := ih html acc2 hacc2
        refine ⟨?_, ?_⟩
        · intro u acc3 h
          simp only [runHighPats, hrm] at h
          exact ihr.1 u acc3 h
        · simp only [runHighPats, hrm]
          exact ihr.2

theorem procFbMatch_nongeneric (m u : Str) (h : procFbMatch m = some u) :
    is_generic_image u = false := by
  simp only [procFbMatch] at h
  repeat' split at h
  all_goals simp_all

theorem runFbMatches_nongeneric :
    ∀ (ms : List Str) (u : Str), runFbMatches ms = some u →
      is_generic_image u = false := by
  intro ms
  induction ms with
  | nil => intro u h; simp [runFbMatches] at h
  | cons m ms ih =>
    intro u h
    simp only [runFbMatches] at h
    cases hpm : procFbMatch m with
    | some v =>
      rw [hpm] at h
      have hv := Option.some.inj h
      rw [← hv]
      exact procFbMatch_nongeneric m v hpm
    | none =>
      rw [hpm] at h
      exact ih u h

theorem runFbPats_nongeneric :
    ∀ (ps : List (Str → Option Str)) (html : Str) (u : Str),
      runFbPats ps html = some u → is_generic_image u = false := by
  intro ps
  induction ps with
  | nil => intro html u h; simp [runFbPats] at h
  | cons pm ps ih =>
    intro html u h
    simp only [runFbPats] at h
    cases hrm : runFbMatches (findallPat pm html) with
    | some v =>
      rw [hrm] at h
      have hv := Option.some.inj h
      rw [← hv]
      exact runFbMatches_nongeneric (findallPat pm html) v hrm
    | none =>
      rw [hrm] at h
      exact ih html u h

theorem imageRegexPhase_nongeneric (html u : Str)
    (h : imageRegexPhase html = some u) : is_generic_image u = false := by
  unfold imageRegexPhase at h
  have hrp := runHighPats_nongeneric highPriorityPats html [] (by simp)
  split at h
  case _ v snd heq =>
    have hv := Option.some.inj h
    rw [← hv]
    exact hrp.1 v snd heq
  case _ allM heq =>
    have hallM : ∀ p ∈ allM, is_generic_image p.1 = false := by
      have h2 := hrp.2
      rw [heq] at h2
      exact h2
    by_cases he : allM.isEmpty = false
    · rw [if_pos he] at h
      cases hfs : prio3.findSome? (fun p =>
          (allM.find? (fun q => q.2 = p && !(is_generic_image q.1))).map
            (fun q => q.1)) with
      | some v =>
        rw [hfs] at h
        have hv := Option.some.inj h
        obtain ⟨p, hp, hf⟩ := List.exists_of_findSome?_eq_some hfs
        cases hq : allM.find? (fun q => q.2 = p && !(is_generic_image q.1)) with
        | none => rw [hq] at hf; exact Option.noConfusion hf
        | some q =>
          rw [hq] at hf
          have hpred := List.find?_some hq
          rw [Bool.and_eq_true] at hpred
          have : q.1 = v := Option.some.inj hf
          rw [← hv, ← this]
          simpa using hpred.2
      | none =>
        rw [hfs] at h
        cases hq : allM.find? (fun q => !(is_generic_image q.1)) with
        | some q =>
          rw [hq] at h
          have hv := Option.some.inj h
          have hpred := List.find?_some hq
          rw [← hv]
          simpa using hpred
        | none =>
          rw [hq] at h
          cases hh : allM.head? with
          | none => rw [hh] at h; exact Option.noConfusion h
          | some q =>
            rw [hh] at h
            have hv := Option.some.inj h
            have hmem : q ∈ allM := by
              cases allM with
              | nil => exact Option.noConfusion hh
              | cons a t =>
                have : a = q := Option.some.inj hh
                rw [← this]
                exact List.mem_cons_self a t
            rw [← hv]
            exact hallM q hmem
    · rw [if_neg he] at h
      exact runFbPats_nongeneric fallbackPats html u h

end FbiToRss

namespace FbiToRss

def envC9 : Env :=
  { program_slug := "zzz-not-in-tables".toList, net := fun _ => .timeout,
    json_of := fun _ => none, h1Text := fun _ => none, titleText := fun _ => none,
    anchors := fun _ => [], scripts := fun _ => [], localOffset := 0,
    nowSec := 0, nowMicro := 0 }

def urlC9w : Str := "https://media.fbi.radio/images/show-2000x1125.jpg".toList

def htmlC9a : Str :=
  ("<img src=https://media.fbi.radio/images/show-2000x1125.jpg>" ++
   " <img src=https://media.fbi.radio/images/show-1200x630.jpg>").toList

def htmlC9b : Str :=
  ("<img src=https://media.fbi.radio/images/show-1200x630.jpg>" ++
   " <img src=https://media.fbi.radio/images/show-2000x1125.jpg>").toList

def htmlC9x : Str :=
  ("<img src=https://media.fbi.radio/images/show-2000x1125.jpg>" ++
   " \x22url\x22: \x22https://media.fbi.radio/images/show-1200x630.jpg\x22").toList

/-- Counterexample to C9 as stated: the page contains a widescreen 2000px
variant verbatim (and first), but the JSON-quoted 1200×630 pattern is tried
before the bare 2000px pattern, so the 1200×630 social-preview variant is
returned — the size preference is not independent of how/where each variant
occurs in the markup. -/
theorem c9_counterexample :
    occursIn "https://media.fbi.radio/images/show-2000x1125.jpg".toList htmlC9x = true ∧
    extract_programme_image envC9 htmlC9x =
      .ok (some "https://media.fbi.radio/images/show-1200x630.jpg".toList) :=
  ⟨by decide, by decide⟩

end FbiToRss

namespace FbiToRss

/-! ## Claim C1 -/

/-- Two permuted lists that are both strictly descending in a key are equal. -/
theorem sorted_perm_unique {α : Type} {K : Type} [LinearOrder K] (key : α → K) :
    ∀ (l₁ l₂ : List α), l₁.Perm l₂ →
      l₁.Pairwise (fun a b => key b < key a) →
      l₂.Pairwise (fun a b => key b < key a) → l₁ = l₂ := by
  intro l₁
  induction l₁ with
  | nil =>
    intro l₂ hp _ _
    exact hp.nil_eq
  | cons a t₁ ih =>
    intro l₂ hp hs₁ hs₂
    cases l₂ with
    | nil =>
      have := hp.length_eq
      simp at this
    | cons b t₂ =>
      have hab : a = b := by
        have hbmem : b ∈ a :: t₁ := hp.symm.subset (List.mem_cons_self b t₂)
        rcases List.mem_cons.mp hbmem with hba | hbt
        · exact hba.symm
        · have hamem : a ∈ b :: t₂ := hp.subset (List.mem_cons_self a t₁)
          rcases List.mem_cons.mp hamem with hab | hat
          · exact hab
          · have h1 : key b < key a := (List.pairwise_cons.mp hs₁).1 b hbt
            have h2 : key a < key b := (List.pairwise_cons.mp hs₂).1 a hat
            exact absurd (h1.trans h2) (lt_irrefl _)
      subst hab
      have hpt := hp.cons_inv
      rw [ih t₂ hpt (List.pairwise_cons.mp hs₁).2 (List.pairwise_cons.mp hs₂).2]

/-- Claim C1 (amended): when the *whole-second* publish instants (what
survives into the RFC-822 `pubDate` and hence into the final re-sort) are
pairwise distinct, the emitted items are exactly the per-episode items in
strictly descending timestamp order, the same output for every permutation of
the input list, and this order is enforced by the final-serialization re-sort.
Pairwise-distinct *microsecond* timestamps are not enough: the `pubDate`
round-trip truncates to seconds, episodes of one second tie, and the
stable re-sort then keeps feedgen's prepend-reversed order — see the
counterexample. -/
theorem c1_feed_strict_order (env : Env) (eps : List Episode)
    (haware : ∀ ep ∈ eps, ∀ d, ep.date = some d → (d.tz).isSome)
    (hdistinct : (eps.map toItemT).Pairwise
      (fun a b => get_item_timestamp env a ≠ get_item_timestamp env b)) :
    ∃ items, generate_feed env eps = .ok ⟨items⟩ ∧
      items.Perm (eps.map toItemT) ∧
      items.Pairwise
        (fun a b => get_item_timestamp env b < get_item_timestamp env a) ∧
      (∀ ep ∈ eps, ∀ d o, ep.date = some d → d.tz = some o →
        get_item_timestamp env (toItemT ep) = (d.wallSec - o) - env.localOffset) ∧
      (∀ eps', eps'.Perm eps → generate_feed env eps' = .ok ⟨items⟩) := by
  have hsymm : ∀ {x y : Item},
      get_item_timestamp env x ≠ get_item_timestamp env y →
      get_item_timestamp env y ≠ get_item_timestamp env x :=
    fun h => h.symm
  have build : ∀ (l : List Episode),
      (∀ ep ∈ l, ∀ d, ep.date = some d → (d.tz).isSome) →
      (l.map toItemT).Pairwise
        (fun a b => get_item_timestamp env a ≠ get_item_timestamp env b) →
      generate_feed env l =
        .ok ⟨xmlReorderItems env (((sortD (get_sort_timestamp env) l).map toItemT).reverse)⟩ ∧
      (xmlReorderItems env (((sortD (get_sort_timestamp env) l).map toItemT).reverse)).Perm
        (l.map toItemT) ∧
      (xmlReorderItems env (((sortD (get_sort_timestamp env) l).map toItemT).reverse)).Pairwise
        (fun a b => get_item_timestamp env b < get_item_timestamp env a) := by
    intro l hl hld
    refine ⟨generate_feed_eq env l hl, ?_, ?_⟩
    · calc xmlReorderItems env (((sortD (get_sort_timestamp env) l).map toItemT).reverse)
          |>.Perm (((sortD (get_sort_timestamp env) l).map toItemT).reverse) :=
            sortD_perm _ _
        _ |>.Perm ((sortD (get_sort_timestamp env) l).map toItemT) :=
            List.reverse_perm _
        _ |>.Perm (l.map toItemT) := (sortD_perm _ _).map toItemT
    · have hperm : (xmlReorderItems env
          (((sortD (get_sort_timestamp env) l).map toItemT).reverse)).Perm
            (l.map toItemT) := by
        calc xmlReorderItems env (((sortD (get_sort_timestamp env) l).map toItemT).reverse)
            |>.Perm (((sortD (get_sort_timestamp env) l).map toItemT).reverse) :=
              sortD_perm _ _
          _ |>.Perm ((sortD (get_sort_timestamp env) l).map toItemT) :=
              List.reverse_perm _
          _ |>.Perm (l.map toItemT) := (sortD_perm _ _).map toItemT
      have hne : (xmlReorderItems env
          (((sortD (get_sort_timestamp env) l).map toItemT).reverse)).Pairwise
            (fun a b => get_item_timestamp env a ≠ get_item_timestamp env b) :=
        (hperm.pairwise_iff hsymm).mpr hld
      have hle : (xmlReorderItems env
          (((sortD (get_sort_timestamp env) l).map toItemT).reverse)).Pairwise
            (fun a b => get_item_timestamp env b ≤ get_item_timestamp env a) :=
        sortD_sorted _ _
      exact (hle.and hne).imp (fun h => lt_of_le_of_ne h.1 h.2.symm)
  obtain ⟨hfeed, hperm, hstrict⟩ := build eps haware hdistinct
  refine ⟨_, hfeed, hperm, hstrict, ?_, ?_⟩
  · intro ep hmem d o hd ho
    simp [toItemT, get_item_timestamp, hd, ho]
    omega
  · intro eps' hp
    have haware' : ∀ ep ∈ eps', ∀ d, ep.date = some d → (d.tz).isSome :=
      fun ep hm => haware ep (hp.subset hm)
    have hld' : (eps'.map toItemT).Pairwise
        (fun a b => get_item_timestamp env a ≠ get_item_timestamp env b) :=
      ((hp.map toItemT).pairwise_iff hsymm).mpr hdistinct
    obtain ⟨hfeed', hperm', hstrict'⟩ := build eps' haware' hld'
    rw [hfeed']
    have : xmlReorderItems env (((sortD (get_sort_timestamp env) eps').map toItemT).reverse) =
        xmlReorderItems env (((sortD (get_sort_timestamp env) eps).map toItemT).reverse) :=
      sorted_perm_unique (get_item_timestamp env) _ _
        (hperm'.trans ((hp.map toItemT).trans hperm.symm)) hstrict' hstrict
    rw [this]

end FbiToRss

namespace FbiToRss

def envC1 : Env :=
  { program_slug := "jack-off".toList, net := fun _ => .timeout,
    json_of := fun _ => none, h1Text := fun _ => none, titleText := fun _ => none,
    anchors := fun _ => [], scripts := fun _ => [], localOffset := 0,
    nowSec := 0, nowMicro := 0 }

def dC1a : PyDatetime := { wallSec := 0, micro := 0, tz := some 0 }

def dC1b : PyDatetime := { wallSec := 0, micro := 500000, tz := some 0 }

def epC1a : Episode :=
  { title := .str "A".toList, url := "a".toList, audio_url := none,
    date := some dC1a, description := [] }

def epC1b : Episode :=
  { title := .str "B".toList, url := "b".toList, audio_url := none,
    date := some dC1b, description := [] }

/-- Counterexample to C1 as stated: two episodes with pairwise-distinct
(microsecond) publish timestamps in the same whole second come out in
*ascending* timestamp order — the earlier instant is emitted first.  The
initial sort puts the newer episode first, feedgen's prepend reverses that,
and the final re-sort compares second-truncated `pubDate`s, which tie, so the
stable sort keeps the reversed order. -/
theorem c1_counterexample :
    tsMicro envC1.localOffset dC1a ≠ tsMicro envC1.localOffset dC1b ∧
    tsMicro envC1.localOffset dC1a < tsMicro envC1.localOffset dC1b ∧
    generate_feed envC1 [epC1a, epC1b] =
      .ok ⟨[toItemT epC1a, toItemT epC1b]⟩ :=
  ⟨by decide, by decide, by decide⟩

def epC1w1 : Episode :=
  { title := .str "W1".toList, url := "w1".toList, audio_url := none,
    date := some { wallSec := 100, micro := 0, tz := some 0 }, description := [] }

def epC1w2 : Episode :=
  { title := .str "W2".toList, url := "w2".toList, audio_url := none,
    date := some { wallSec := 200, micro := 0, tz := some 0 }, description := [] }

/-- Witness for the amended C1 on two episodes with distinct whole-second
instants, fed in ascending order. -/
theorem c1_witness :
    ∃ items, generate_feed envC1 [epC1w1, epC1w2] = .ok ⟨items⟩ ∧
      items.Perm ([epC1w1, epC1w2].map toItemT) ∧
      items.Pairwise
        (fun a b => get_item_timestamp envC1 b < get_item_timestamp envC1 a) ∧
      (∀ ep ∈ [epC1w1, epC1w2], ∀ d o, ep.date = some d → d.tz = some o →
        get_item_timestamp envC1 (toItemT ep) = (d.wallSec - o) - envC1.localOffset) ∧
      (∀ eps', eps'.Perm [epC1w1, epC1w2] →
        generate_feed envC1 eps' = .ok ⟨items⟩) :=
  c1_feed_strict_order envC1 [epC1w1, epC1w2]
    (by intro ep hm d hd
        simp at hm
        rcases hm with rfl | rfl <;> (cases hd; rfl))
    (by decide)

end FbiToRss

namespace FbiToRss

/-! ## Claim C2 -/

/-- Claim C2 (amended): when every *dated* episode's whole-second `pubDate`
instant is strictly positive (after the epoch, as every real FBi episode is),
the emitted feed is the dated items (weakly descending by timestamp) followed
by all dateless episodes — but the dateless block appears in *reverse*
discovery order, not discovery order: the initial sort keeps discovery order
for the `-inf`-keyed ties, feedgen's prepend reverses the whole list, and the
final re-sort keys a missing `pubDate` as `0`, so the stable re-sort keeps the
reversed order of that block.  The positivity hypothesis is essential too: a
dated episode whose `pubDate` instant is at or before the epoch sorts at or
below the dateless `0` keys, and dateless episodes can then precede it — see
the counterexample. -/
theorem c2_dateless_placement (env : Env) (eps : List Episode)
    (haware : ∀ ep ∈ eps, ∀ d, ep.date = some d → (d.tz).isSome)
    (hpos : ∀ ep ∈ eps, ep.date.isSome = true →
      0 < get_item_timestamp env (toItemT ep)) :
    ∃ dated, generate_feed env eps =
      .ok ⟨dated ++ ((eps.filter (fun ep => ep.date.isNone)).map toItemT).reverse⟩ ∧
      dated.Perm ((eps.filter (fun ep => ep.date.isSome)).map toItemT) ∧
      (∀ it ∈ dated, (it.pub).isSome = true) ∧
      dated.Pairwise
        (fun a b => get_item_timestamp env b ≤ get_item_timestamp env a) := by
  have hdich : ∀ ep ∈ eps,
      (ep.date.isNone = true ∧ get_item_timestamp env (toItemT ep) = 0 ∧
        get_sort_timestamp env ep = ⊥) ∨
      (ep.date.isSome = true ∧ 0 < get_item_timestamp env (toItemT ep) ∧
        ¬ (get_sort_timestamp env ep = ⊥)) := by
    intro ep hm
    cases hd : ep.date with
    | none =>
      exact Or.inl ⟨by simp [hd], by simp [toItemT, get_item_timestamp, hd],
        by simp [get_sort_timestamp, hd]⟩
    | some d =>
      exact Or.inr ⟨by simp [hd], hpos ep hm (by simp [hd]),
        by simp [get_sort_timestamp, hd]⟩
  -- the intermediate (pre-final-sort) item list
  have hsortmem : ∀ ep ∈ sortD (get_sort_timestamp env) eps, ep ∈ eps :=
    fun ep hm => (sortD_perm _ _).subset hm
  -- E-chain on the episode-level filters
  have hfeq1 : (sortD (get_sort_timestamp env) eps).filter
      (fun ep => get_item_timestamp env (toItemT ep) = 0) =
      (sortD (get_sort_timestamp env) eps).filter
        (fun ep => get_sort_timestamp env ep = ⊥) := by
    apply List.filter_congr
    intro ep hm
    rcases hdich ep (hsortmem ep hm) with ⟨_, hk, hb⟩ | ⟨_, hk, hb⟩
    · simp [hk, hb]
    · simp [hb]
      omega
  have hfeq2 : (sortD (get_sort_timestamp env) eps).filter
      (fun ep => get_sort_timestamp env ep = ⊥) =
      eps.filter (fun ep => get_sort_timestamp env ep = ⊥) :=
    sortD_filter_eq_key (get_sort_timestamp env) ⊥ eps
  have hfeq3 : eps.filter (fun ep => get_sort_timestamp env ep = ⊥) =
      eps.filter (fun ep => ep.date.isNone) := by
    apply List.filter_congr
    intro ep hm
    rcases hdich ep hm with ⟨hn, _, hb⟩ | ⟨hn, _, hb⟩
    · simp [hn, hb]
    · simp [hb]
      cases hd : ep.date with
      | none => rw [hd] at hn; simp at hn
      | some d => simp
  have hfeq4 : eps.filter
      (fun ep => 0 < get_item_timestamp env (toItemT ep)) =
      eps.filter (fun ep => ep.date.isSome) := by
    apply List.filter_congr
    intro ep hm
    rcases hdich ep hm with ⟨hn, hk, _⟩ | ⟨hn, hk, _⟩
    · simp [hk, hn]
    · simp [hk, hn]
  -- dateless part of the intermediate list, via the stability of both sorts
  have hzero : (sortD (get_item_timestamp env)
        (((sortD (get_sort_timestamp env) eps).map toItemT).reverse)).filter
      (fun it => get_item_timestamp env it = 0) =
      ((eps.filter (fun ep => ep.date.isNone)).map toItemT).reverse := by
    rw [sortD_filter_eq_key (get_item_timestamp env) 0]
    rw [List.filter_reverse]
    rw [List.filter_map toItemT]
    show (((sortD (get_sort_timestamp env) eps).filter
      (fun ep => get_item_timestamp env (toItemT ep) = 0)).map toItemT).reverse = _
    rw [hfeq1, hfeq2, hfeq3]
  -- membership dichotomy at the item level
  have hitem : ∀ it ∈ sortD (get_item_timestamp env)
      (((sortD (get_sort_timestamp env) eps).map toItemT).reverse),
      get_item_timestamp env it = 0 ∨ 0 < get_item_timestamp env it := by
    intro it hm
    have hm2 := (sortD_perm _ _).subset hm
    rw [List.mem_reverse, List.mem_map] at hm2
    obtain ⟨ep, hmep, rfl⟩ := hm2
    rcases hdich ep (hsortmem ep hmep) with ⟨_, hk, _⟩ | ⟨_, hk, _⟩
    · exact Or.inl hk
    · exact Or.inr hk
  have hsplit := sorted_split_pos (get_item_timestamp env)
    (sortD (get_item_timestamp env)
      (((sortD (get_sort_timestamp env) eps).map toItemT).reverse))
    (sortD_sorted _ _)
  have hnegeq : (sortD (get_item_timestamp env)
        (((sortD (get_sort_timestamp env) eps).map toItemT).reverse)).filter
      (fun it => ¬ 0 < get_item_timestamp env it) =
      (sortD (get_item_timestamp env)
        (((sortD (get_sort_timestamp env) eps).map toItemT).reverse)).filter
      (fun it => get_item_timestamp env it = 0) := by
    apply List.filter_congr
    intro it hm
    rcases hitem it hm with hk | hk
    · simp [hk]
    · simp [hk]
      omega
  refine ⟨(sortD (get_item_timestamp env)
      (((sortD (get_sort_timestamp env) eps).map toItemT).reverse)).filter
    (fun it => 0 < get_item_timestamp env it), ?_, ?_, ?_, ?_⟩
  · rw [generate_feed_eq env eps haware]
    show Except.ok (FeedOut.mk (sortD (get_item_timestamp env)
      (((sortD (get_sort_timestamp env) eps).map toItemT).reverse))) = _
    rw [← hzero, ← hnegeq, ← hsplit]
  · have hp1 : (sortD (get_item_timestamp env)
        (((sortD (get_sort_timestamp env) eps).map toItemT).reverse)).filter
          (fun it => 0 < get_item_timestamp env it) |>.Perm
        ((((sortD (get_sort_timestamp env) eps).map toItemT).reverse).filter
          (fun it => 0 < get_item_timestamp env it)) :=
      (sortD_perm _ _).filter _
    rw [List.filter_reverse, List.filter_map toItemT] at hp1
    have hp2 := hp1.trans (List.reverse_perm _)
    have hp3 := hp2.trans (((sortD_perm (get_sort_timestamp env) eps).filter
      (fun ep => 0 < get_item_timestamp env (toItemT ep))).map toItemT)
    calc ((sortD (get_item_timestamp env)
        (((sortD (get_sort_timestamp env) eps).map toItemT).reverse)).filter
          (fun it => 0 < get_item_timestamp env it))
        |>.Perm ((eps.filter
          (fun ep => 0 < get_item_timestamp env (toItemT ep))).map toItemT) := hp3
      _ = (eps.filter (fun ep => ep.date.isSome)).map toItemT := by rw [hfeq4]
  · intro it hm
    have hk := List.of_mem_filter hm
    have hm2 := List.mem_of_mem_filter hm
    cases hp : it.pub with
    | some pr => rfl
    | none =>
      have : get_item_timestamp env it = 0 := by simp [get_item_timestamp, hp]
      rw [this] at hk
      simp at hk
  · exact List.Pairwise.sublist (List.filter_sublist _) (sortD_sorted _ _)

end FbiToRss

namespace FbiToRss

def envC2 : Env :=
  { program_slug := "jack-off".toList, net := fun _ => .timeout,
    json_of := fun _ => none, h1Text := fun _ => none, titleText := fun _ => none,
    anchors := fun _ => [], scripts := fun _ => [], localOffset := 0,
    nowSec := 0, nowMicro := 0 }

def epC2n1 : Episode :=
  { title := .str "N1".toList, url := "n1".toList, audio_url := none,
    date := none, description := [] }

def epC2n2 : Episode :=
  { title := .str "N2".toList, url := "n2".toList, audio_url := none,
    date := none, description := [] }

def epC2old : Episode :=
  { title := .str "Old".toList, url := "old".toList, audio_url := none,
    date := some { wallSec := -100, micro := 0, tz := some 0 }, description := [] }

def epC2d : Episode :=
  { title := .str "D".toList, url := "d".toList, audio_url := none,
    date := some { wallSec := 100, micro := 0, tz := some 0 }, description := [] }

/-- Counterexample to C2 as stated: (a) two dateless episodes discovered in
order N1, N2 are emitted as N2, N1 — their relative discovery order is
reversed, not preserved; (b) a dateless episode is emitted *before* a dated
pre-epoch episode: a missing `pubDate` is keyed `0` in the final re-sort,
which beats the dated episode's negative timestamp. -/
theorem c2_counterexample :
    generate_feed envC2 [epC2n1, epC2n2] =
      .ok ⟨[toItemT epC2n2, toItemT epC2n1]⟩ ∧
    generate_feed envC2 [epC2n1, epC2old] =
      .ok ⟨[toItemT epC2n1, toItemT epC2old]⟩ ∧
    (epC2old.date).isSome = true ∧ (epC2n1.date).isSome = false :=
  ⟨by decide, by decide, by decide, by decide⟩

/-- Witness for the amended C2 on one dated (post-epoch) and one dateless
episode. -/
theorem c2_witness :
    ∃ dated, generate_feed envC2 [epC2d, epC2n1] =
      .ok ⟨dated ++
        (([epC2d, epC2n1].filter (fun ep => ep.date.isNone)).map toItemT).reverse⟩ ∧
      dated.Perm (([epC2d, epC2n1].filter (fun ep => ep.date.isSome)).map toItemT) ∧
      (∀ it ∈ dated, (it.pub).isSome = true) ∧
      dated.Pairwise
        (fun a b => get_item_timestamp envC2 b ≤ get_item_timestamp envC2 a) :=
  c2_dateless_placement envC2 [epC2d, epC2n1]
    (by
      intro ep hm d hd
      simp at hm
      rcases hm with rfl | rfl
      · cases hd
        rfl
      · cases hd)
    (by decide)

end FbiToRss

namespace FbiToRss

/-! ## Claim C9: universal bare-family preference lemmas -/

theorem matchLitCI_mem : ∀ (pat s sl r : Str), matchLitCI pat s = some (sl, r) →
    ∀ c ∈ sl, ∃ p ∈ pat, p.toLower = c.toLower := by
  intro pat
  induction pat with
  | nil =>
    intro s sl r h c hc
    simp [matchLitCI] at h
    rw [h.1] at hc
    simp at hc
  | cons p ps ih =>
    intro s sl r h c hc
    cases s with
    | nil => simp [matchLitCI] at h
    | cons c0 cs =>
      simp only [matchLitCI] at h
      by_cases hp : p.toLower = c0.toLower
      · rw [if_pos hp] at h
        cases hm : matchLitCI ps cs with
        | none => rw [hm] at h; simp at h
        | some pr =>
          rw [hm] at h
          simp at h
          rw [← h.1] at hc
          rcases List.mem_cons.mp hc with rfl | hctail
          · exact ⟨p, List.mem_cons_self p ps, hp⟩
          · obtain ⟨p', hp', hpl⟩ := ih cs pr.1 pr.2 (by rw [hm]) c hctail
            exact ⟨p', List.mem_cons_of_mem p hp', hpl⟩
      · rw [if_neg hp] at h
        simp at h

theorem takeClassRun_mem (cls : Char → Bool) : ∀ (s : Str) (c : Char),
    c ∈ (takeClassRun cls s).1 → cls c = true := by
  intro s
  induction s with
  | nil => intro c hc; simp [takeClassRun] at hc
  | cons a t ih =>
    intro c hc
    by_cases ha : cls a = true
    · simp only [takeClassRun, ha, if_true] at hc
      rcases List.mem_cons.mp hc with rfl | hct
      · exact ha
      · exact ih c hct
    · simp only [takeClassRun, ha, if_false] at hc
      simp at hc

theorem bareImgPatAt_no_quote (tc : Str → Bool) (n : Nat) (s m : Str)
    (h : bareImgPatAt tc n s = some m) : ∀ c ∈ m, ¬(c = '"') := by
  unfold bareImgPatAt at h
  cases hl : matchLitCI "https://media.fbi.radio/images/".toList s with
  | none =>
    rw [hl] at h
    exact absurd h (by simp)
  | some pr =>
    obtain ⟨lit, r0⟩ := pr
    rw [hl] at h
    have h2 : (do
        let i ← ((boolHitPositions tc ((takeClassRun looseUrlChar r0).1)).filter
          (fun i => 1 ≤ i)).getLast?
        some (lit ++ ((takeClassRun looseUrlChar r0).1).take (i + n))) = some m := h
    cases hg : ((boolHitPositions tc ((takeClassRun looseUrlChar r0).1)).filter
        (fun i => 1 ≤ i)).getLast? with
    | none =>
      rw [hg] at h2
      exact absurd h2 (by simp)
    | some i =>
      rw [hg] at h2
      have hm : lit ++ ((takeClassRun looseUrlChar r0).1).take (i + n) = m :=
        Option.some.inj h2
      intro c hc he
      rw [← hm] at hc
      rcases List.mem_append.mp hc with hcl | hcr
      · obtain ⟨p, hp, hpl⟩ := matchLitCI_mem _ s lit r0 hl c hcl
        subst he
        have hq : p.toLower = '"' := by
          rw [hpl]
          decide
        have hall : ∀ p ∈ "https://media.fbi.radio/images/".toList,
            ¬(p.toLower = '"') := by decide
        exact hall p hp hq
      · have hcls := takeClassRun_mem looseUrlChar r0 c
          (List.mem_of_mem_take hcr)
        subst he
        exact absurd hcls (by decide)

theorem findallAux_mem (matchAt : Str → Option Str) :
    ∀ (fuel : Nat) (s m : Str), m ∈ findallAux matchAt fuel s →
      ∃ s', matchAt s' = some m := by
  intro fuel
  induction fuel with
  | zero => intro s m h; simp [findallAux] at h
  | succ f ih =>
    intro s m h
    cases s with
    | nil => simp [findallAux] at h
    | cons c cs =>
      cases hm : matchAt (c :: cs) with
      | some m0 =>
        simp only [findallAux, hm] at h
        rcases List.mem_cons.mp h with rfl | ht
        · exact ⟨c :: cs, hm⟩
        · exact ih _ m ht
      | none =>
        simp only [findallAux, hm] at h
        exact ih cs m h

theorem bare2000_matches_no_quote (html : Str) :
    ∀ m ∈ findallPat (bareImgPatAt tail2000At 14) html, ∀ c ∈ m, ¬(c = '"') := by
  intro m hm
  obtain ⟨s', hs'⟩ := findallAux_mem _ html.length html m hm
  exact bareImgPatAt_no_quote tail2000At 14 s' m hs'

theorem innerQuotedAt_none (c : Char) (cs : Str) (hc : ¬(c = '"')) :
    innerQuotedAt (c :: cs) = none := by
  have hs : startsWithL "\"https://media.fbi.radio/images/".toList (c :: cs) = false := by
    show (decide ('"' = c) && startsWithL "https://media.fbi.radio/images/".toList cs)
        = false
    have hd : decide ('"' = c) = false := by
      rw [decide_eq_false_iff_not]
      intro h
      exact hc h.symm
    rw [hd]
    rfl
  unfold innerQuotedAt
  rw [if_neg (by simpa using hs)]

theorem innerQuotedSearch_none : ∀ (s : Str), (∀ c ∈ s, ¬(c = '"')) →
    innerQuotedSearch s = none
  | [], _ => rfl
  | c :: cs, h => by
    show (match innerQuotedAt (c :: cs) with
      | some m => some m
      | none => innerQuotedSearch cs) = none
    rw [innerQuotedAt_none c cs (h c (List.mem_cons_self c cs))]
    exact innerQuotedSearch_none cs (fun x hx => h x (List.mem_cons_of_mem c hx))

theorem procHighMatch_some_shape (lbl m : Str) (acc : List (Str × Str))
    (hq : ∀ c ∈ m, ¬(c = '"')) (u : Str) (acc2 : List (Str × Str))
    (h : procHighMatch lbl m acc = (some u, acc2)) : u = encodeSpaces m := by
  simp only [procHighMatch] at h
  by_cases hu : occursIn "url".toList m = true
  · rw [if_pos hu, innerQuotedSearch_none m hq] at h
    exact absurd ((Prod.mk.injEq _ _ _ _).mp h).1 (by simp)
  · rw [if_neg hu] at h
    by_cases hh : startsWithL "http".toList m = true
    · rw [if_pos hh] at h
      repeat' split at h
      all_goals simp_all
    · rw [if_neg hh] at h
      exact absurd ((Prod.mk.injEq _ _ _ _).mp h).1 (by simp)

theorem procHighMatch_hit (lbl m : Str) (acc : List (Str × Str))
    (hlbl : isHigh3 lbl = true)
    (hurl : occursIn "url".toList m = false)
    (hhttp : startsWithL "http".toList m = true)
    (hgen : is_generic_image (encodeSpaces m) = false)
    (hsize : sizeSub (encodeSpaces m) = true) :
    ∃ acc2, procHighMatch lbl m acc = (some (encodeSpaces m), acc2) := by
  refine ⟨if acc.any (fun p => p.1 = encodeSpaces m) then acc
    else acc ++ [(encodeSpaces m, lbl)], ?_⟩
  simp only [procHighMatch]
  rw [if_neg (by simpa using hurl), if_pos hhttp, if_neg (by simpa using hgen),
    if_pos hsize, if_pos hlbl]

theorem runHighMatches_first_success (lbl : Str) (hlbl : isHigh3 lbl = true) :
    ∀ (ms : List Str) (acc : List (Str × Str)),
      (∀ m ∈ ms, ∀ c ∈ m, ¬(c = '"')) →
      (∃ m ∈ ms, occursIn "url".toList m = false ∧
        startsWithL "http".toList m = true ∧
        is_generic_image (encodeSpaces m) = false ∧
        sizeSub (encodeSpaces m) = true) →
      ∃ m' ∈ ms, is_generic_image (encodeSpaces m') = false ∧
        ∃ acc2, runHighMatches lbl ms acc = (some (encodeSpaces m'), acc2) := by
  intro ms
  induction ms with
  | nil =>
    intro acc _ hex
    simp at hex
  | cons m0 ms ih =>
    intro acc hq hex
    cases hpm : procHighMatch lbl m0 acc with
    | mk o acc2 =>
      cases o with
      | some u0 =>
        have hu0 : u0 = encodeSpaces m0 :=
          procHighMatch_some_shape lbl m0 acc
            (hq m0 (List.mem_cons_self m0 ms)) u0 acc2 hpm
        subst hu0
        refine ⟨m0, List.mem_cons_self m0 ms,
          procHighMatch_some_nongeneric lbl m0 acc _ acc2 hpm, acc2, ?_⟩
        simp only [runHighMatches, hpm]
      | none =>
        obtain ⟨m, hm, hurl, hhttp, hgen, hsize⟩ := hex
        have hmtail : m ∈ ms := by
          rcases List.mem_cons.mp hm with rfl | ht
          · obtain ⟨acc2', hhit⟩ :=
              procHighMatch_hit lbl m acc hlbl hurl hhttp hgen hsize
            rw [hpm] at hhit
            exact absurd ((Prod.mk.injEq _ _ _ _).mp hhit).1 (by simp)
          · exact ht
        obtain ⟨m', hm', hng, acc3, hrun⟩ := ih acc2
          (fun x hx => hq x (List.mem_cons_of_mem m0 hx))
          ⟨m, hmtail, hurl, hhttp, hgen, hsize⟩
        refine ⟨m', List.mem_cons_of_mem m0 hm', hng, acc3, ?_⟩
        simp only [runHighMatches, hpm]
        exact hrun

theorem runHighPats_cons_empty (pm : Str → Option Str) (lbl : Str)
    (ps : List ((Str → Option Str) × Str)) (html : Str) (acc : List (Str × Str))
    (h : findallPat pm html = []) :
    runHighPats ((pm, lbl) :: ps) html acc = runHighPats ps html acc := by
  show (match runHighMatches lbl (findallPat pm html) acc with
    | (some u, acc2) => (some u, acc2)
    | (none, acc2) => runHighPats ps html acc2) = _
  rw [h]
  rfl

theorem runHighPats_cons_some (pm : Str → Option Str) (lbl : Str)
    (ps : List ((Str → Option Str) × Str)) (html : Str) (acc : List (Str × Str))
    (u : Str) (acc2 : List (Str × Str))
    (h : runHighMatches lbl (findallPat pm html) acc = (some u, acc2)) :
    runHighPats ((pm, lbl) :: ps) html acc = (some u, acc2) := by
  show (match runHighMatches lbl (findallPat pm html) acc with
    | (some u, acc2) => (some u, acc2)
    | (none, acc2) => runHighPats ps html acc2) = _
  rw [h]

/-- On a page with no JSON-quoted size-variant hit, a well-formed non-generic
bare 2000px match wins, wherever any 1200×630 or 800×450 variants occur: the
returned URL is one of the bare-2000 matches. -/
theorem bare2000_family_preference (html : Str)
    (h1 : findallPat (jsonImgPatAt tail2000At 14) html = [])
    (h2 : findallPat (jsonImgPatAt tailOgAt 13) html = [])
    (h3 : findallPat (jsonImgPatAt tail800At 12) html = [])
    (hex : ∃ m ∈ findallPat (bareImgPatAt tail2000At 14) html,
      occursIn "url".toList m = false ∧ startsWithL "http".toList m = true ∧
      is_generic_image (encodeSpaces m) = false ∧ sizeSub (encodeSpaces m) = true) :
    ∃ m ∈ findallPat (bareImgPatAt tail2000At 14) html,
      is_generic_image (encodeSpaces m) = false ∧
      imageRegexPhase html = some (encodeSpaces m) := by
  obtain ⟨m', hm', hng, acc2, hrun⟩ :=
    runHighMatches_first_success "wide_2000".toList (by decide)
      (findallPat (bareImgPatAt tail2000At 14) html) []
      (bare2000_matches_no_quote html) hex
  refine ⟨m', hm', hng, ?_⟩
  unfold imageRegexPhase
  rw [show highPriorityPats =
      (jsonImgPatAt tail2000At 14, "wide_2000".toList) ::
      (jsonImgPatAt tailOgAt 13, "opengraph".toList) ::
      (jsonImgPatAt tail800At 12, "wide_800".toList) ::
      (bareImgPatAt tail2000At 14, "wide_2000".toList) ::
      (bareImgPatAt tailOgAt 13, "opengraph".toList) ::
      (bareImgPatAt tail800At 12, "wide_800".toList) ::
      (dotImgPatAt tail2000At 14, "wide_2000".toList) ::
      (dotImgPatAt tailOgAt 13, "opengraph".toList) ::
      (dotImgPatAt tail800At 12, "wide_800".toList) :: [] from rfl]
  rw [runHighPats_cons_empty _ _ _ _ _ h1, runHighPats_cons_empty _ _ _ _ _ h2,
    runHighPats_cons_empty _ _ _ _ _ h3,
    runHighPats_cons_some _ _ _ _ _ _ _ hrun]

end FbiToRss

namespace FbiToRss

/-- Claim C9 (amended): when cover-image recovery falls through to the
raw-markup regex scan — no override-table entry and either no structured
data, or structured data in which neither the programme object nor the blind
image search yields anything — the result is `imageRegexPhase`; a URL
matching the denylist of generic image filename prefixes is *never* the
returned value; and within the bare-URL pattern family the widescreen 2000px
size is preferred *universally*: on any page with no JSON-quoted size-variant
match, if a well-formed non-generic bare 2000px match exists then the chosen
URL is one of the bare 2000px matches, independently of where any 1200×630 or
800×450 variants occur (the two concrete pages additionally show both
orderings of a 2000px/1200×630 pair).  Across syntactic families the
preference does not hold: each *pattern* is scanned in source order, and all
three JSON-quoted patterns precede the bare 2000px pattern — see the
counterexample. -/
theorem c9_image_regex_phase (env : Env) (html : Str) :
    (lookupStr env.program_slug KNOWN_PROGRAMME_IMAGES = none →
      env.json_of html = none →
      extract_programme_image env html = .ok (imageRegexPhase html)) ∧
    (∀ j, lookupStr env.program_slug KNOWN_PROGRAMME_IMAGES = none →
      env.json_of html = some j →
      find_programme_in_json j env.program_slug = .ok none →
      extract_image_from_json j = .ok none →
      extract_programme_image env html = .ok (imageRegexPhase html)) ∧
    (∀ u, imageRegexPhase html = some u → is_generic_image u = false) ∧
    (findallPat (jsonImgPatAt tail2000At 14) html = [] →
     findallPat (jsonImgPatAt tailOgAt 13) html = [] →
     findallPat (jsonImgPatAt tail800At 12) html = [] →
     (∃ m ∈ findallPat (bareImgPatAt tail2000At 14) html,
       occursIn "url".toList m = false ∧ startsWithL "http".toList m = true ∧
       is_generic_image (encodeSpaces m) = false ∧
       sizeSub (encodeSpaces m) = true) →
     ∃ m ∈ findallPat (bareImgPatAt tail2000At 14) html,
       is_generic_image (encodeSpaces m) = false ∧
       imageRegexPhase html = some (encodeSpaces m)) ∧
    imageRegexPhase htmlC9a = some urlC9w ∧
    imageRegexPhase htmlC9b = some urlC9w := by
  refine ⟨?_, ?_, imageRegexPhase_nongeneric html,
    bare2000_family_preference html, by decide, by decide⟩
  · intro hov hj
    unfold extract_programme_image
    rw [hov, hj]
  · intro j hov hj hprog him
    unfold extract_programme_image
    rw [hov]
    simp only [hj]
    rw [hprog]
    show (do
      let r2 ← extract_image_from_json j
      match r2 with
      | some u =>
        if is_generic_image u then Except.ok (imageRegexPhase html)
        else Except.ok (some u)
      | none => Except.ok (imageRegexPhase html)) = _
    rw [him]
    rfl

/-- Witness for C9: the fall-through equation on a concrete page, the
never-generic conjunct instantiated at that page's actual result, and the
universal bare-family preference instantiated on that page. -/
theorem c9_witness :
    extract_programme_image envC9 htmlC9a = .ok (imageRegexPhase htmlC9a) ∧
    is_generic_image urlC9w = false ∧
    (∃ m ∈ findallPat (bareImgPatAt tail2000At 14) htmlC9a,
      is_generic_image (encodeSpaces m) = false ∧
      imageRegexPhase htmlC9a = some (encodeSpaces m)) :=
  ⟨(c9_image_regex_phase envC9 htmlC9a).1 (by decide) rfl,
   (c9_image_regex_phase envC9 htmlC9a).2.2.1 urlC9w (by decide),
   (c9_image_regex_phase envC9 htmlC9a).2.2.2.1 (by decide) (by decide) (by decide)
     (by decide)⟩

end FbiToRss
